import Mathlib

/-
Shallow embedding of the PixelRefiner image-processing core (TypeScript).

Modelling conventions:
* JS `number` arithmetic is embedded as exact rational arithmetic (`ℚ`); integer
  quantities use `ℕ`/`ℤ`.  The Oklab color conversions (`colorUtils.ts`), which use
  `Math.cbrt` and fractional powers, are embedded over `ℝ` with `Real.rpow`.
* An RGBA bitmap (`RawImage` with a `Uint8ClampedArray`) is a record of width, height
  and a flat byte list in row-major RGBA order.  A store into a `Uint8ClampedArray`
  clamps to [0, 255] and rounds ties-to-even; reads outside the buffer yield 0 here
  (JS yields `undefined`; no in-range program path performs such a read).
* The visited bitsets of flood fill / component labelling are embedded as `Finset`s
  of in-range positions, and the worklists as lists of in-range coordinates.
* `Math.random`-driven choices in the K-means quantizer are parameterized by an
  explicit oracle record, and the transcendental `Math.log1p` of the detector score
  by an explicit function argument; every theorem below quantifies over these.
-/

namespace PixelRefiner

/-- JS `Math.round x` equals `⌊x + 1/2⌋` on all finite inputs. -/
def jsRound (x : ℚ) : ℤ := ⌊x + 1/2⌋

/-- JS `Math.trunc`: round toward zero. -/
def jsTrunc (x : ℚ) : ℤ := if 0 ≤ x then ⌊x⌋ else ⌈x⌉

/-- Round to the nearest integer with ties to even, the rounding a
`Uint8ClampedArray` store applies to fractional values. -/
def rhe (x : ℚ) : ℤ :=
  let n := ⌊x⌋
  let f := x - n
  if f < 1/2 then n
  else if 1/2 < f then n + 1
  else if Even n then n else n + 1

/-- Store conversion of a `Uint8ClampedArray`: clamp to [0, 255], ties-to-even. -/
def u8c (x : ℚ) : ℕ :=
  (if x < 0 then (0 : ℤ) else if 255 < x then 255 else rhe x).toNat

/-- RGBA pixel as four byte channels (`Pixel` in `shared/types.ts`). -/
structure Px where
  r : ℕ
  g : ℕ
  b : ℕ
  a : ℕ
deriving DecidableEq, Repr

/-- RawImage from `shared/types.ts`: dimensions plus the flat RGBA byte buffer. -/
structure RawImage where
  width : ℕ
  height : ℕ
  data : List ℕ
deriving DecidableEq, Repr

/-- Read one byte of the buffer (out-of-range reads yield 0, see header note). -/
def RawImage.byte (img : RawImage) (i : ℕ) : ℕ := img.data.getD i 0

/-- getPixel from `core/ops.ts`: coordinates are clamped into range before reading. -/
def getPixel (img : RawImage) (x y : ℤ) : Px :=
  let cx := min ((img.width : ℤ) - 1) (max 0 x)
  let cy := min ((img.height : ℤ) - 1) (max 0 y)
  let idx := ((cy * img.width + cx) * 4).toNat
  ⟨img.byte idx, img.byte (idx + 1), img.byte (idx + 2), img.byte (idx + 3)⟩

/-- setPixel from `core/ops.ts`: out-of-range writes are dropped. -/
def setPixel (img : RawImage) (x y : ℤ) (p : Px) : RawImage :=
  if x < 0 ∨ y < 0 ∨ (img.width : ℤ) ≤ x ∨ (img.height : ℤ) ≤ y then img
  else
    let idx := (y.toNat * img.width + x.toNat) * 4
    { img with
      data := ((((img.data.set idx p.r).set (idx + 1) p.g).set (idx + 2) p.b).set
        (idx + 3) p.a) }

/-- Map a function over the RGBA quadruples of a flat byte buffer (the
`for (i = 0; i < len; i += 4)` loops over a `Uint8ClampedArray`). -/
def mapRGBA (f : ℕ → ℕ → ℕ → ℕ → List ℕ) : List ℕ → List ℕ
  | r :: g :: b :: a :: rest => f r g b a ++ mapRGBA f rest
  | rest => rest

/-- Per-channel posterize step of `posterize` in `core/ops.ts`. -/
def posterizeChannel (c : ℕ) (step : ℚ) : ℚ :=
  min 255 (max 0 ((⌊(c : ℚ) / step⌋ : ℚ) * step))

/-- posterize from `core/ops.ts`; `step ≤ 0` returns a clone (identical value here). -/
def posterize (img : RawImage) (step : ℚ) : RawImage :=
  if step ≤ 0 then img
  else
    { img with
      data := mapRGBA (fun r g b a =>
        [u8c (posterizeChannel r step), u8c (posterizeChannel g step),
         u8c (posterizeChannel b step), a]) img.data }

/-- extractStrip from `core/ops.ts` along axis y (a row): pixels at `y = pos`. -/
def extractStripY (img : RawImage) (pos : ℚ) : List Px :=
  let y := min ((img.height : ℤ) - 1) (max 0 (jsRound pos))
  (List.range img.width).map (fun x => getPixel img x y)

/-- extractStrip from `core/ops.ts` along axis x (a column): pixels at `x = pos`. -/
def extractStripX (img : RawImage) (pos : ℚ) : List Px :=
  let x := min ((img.width : ℤ) - 1) (max 0 (jsRound pos))
  (List.range img.height).map (fun y => getPixel img x y)

/-- Ascending numeric sort, the JS `values.sort((a, b) => a - b)`. -/
def sortQ (l : List ℚ) : List ℚ := l.mergeSort (fun a b => decide (a ≤ b))

/-- computeMedian from `core/math.ts`. -/
def computeMedian (values : List ℚ) : ℚ :=
  if values.length = 0 then 0
  else
    let sorted := sortQ values
    let mid := values.length / 2
    if values.length % 2 = 0 then (sorted.getD (mid - 1) 0 + sorted.getD mid 0) / 2
    else sorted.getD mid 0

/-- computePercentile from `core/math.ts` (linear interpolation). -/
def computePercentile (values : List ℚ) (p : ℚ) : ℚ :=
  if values.length = 0 then 0
  else
    let sorted := sortQ values
    let clamped := min 100 (max 0 p)
    let idx := clamped / 100 * ((values.length : ℚ) - 1)
    let lo := ⌊idx⌋
    let hi := ⌈idx⌉
    if lo = hi then sorted.getD lo.toNat 0
    else
      let t := idx - (lo : ℚ)
      sorted.getD lo.toNat 0 * (1 - t) + sorted.getD hi.toNat 0 * t

/-- medianOf from `core/processor.ts` (same mathematics as computeMedian; the
source sorts in place, which is unobservable in the value model). -/
def medianOf (values : List ℚ) : ℚ :=
  if values.length = 0 then 0
  else
    let sorted := sortQ values
    let mid := values.length / 2
    if values.length % 2 = 0 then (sorted.getD (mid - 1) 0 + sorted.getD mid 0) / 2
    else sorted.getD mid 0

/-- withinTolerance from `core/floodfill.ts`: per-channel absolute difference. -/
def withinTolerance (a₁ a₂ a₃ b₁ b₂ b₃ : ℕ) (tol : ℚ) : Bool :=
  decide (|(a₁ : ℚ) - (b₁ : ℚ)| ≤ tol) && decide (|(a₂ : ℚ) - (b₂ : ℚ)| ≤ tol) &&
    decide (|(a₃ : ℚ) - (b₃ : ℚ)| ≤ tol)

/-- Position index `y * w + x` of an in-range coordinate pair. -/
def posIdx {w h : ℕ} (x : Fin w) (y : Fin h) : ℕ := (y : ℕ) * w + (x : ℕ)

/-- Push the in-range 4-neighbors of `(x, y)` onto the stack, mirroring the four
guarded `stack.push` calls of the flood-fill source (list head = top of stack, so
the pop order matches the JS array used as a stack). -/
def pushNbrs {w h : ℕ} (x : Fin w) (y : Fin h) (stack : List (Fin w × Fin h)) :
    List (Fin w × Fin h) :=
  let s1 := if hx : 0 < (x : ℕ) then
    (⟨(x : ℕ) - 1, by have := x.isLt; omega⟩, y) :: stack else stack
  let s2 := if hx : (x : ℕ) + 1 < w then (⟨(x : ℕ) + 1, hx⟩, y) :: s1 else s1
  let s3 := if hy : 0 < (y : ℕ) then
    (x, ⟨(y : ℕ) - 1, by have := y.isLt; omega⟩) :: s2 else s2
  if hy : (y : ℕ) + 1 < h then (x, ⟨(y : ℕ) + 1, hy⟩) :: s3 else s3

/-- Worklist loop of floodFillTransparent (`core/floodfill.ts`): pop a coordinate,
skip it if visited, mark it, then test tolerance against the seed RGB and alpha;
on acceptance write alpha 0 (RGB preserved) and push the in-range 4-neighbors. -/
def ffLoop (w h : ℕ) (tol : ℚ) (t₁ t₂ t₃ : ℕ) :
    RawImage → Finset ℕ → List (Fin w × Fin h) → RawImage × Finset ℕ
  | img, visited, [] => (img, visited)
  | img, visited, (x, y) :: stack =>
    if posIdx x y ∈ visited then ffLoop w h tol t₁ t₂ t₃ img visited stack
    else
      let visited' := insert (posIdx x y) visited
      let px := getPixel img (x : ℕ) (y : ℕ)
      if withinTolerance px.r px.g px.b t₁ t₂ t₃ tol = false then
        ffLoop w h tol t₁ t₂ t₃ img visited' stack
      else if px.a = 0 then
        ffLoop w h tol t₁ t₂ t₃ img visited' stack
      else
        ffLoop w h tol t₁ t₂ t₃ (setPixel img (x : ℕ) (y : ℕ) ⟨px.r, px.g, px.b, 0⟩)
          visited' (pushNbrs x y stack)
termination_by img visited stack =>
  5 * (Finset.range (w * h) \ visited).card + stack.length
decreasing_by
  all_goals simp only [List.length_cons]
  all_goals
    first
      | omega
      | (have hlt : posIdx x y < w * h := by
           have hx := x.isLt
           have hy := y.isLt
           have h1 : (y : ℕ) * w + (x : ℕ) < ((y : ℕ) + 1) * w := by
             rw [Nat.succ_mul]; omega
           have h2 : ((y : ℕ) + 1) * w ≤ h * w := Nat.mul_le_mul_right w (by omega)
           calc posIdx x y < ((y : ℕ) + 1) * w := h1
             _ ≤ h * w := h2
             _ = w * h := Nat.mul_comm h w
         have hmem : ¬ posIdx x y ∈ visited := by assumption
         have he : Finset.range (w * h) \ insert (posIdx x y) visited =
             (Finset.range (w * h) \ visited).erase (posIdx x y) := by
           ext a
           simp only [Finset.mem_sdiff, Finset.mem_erase, Finset.mem_insert,
             Finset.mem_range]
           tauto
         have h1 : (Finset.range (w * h) \ insert (posIdx x y) visited).card <
             (Finset.range (w * h) \ visited).card := by
           rw [he]
           exact Finset.card_erase_lt_of_mem (by simp [Finset.mem_sdiff, hlt, hmem])
         have h2 : (pushNbrs x y stack).length ≤ stack.length + 4 := by
           unfold pushNbrs
           split_ifs <;> simp <;> omega
         omega)

/-- floodFillTransparent from `core/floodfill.ts`, threading the (possibly shared)
visited bitset; returns the updated image together with the bitset. -/
def floodFillTransparentVisited (img : RawImage) (startX startY : ℤ) (tol : ℚ)
    (visited : Finset ℕ) : RawImage × Finset ℕ :=
  if h : startX < 0 ∨ startY < 0 ∨ (img.width : ℤ) ≤ startX ∨
      (img.height : ℤ) ≤ startY then
    (img, visited)
  else
    let seed := getPixel img startX startY
    ffLoop img.width img.height tol seed.r seed.g seed.b img visited
      [(⟨startX.toNat, by omega⟩, ⟨startY.toNat, by omega⟩)]

/-- floodFillTransparent without an external visited bitset (the
`visitedExternal ?? new Uint8Array(w * h)` branch allocates a fresh one). -/
def floodFillTransparent (img : RawImage) (startX startY : ℤ) (tol : ℚ) :
    RawImage :=
  (floodFillTransparentVisited img startX startY tol ∅).1

/-- Split a flat RGBA byte buffer into pixels (`Uint32Array` view iteration). -/
def pxList : List ℕ → List Px
  | r :: g :: b :: a :: rest => ⟨r, g, b, a⟩ :: pxList rest
  | _ => []

/-- Run from `core/detector.ts`: start index, length and quantized RGB. -/
structure Run where
  start : ℕ
  length : ℕ
  color : ℚ × ℚ × ℚ
deriving DecidableEq, Repr

/-- Segment from `core/detector.ts`: start index plus its runs. -/
structure Segment where
  start : ℕ
  runs : List Run
deriving DecidableEq, Repr

/-- Local quantize of `core/detector.ts` (same formula as posterizeChannel but
with the `step ≤ 0` identity branch). -/
def detQuantize (value : ℕ) (step : ℚ) : ℚ :=
  if step ≤ 0 then value
  else min 255 (max 0 ((⌊(value : ℚ) / step⌋ : ℚ) * step))

/-- Quantized RGB triple of one pixel. -/
def detQuantizePx (p : Px) (step : ℚ) : ℚ × ℚ × ℚ :=
  (detQuantize p.r step, detQuantize p.g step, detQuantize p.b step)

/-- Split a strip into maximal opaque segments with their start indices (the
outer `while` of getRunLengths). -/
def segSplit (alphaThreshold : ℕ) : ℕ → List Px → List (ℕ × List Px)
  | _, [] => []
  | i, p :: rest =>
    if p.a < alphaThreshold then segSplit alphaThreshold (i + 1) rest
    else
      let seg := (p :: rest).takeWhile (fun q => decide (alphaThreshold ≤ q.a))
      let rest' := (p :: rest).dropWhile (fun q => decide (alphaThreshold ≤ q.a))
      (i, seg) :: segSplit alphaThreshold (i + seg.length) rest'
termination_by i l => l.length
decreasing_by
  · simp only [List.length_cons]; omega
  · have h1 : (p :: rest).dropWhile (fun q => decide (alphaThreshold ≤ q.a)) =
        rest.dropWhile (fun q => decide (alphaThreshold ≤ q.a)) := by
      rw [List.dropWhile_cons_of_pos (by simpa using by omega)]
    have h2 : (rest.dropWhile (fun q => decide (alphaThreshold ≤ q.a))).length ≤
        rest.length :=
      (List.dropWhile_sublist _).length_le
    simp only [h1, List.length_cons]
    omega

/-- Run accumulation inside a segment (the `for k` loop of getRunLengths):
`runStart`, the index `k` of the pixel at the list head, and the previous
quantized color are threaded through. -/
def buildRuns (segStart : ℕ) (step : ℚ) :
    ℕ → ℕ → ℚ × ℚ × ℚ → List Px → List Run
  | runStart, k, prev, [] => [⟨segStart + runStart, k - runStart, prev⟩]
  | runStart, k, prev, p :: rest =>
    let cur := detQuantizePx p step
    if cur ≠ prev then
      ⟨segStart + runStart, k - runStart, prev⟩ ::
        buildRuns segStart step k (k + 1) cur rest
    else buildRuns segStart step runStart (k + 1) prev rest

/-- Noise smoothing of getRunLengths: a single-pixel run whose neighbors share a
color is absorbed into the previous smoothed run (the source applies it only
when a segment has at least 3 runs). -/
def smoothRuns (runs : List Run) : List Run :=
  (List.range runs.length).foldl (fun smoothed idx =>
    let dflt : Run := ⟨0, 0, (0, 0, 0)⟩
    let run := runs.getD idx dflt
    if run.length = 1 ∧ 1 ≤ idx ∧ idx + 1 < runs.length ∧
        (runs.getD (idx - 1) dflt).color = (runs.getD (idx + 1) dflt).color then
      if smoothed = [] then
        [⟨run.start, run.length, (runs.getD (idx - 1) dflt).color⟩]
      else
        let last := smoothed.getLastD dflt
        smoothed.dropLast ++ [⟨last.start, last.length + 1, last.color⟩]
    else smoothed ++ [run]) []

/-- getRunLengths from `core/detector.ts`. -/
def getRunLengths (strip : List Px) (quantStep : ℚ) (alphaThreshold : ℕ := 16) :
    List Segment :=
  if strip.length = 0 then []
  else if ¬ strip.any (fun p => decide (alphaThreshold ≤ p.a)) then []
  else
    (segSplit alphaThreshold 0 strip).filterMap (fun se =>
      match se.2 with
      | [] => none
      | q :: rest =>
        let runs := buildRuns se.1 quantStep 0 1 (detQuantizePx q quantStep) rest
        if 3 ≤ runs.length then some ⟨se.1, smoothRuns runs⟩
        else some ⟨se.1, runs⟩)

/-- Estimate from `core/detector.ts`. -/
structure Estimate where
  cellSize : ℕ
  offset : ℕ
  score : ℚ
deriving DecidableEq, Repr

/-- BoundaryData from `core/detector.ts`. -/
structure BoundaryData where
  runLengths : List ℕ
  boundaries : List ℕ
deriving DecidableEq, Repr

/-- collectBoundaryData: run lengths ≥ 2 plus the interior run boundaries. -/
def collectBoundaryData (segLists : List (List Segment)) : BoundaryData :=
  { runLengths := (segLists.flatten.map (fun s =>
      (s.runs.filter (fun r => decide (2 ≤ r.length))).map Run.length)).flatten
    boundaries := (segLists.flatten.map (fun s =>
      (s.runs.drop 1).map Run.start)).flatten }

/-- Wrap-around boundary deviation `min ((b - off) mod s, s - ((b - off) mod s))`
(the double-`%` of the source equals the nonnegative mod). -/
def deviation (b off s : ℕ) : ℕ :=
  let r := (((b : ℤ) - off).emod s).toNat
  min r (s - r)

/-- Offset search of the estimators: the offset in `[0, s)` with the smallest
median deviation (`bestFit` starts at positive infinity, embedded as `none`). -/
def bestOffsetFor (boundaries : List ℕ) (s : ℕ) : ℕ :=
  ((List.range s).foldl (fun (st : ℕ × Option ℚ) off =>
    let fit := computeMedian (boundaries.map (fun b => (deviation b off s : ℚ)))
    match st.2 with
    | none => (off, some fit)
    | some bf => if fit < bf then (off, some fit) else st) (0, none)).1

/-- Histogram of run lengths, index-clamped to `maxLen` (the `counts` array). -/
def buildCounts (maxLen : ℕ) (runLengths : List ℕ) : List ℕ :=
  runLengths.foldl (fun c rl =>
    let v := min maxLen rl
    c.set v (c.getD v 0 + 1)) (List.replicate (maxLen + 1) 0)

/-- Insertion into a JS `Set` modelled as an order-preserving dedup list. -/
def setAdd (l : List ℕ) (x : ℕ) : List ℕ := if x ∈ l then l else l ++ [x]

/-- Candidate cell sizes: observed run lengths (ascending) then
`round(length/cells) ± 1` over the expected cell range, deduplicated in
insertion order. -/
def candidateSizes (counts : List ℕ) (maxLen length expMin expMax maxCell : ℕ) :
    List ℕ :=
  let step1 := (List.range' 2 (maxLen - 1)).foldl (fun acc s =>
    if 0 < counts.getD s 0 then setAdd acc s else acc) []
  (List.range' expMin (expMax + 1 - expMin)).foldl (fun acc cells =>
    let s := (jsRound ((length : ℚ) / cells)).toNat
    let acc1 := if 2 ≤ s ∧ s ≤ maxCell then setAdd acc s else acc
    let acc2 := if 2 ≤ s - 1 ∧ s - 1 ≤ maxCell then setAdd acc1 (s - 1) else acc1
    if 2 ≤ s + 1 ∧ s + 1 ≤ maxCell then setAdd acc2 (s + 1) else acc2) step1

/-- Scored candidate for one cell size (shared tail of the two estimators).
none when the derived cell count is nonpositive. -/
def scoreCandidate (log1p : ℚ → ℚ) (boundaries : List ℕ) (counts : List ℕ)
    (length expMin expMax : ℕ) (targetCells : Option ℤ) (targetWeight : ℚ)
    (s : ℕ) : Option Estimate :=
  let bestOff := bestOffsetFor boundaries s
  let devs := boundaries.map (fun b => (deviation b bestOff s : ℚ))
  let p50 := computeMedian devs
  let p90 := computePercentile devs 90
  let cells := ⌊((length : ℚ) - bestOff) / s⌋
  if cells ≤ 0 then none
  else
    let penalty := (if cells < expMin then ((expMin : ℚ) - cells) * 5 else 0) +
      (if (expMax : ℤ) < cells then ((cells : ℚ) - expMax) * 5 else 0)
    let targetPenalty := match targetCells with
      | some t => |(cells : ℚ) - t| * targetWeight
      | none => 0
    let countBonus := -0.25 * log1p (counts.getD s 0)
    some ⟨s, bestOff, p50 + 0.35 * p90 + penalty + targetPenalty + countBonus⟩

/-- estimateFromSegments from `core/detector.ts` (with the `eps = 0.35`
larger-cell tie-break). -/
def estimateFromSegments (log1p : ℚ → ℚ) (segLists : List (List Segment))
    (length expectedCellsMin expectedCellsMax : ℕ) (targetCells : Option ℤ)
    (targetWeight : ℚ := 2) (maxCell : ℕ := 256) : Option Estimate :=
  let d := collectBoundaryData segLists
  if d.runLengths.length < 2 ∨ d.boundaries.length < 2 then none
  else
    let maxLen := min maxCell (d.runLengths.foldl max 0)
    if maxLen < 2 then none
    else
      let counts := buildCounts maxLen d.runLengths
      let candidates := (candidateSizes counts maxLen length expectedCellsMin
        expectedCellsMax maxCell).filter (fun s => decide (2 ≤ s) && decide (s ≤ maxCell))
      if candidates = [] then none
      else
        candidates.foldl (fun best s =>
          match scoreCandidate log1p d.boundaries counts length expectedCellsMin
            expectedCellsMax targetCells targetWeight s with
          | none => best
          | some e =>
            match best with
            | none => some e
            | some b =>
              if e.score < b.score - 0.35 then some e
              else if targetCells = none ∧ |e.score - b.score| ≤ 0.35 ∧
                  b.cellSize < s then some e
              else best) none

/-- estimateFromBoundaryData from `core/detector.ts` (plain best-score update). -/
def estimateFromBoundaryData (log1p : ℚ → ℚ) (d : BoundaryData)
    (length expectedCellsMin expectedCellsMax : ℕ) (targetCells : Option ℤ)
    (targetWeight : ℚ := 2) (maxCell : ℕ := 256) : Option Estimate :=
  if d.runLengths.length < 2 ∨ d.boundaries.length < 2 then none
  else
    let maxLen := min maxCell (d.runLengths.foldl max 0)
    if maxLen < 2 then none
    else
      let counts := buildCounts maxLen d.runLengths
      let candidates := (candidateSizes counts maxLen length expectedCellsMin
        expectedCellsMax maxCell).filter (fun s => decide (2 ≤ s) && decide (s ≤ maxCell))
      if candidates = [] then none
      else
        candidates.foldl (fun best s =>
          match scoreCandidate log1p d.boundaries counts length expectedCellsMin
            expectedCellsMax targetCells targetWeight s with
          | none => best
          | some e =>
            match best with
            | none => some e
            | some b => if e.score < b.score then some e else best) none

/-- Increment the count of a key in an insertion-ordered association list
(a JS `Map` keyed by the posterized RGB string, here the RGB triple itself —
decimal printing with comma separators is injective on triples). -/
def assocIncr (m : List ((ℕ × ℕ × ℕ) × ℕ)) (k : ℕ × ℕ × ℕ) :
    List ((ℕ × ℕ × ℕ) × ℕ) :=
  if m.any (fun e => e.1 = k) then
    m.map (fun e => if e.1 = k then (e.1, e.2 + 1) else e)
  else m ++ [(k, 1)]

/-- Collection loop of dominantBackground: take dominant colors until 8 keys or
70% coverage, whichever first (the source pushes before testing). -/
def bgCollect (totalPx : ℚ) :
    List ((ℕ × ℕ × ℕ) × ℕ) → List (ℕ × ℕ × ℕ) → ℚ → List (ℕ × ℕ × ℕ) × ℚ
  | [], keys, covered => (keys, covered)
  | (k, c) :: rest, keys, covered =>
    let keys' := keys ++ [k]
    let covered' := covered + c
    if 8 ≤ keys'.length then (keys', covered')
    else if 0.7 ≤ covered' / totalPx then (keys', covered')
    else bgCollect totalPx rest keys' covered'

/-- dominantBackground from detectGrid (`core/detector.ts`): the dominant
posterized colors, most frequent first (stable sort by descending count). -/
def dominantBackground (src : RawImage) : List (ℕ × ℕ × ℕ) × ℚ :=
  let counts := (pxList src.data).foldl (fun m p => assocIncr m (p.r, p.g, p.b)) []
  let sorted := counts.mergeSort (fun a b => decide (b.2 ≤ a.2))
  let totalPx : ℚ := (src.width : ℚ) * src.height
  let r := bgCollect totalPx sorted [] 0
  (r.1, r.2 / totalPx)

/-- maskBackgroundByKeys from detectGrid: zero the alpha of background keys. -/
def maskBackgroundByKeys (src : RawImage) (bgKeys : List (ℕ × ℕ × ℕ)) :
    RawImage :=
  { src with
    data := mapRGBA (fun r g b a =>
      [r, g, b, if (r, g, b) ∈ bgKeys then 0 else a]) src.data }

/-- Count of alpha ≥ 16 pixels along row or column `i` (pickDenseStrips score). -/
def stripScore (masked : RawImage) (axisY : Bool) (i : ℕ) : ℕ :=
  let otherLen := if axisY then masked.width else masked.height
  ((List.range otherLen).filter (fun j =>
    decide (16 ≤ masked.byte ((if axisY then i * masked.width + j
      else j * masked.width + i) * 4 + 3)))).length

/-- Selection loop of pickDenseStrips: walk the scores in descending order,
stop at a zero score, keep indices separated by at least `minSep`. -/
def pickLoop (minSep count : ℕ) : List (ℕ × ℕ) → List ℕ → List ℕ
  | [], picked => picked
  | (idx, score) :: rest, picked =>
    if score ≤ 0 then picked
    else if picked.all (fun p => decide (minSep ≤ ((p : ℤ) - idx).natAbs)) then
      let picked' := picked ++ [idx]
      if count ≤ picked'.length then picked'
      else pickLoop minSep count rest picked'
    else pickLoop minSep count rest picked

/-- pickDenseStrips from detectGrid (`core/detector.ts`). -/
def pickDenseStrips (masked : RawImage) (axisY : Bool) (count : ℕ) : List ℕ :=
  let len := if axisY then masked.height else masked.width
  let scores := (List.range len).map (fun i => (i, stripScore masked axisY i))
  let sorted := scores.mergeSort (fun a b => decide (b.2 ≤ a.2))
  let minSep := max 1 (len / max 1 (count * 6))
  pickLoop minSep count sorted []

/-- Foreground test of buildScanlineBoundaryData: a position is foreground iff
its posterized color is not a background key. -/
def isFgAt (det : RawImage) (w : ℕ) (bgKeys : List (ℕ × ℕ × ℕ)) (axisX : Bool)
    (line pos : ℕ) : Bool :=
  let idx := (if axisX then line * w + pos else pos * w + line) * 4
  decide (¬ (det.byte idx, det.byte (idx + 1), det.byte (idx + 2)) ∈ bgKeys)

/-- One step of the per-line run scan of buildScanlineBoundaryData. -/
def scanStep (isFg : ℕ → Bool) (st : Bool × ℕ × List ℕ × List ℕ) (i : ℕ) :
    Bool × ℕ × List ℕ × List ℕ :=
  let (cur, start, rls, bds) := st
  let v := isFg i
  if v ≠ cur then
    (v, i, if 2 ≤ i - start then rls ++ [i - start] else rls, bds ++ [i])
  else st

/-- Per-line run scan of buildScanlineBoundaryData: run lengths ≥ 2 and the
transition positions. -/
def scanLineLoop (isFg : ℕ → Bool) (len : ℕ) : List ℕ × List ℕ :=
  let st := (List.range' 1 (len - 1)).foldl (scanStep isFg) (isFg 0, 0, [], [])
  let lastLen := len - st.2.1
  (if 2 ≤ lastLen then st.2.2.1 ++ [lastLen] else st.2.2.1, st.2.2.2)

/-- buildScanlineBoundaryData from detectGrid (`core/detector.ts`). -/
def buildScanlineBoundaryData (det : RawImage) (w h : ℕ)
    (bgKeys : List (ℕ × ℕ × ℕ)) (axisX : Bool) (lines : List ℕ) : BoundaryData :=
  let len := if axisX then w else h
  let results := lines.map (fun line =>
    scanLineLoop (isFgAt det w bgKeys axisX line) len)
  ⟨(results.map Prod.fst).flatten, (results.map Prod.snd).flatten⟩

/-- DetectOptions from `core/detector.ts` (debug fields are log-only and
omitted; `backgroundMaskTolerance` is declared but unused by the source). -/
structure DetectOptions where
  detectionQuantStep : Option ℚ := none
  autoMaxCellsW : Option ℕ := none
  autoMaxCellsH : Option ℕ := none
  detectionStrips : Option ℕ := none
  backgroundMask : Option Bool := none
  backgroundMaskTolerance : Option ℚ := none
deriving DecidableEq, Repr

/-- PixelGrid from `shared/types.ts` (optional fields stay optional). -/
structure PixelGrid where
  cellW : ℚ
  cellH : ℚ
  offsetX : ℚ
  offsetY : ℚ
  score : ℚ
  cropX : Option ℚ := none
  cropY : Option ℚ := none
  cropW : Option ℚ := none
  cropH : Option ℚ := none
  outW : Option ℕ := none
  outH : Option ℕ := none
  scoreX : Option ℚ := none
  scoreY : Option ℚ := none
deriving DecidableEq, Repr

/-- One-axis estimate of detectGrid: scanline boundary data when a background
set exists, with the segment estimator as fallback. -/
def detectAxisEstimate (log1p : ℚ → ℚ) (det : RawImage) (w h : ℕ)
    (bgInfo : Option (List (ℕ × ℕ × ℕ) × ℚ)) (axisX : Bool) (lines : List ℕ)
    (segLists : List (List Segment)) (length expMax : ℕ) : Option Estimate :=
  match bgInfo with
  | some i =>
    match estimateFromBoundaryData log1p
        (buildScanlineBoundaryData det w h i.1 axisX lines) length 8 expMax
        none 2 256 with
    | some e => some e
    | none => estimateFromSegments log1p segLists length 8 expMax none 2 256
  | none => estimateFromSegments log1p segLists length 8 expMax none 2 256

/-- Over-split retry of detectGrid: when an axis derives more than 96 cells,
re-run the segment estimator with the upper bound relaxed to 64. -/
def detectAxisRetry (log1p : ℚ → ℚ) (est : Option Estimate)
    (segLists : List (List Segment)) (length : ℕ) : Option Estimate :=
  match est with
  | some e =>
    let cells := ⌊((length : ℚ) - e.offset) / e.cellSize⌋
    if cells ≤ 96 then none
    else estimateFromSegments log1p segLists length 8 64 none 2 256
  | none => none

/-- detectGrid from `core/detector.ts`.  `Except.error` embeds the thrown
`Error`;  `log1p` stands for `Math.log1p` in the score (see the header note). -/
def detectGrid (log1p : ℚ → ℚ) (img : RawImage) (options : DetectOptions) :
    Except String PixelGrid :=
  let detectionQuantStep := options.detectionQuantStep.getD 64
  let h := img.height
  let w := img.width
  let det := posterize img detectionQuantStep
  let stripCount := options.detectionStrips.getD 12
  let shouldMaskBackground := options.backgroundMask.getD true
  let bgInfo := if shouldMaskBackground then some (dominantBackground det)
    else none
  let detForPick := match bgInfo with
    | some i => maskBackgroundByKeys det i.1
    | none => det
  let fallbackYs := [(jsRound ((h : ℚ) / 3)).toNat, (jsRound ((2 * h : ℚ) / 3)).toNat]
  let fallbackXs := [(jsRound ((w : ℚ) / 3)).toNat, (jsRound ((2 * w : ℚ) / 3)).toNat]
  let ys := let picked := pickDenseStrips detForPick true stripCount
    if picked ≠ [] then picked else fallbackYs
  let xs := let picked := pickDenseStrips detForPick false stripCount
    if picked ≠ [] then picked else fallbackXs
  let expMaxX := options.autoMaxCellsW.getD 128
  let expMaxY := options.autoMaxCellsH.getD 128
  let xSegLists := ys.map (fun y =>
    getRunLengths (extractStripY det y) detectionQuantStep 16)
  let ySegLists := xs.map (fun x =>
    getRunLengths (extractStripX det x) detectionQuantStep 16)
  let estX := detectAxisEstimate log1p det w h bgInfo true ys xSegLists w expMaxX
  let estX2 := detectAxisRetry log1p estX xSegLists w
  let estY := detectAxisEstimate log1p det w h bgInfo false xs ySegLists h expMaxY
  let estY2 := detectAxisRetry log1p estY ySegLists h
  let finalX := match estX2 with | some e => some e | none => estX
  let finalY := match estY2 with | some e => some e | none => estY
  match finalX, finalY with
  | some fx, some fy =>
    let cellW := max 1 (jsRound ((fx.cellSize : ℚ))).toNat
    let cellH := max 1 (jsRound ((fy.cellSize : ℚ))).toNat
    let offsetX := ((fx.offset % cellW) + cellW) % cellW
    let offsetY := ((fy.offset % cellH) + cellH) % cellH
    let outW := (max 1 ⌊((w : ℚ) - offsetX) / cellW⌋).toNat
    let outH := (max 1 ⌊((h : ℚ) - offsetY) / cellH⌋).toNat
    Except.ok
      { cellW := cellW
        cellH := cellH
        offsetX := offsetX
        offsetY := offsetY
        score := (fx.score + fy.score) / 2
        cropX := some offsetX
        cropY := some offsetY
        cropW := some ((outW * cellW : ℕ) : ℚ)
        cropH := some ((outH * cellH : ℕ) : ℚ)
        outW := some outW
        outH := some outH
        scoreX := some fx.score
        scoreY := some fy.score }
  | _, _ =>
    Except.error "グリッド検出に失敗しました。入力画像やオプションを確認してください。"

/-- RGB triple from `shared/types.ts` (byte channels in every reachable use). -/
structure RGBn where
  r : ℕ
  g : ℕ
  b : ℕ
deriving DecidableEq, Repr

/-- PixelData from `shared/types.ts`: RGB with alpha. -/
structure PixelData where
  r : ℕ
  g : ℕ
  b : ℕ
  alpha : ℕ
deriving DecidableEq, Repr

/-- Oklab color from `shared/types.ts`, embedded with exact real coordinates. -/
structure Oklab where
  L : ℝ
  a : ℝ
  b : ℝ

/-- JS `Math.round` over the reals (`colorUtils.ts` uses it on finite values). -/
noncomputable def jsRoundR (x : ℝ) : ℤ := ⌊x + 1/2⌋

/-- JS `Math.cbrt`; the conversions only apply it to nonnegative inputs, where
it is the real 1/3 power. -/
noncomputable def cbrt (x : ℝ) : ℝ := x ^ ((1 : ℝ) / 3)

/-- srgbToLinear from `core/colorUtils.ts`. -/
noncomputable def srgbToLinear (c : ℝ) : ℝ :=
  let v := c / 255
  if v ≤ 0.04045 then v / 12.92 else ((v + 0.055) / 1.055) ^ (2.4 : ℝ)

/-- linearToSrgb from `core/colorUtils.ts` (result is an integer in [0, 255]). -/
noncomputable def linearToSrgb (c : ℝ) : ℤ :=
  let v := if c ≤ 0.0031308 then 12.92 * c else 1.055 * c ^ ((1 : ℝ) / 2.4) - 0.055
  max 0 (min 255 (jsRoundR (v * 255)))

/-- rgbToOklab from `core/colorUtils.ts`. -/
noncomputable def rgbToOklab (rc gc bc : ℕ) : Oklab :=
  let r := srgbToLinear rc
  let g := srgbToLinear gc
  let b := srgbToLinear bc
  let l := 0.4122214708 * r + 0.5363325363 * g + 0.0514459929 * b
  let m := 0.2119034982 * r + 0.6806995451 * g + 0.1073969566 * b
  let s := 0.0883024619 * r + 0.2817188501 * g + 0.6299787005 * b
  let l₃ := cbrt l
  let m₃ := cbrt m
  let s₃ := cbrt s
  { L := 0.2104542553 * l₃ + 0.793617785 * m₃ - 0.0040720468 * s₃
    a := 1.9779984951 * l₃ - 2.428592205 * m₃ + 0.4505937099 * s₃
    b := 0.0259040371 * l₃ + 0.7827717662 * m₃ - 0.808675766 * s₃ }

/-- oklabToRgb from `core/colorUtils.ts`. -/
noncomputable def oklabToRgb (lab : Oklab) : RGBn :=
  let l₀ := lab.L + 0.3963377774 * lab.a + 0.2158037573 * lab.b
  let m₀ := lab.L - 0.1055613458 * lab.a - 0.0638541728 * lab.b
  let s₀ := lab.L - 0.0894841775 * lab.a - 1.291485548 * lab.b
  let l := l₀ * l₀ * l₀
  let m := m₀ * m₀ * m₀
  let s := s₀ * s₀ * s₀
  { r := (linearToSrgb (4.0767416621 * l - 3.3077115913 * m + 0.2309699292 * s)).toNat
    g := (linearToSrgb (-1.2684380046 * l + 2.6097574011 * m - 0.3413193965 * s)).toNat
    b := (linearToSrgb (-0.0041960863 * l - 0.7034186147 * m + 1.707614701 * s)).toNat }

/-- colorDistanceSq of both quantizer classes: squared Euclidean Oklab distance. -/
noncomputable def colorDistanceSq (c1 c2 : Oklab) : ℝ :=
  (c1.L - c2.L) * (c1.L - c2.L) + (c1.a - c2.a) * (c1.a - c2.a) +
    (c1.b - c2.b) * (c1.b - c2.b)

/-- JS `Number.MAX_VALUE`, the initial minimum of the nearest-entry scans. -/
noncomputable def maxFinite : ℝ := 2 ^ (1024 : ℕ) - 2 ^ (971 : ℕ)

/-- Packed RGB key `(r << 16) | (g << 8) | b` (byte channels make the JS bit
packing this arithmetic). -/
def pixelKey (p : PixelData) : ℕ := p.r * 65536 + p.g * 256 + p.b

/-- Histogram entry of `OklabKMeans.quantize` (`{ lab, count }`). -/
structure UColor where
  lab : Oklab
  count : ℕ

/-- Insertion-ordered color histogram of the K-means quantizer. -/
noncomputable def buildColorMap (opaquePixels : List PixelData) :
    List (ℕ × UColor) :=
  opaquePixels.foldl (fun m p =>
    let key := pixelKey p
    if m.any (fun e => decide (e.1 = key)) then
      m.map (fun e => if e.1 = key then (e.1, ⟨e.2.lab, e.2.count + 1⟩) else e)
    else m ++ [(key, ⟨rgbToOklab p.r p.g p.b, 1⟩)]) []

/-- Oracle for the `Math.random` draws of `OklabKMeans`: the initial centroid
sample (`initializeCentroids`) and the empty-cluster reseed at a given
iteration and cluster index.  Every theorem quantifies over this record. -/
structure KmRandom where
  init : List UColor → List Oklab
  reseed : ℕ → ℕ → List UColor → Oklab

/-- Index of the nearest centroid by squared Oklab distance (first wins ties;
the running minimum starts at `Number.MAX_VALUE`). -/
noncomputable def nearestCentroid (centroids : List Oklab) (lab : Oklab) : ℕ :=
  ((List.range centroids.length).foldl (fun (st : ℝ × ℕ) i =>
    let dist := colorDistanceSq lab (centroids.getD i ⟨0, 0, 0⟩)
    if dist < st.1 then (dist, i) else st) (maxFinite, 0)).2

/-- Assignment step of the K-means loop: count-weighted cluster sums. -/
noncomputable def kmeansAssign (maxColors : ℕ) (uniqueColors : List UColor)
    (centroids : List Oklab) : List (ℝ × ℝ × ℝ × ℕ) :=
  uniqueColors.foldl (fun clusters color =>
    let best := nearestCentroid centroids color.lab
    let cl := clusters.getD best (0, 0, 0, 0)
    clusters.set best (cl.1 + color.lab.L * color.count,
      cl.2.1 + color.lab.a * color.count, cl.2.2.1 + color.lab.b * color.count,
      cl.2.2.2 + color.count)) (List.replicate maxColors (0, 0, 0, 0))

/-- Update step of the K-means loop: weighted means, movement tracking and
random reseeding of empty clusters. -/
noncomputable def kmeansUpdate (rnd : KmRandom) (iter : ℕ)
    (uniqueColors : List UColor) (centroids : List Oklab)
    (clusters : List (ℝ × ℝ × ℝ × ℕ)) : List Oklab × ℝ :=
  (List.range centroids.length).foldl (fun (st : List Oklab × ℝ) i =>
    let cl := clusters.getD i (0, 0, 0, 0)
    if 0 < cl.2.2.2 then
      let next : Oklab := ⟨cl.1 / (cl.2.2.2 : ℕ), cl.2.1 / (cl.2.2.2 : ℕ),
        cl.2.2.1 / (cl.2.2.2 : ℕ)⟩
      let movement := colorDistanceSq (centroids.getD i ⟨0, 0, 0⟩) next
      (st.1 ++ [next], max st.2 movement)
    else (st.1 ++ [rnd.reseed iter i uniqueColors], st.2)) ([], 0)

/-- Main iteration of `OklabKMeans.quantize`, fuel = remaining iterations; the
convergence break compares the maximal squared movement with `tolerance²`. -/
noncomputable def kmeansLoop (rnd : KmRandom) (maxColors : ℕ) (tol : ℝ)
    (uniqueColors : List UColor) : ℕ → ℕ → List Oklab → List Oklab
  | 0, _, centroids => centroids
  | n + 1, iter, centroids =>
    let clusters := kmeansAssign maxColors uniqueColors centroids
    let up := kmeansUpdate rnd iter uniqueColors centroids clusters
    if up.2 < tol * tol then up.1
    else kmeansLoop rnd maxColors tol uniqueColors n (iter + 1) up.1

/-- OklabKMeans.quantize from `core/quantizer.ts` (constructor arguments
`maxColors`, `maxIterations`, `tolerance` passed explicitly; `rnd` embeds the
`Math.random` draws). -/
noncomputable def OklabKMeans.quantize (rnd : KmRandom) (maxColors : ℕ)
    (maxIterations : ℕ) (tolerance : ℝ) (pixels : List PixelData) :
    List PixelData :=
  let opaquePixels := pixels.filter (fun p => decide (0 < p.alpha))
  if opaquePixels.length = 0 ∨ opaquePixels.length ≤ maxColors then pixels
  else
    let colorMap := buildColorMap opaquePixels
    let uniqueColors := colorMap.map Prod.snd
    if uniqueColors.length ≤ maxColors then pixels
    else
      let centroids := kmeansLoop rnd maxColors tolerance uniqueColors
        maxIterations 0 (rnd.init uniqueColors)
      let palette := centroids.map oklabToRgb
      let centroidRgbMap := colorMap.map (fun e =>
        (e.1, nearestCentroid centroids e.2.lab))
      pixels.map (fun p =>
        if p.alpha = 0 then p
        else
          let paletteIdx :=
            ((centroidRgbMap.find? (fun e => decide (e.1 = pixelKey p))).map
              Prod.snd).getD 0
          let rgb := palette.getD paletteIdx ⟨0, 0, 0⟩
          ⟨rgb.r, rgb.g, rgb.b, p.alpha⟩)

/-- Biased distance of `PaletteQuantizer.quantize` for one candidate entry:
squared Oklab distance, the exact-black bias for dark pixels (`L < 0.2`), and
the auxiliary RGB term for near-black pixels (`L < 0.1`). -/
noncomputable def paletteDist (p : PixelData) (lab : Oklab) (targetRgb : RGBn)
    (targetLab : Oklab) : ℝ :=
  let d0 := colorDistanceSq lab targetLab
  let d1 := if targetRgb.r = 0 ∧ targetRgb.g = 0 ∧ targetRgb.b = 0 then
      if lab.L < 0.2 then
        d0 - ((0.2 - lab.L) * 1.5) * ((0.2 - lab.L) * 1.5)
      else d0
    else d0
  if lab.L < 0.1 then
    let dR := ((p.r : ℝ) - targetRgb.r) / 255
    let dG := ((p.g : ℝ) - targetRgb.g) / 255
    let dB := ((p.b : ℝ) - targetRgb.b) / 255
    d1 + (dR * dR + dG * dG + dB * dB) * (0.5 - lab.L)
  else d1

/-- PaletteQuantizer.quantize from `core/quantizer.ts` (the per-key memo map of
the source caches a deterministic computation and is elided). -/
noncomputable def PaletteQuantizer.quantize (palette : List RGBn)
    (pixels : List PixelData) : List PixelData :=
  let paletteLabs := palette.map (fun c => rgbToOklab c.r c.g c.b)
  pixels.map (fun p =>
    if p.alpha = 0 then p
    else
      let lab := rgbToOklab p.r p.g p.b
      let paletteIdx := ((List.range paletteLabs.length).foldl
        (fun (st : ℝ × ℕ) i =>
          let dist := paletteDist p lab (palette.getD i ⟨0, 0, 0⟩)
            (paletteLabs.getD i ⟨0, 0, 0⟩)
          if dist < st.1 then (dist, i) else st) (maxFinite, 0)).2
      let rgb := palette.getD paletteIdx ⟨0, 0, 0⟩
      ⟨rgb.r, rgb.g, rgb.b, p.alpha⟩)

/-- IntRange from `shared/config.ts` (`default` renamed `dflt`). -/
structure IntRange where
  min : ℤ
  max : ℤ
  dflt : ℤ
deriving DecidableEq, Repr

/-- clampInt from `shared/config.ts`; rationals are always finite, so the
`Number.isFinite` fallback never fires in this model. -/
def clampInt (value : ℚ) (range : IntRange) : ℤ :=
  min range.max (max range.min (jsTrunc value))

/-- clampOptionalInt from `shared/config.ts`. -/
def clampOptionalInt (value : Option ℚ) (range : IntRange) : Option ℤ :=
  value.map (clampInt · range)

/-- PROCESS_RANGES from `shared/config.ts`. -/
def rangeDetectionQuantStep : IntRange := ⟨1, 128, 64⟩

/-- PROCESS_RANGES.sampleWindow. -/
def rangeSampleWindow : IntRange := ⟨1, 9, 3⟩

/-- PROCESS_RANGES.backgroundTolerance. -/
def rangeBackgroundTolerance : IntRange := ⟨0, 255, 64⟩

/-- PROCESS_RANGES.trimAlphaThreshold. -/
def rangeTrimAlphaThreshold : IntRange := ⟨1, 255, 16⟩

/-- PROCESS_RANGES.floatingMaxPixels. -/
def rangeFloatingMaxPixels : IntRange := ⟨0, 1000000, 0⟩

/-- PROCESS_RANGES.forcePixelsW (and H). -/
def rangeForcePixels : IntRange := ⟨1, 1024, 0⟩

/-- PROCESS_RANGES.colorCount. -/
def rangeColorCount : IntRange := ⟨2, 256, 32⟩

/-- RETRO_PALETTES from `shared/config.ts` with the `#rrggbb` constants already
parsed to RGB triples (the source parses them with `parseInt(hex, 16)` inside
applyColorReduction). -/
def RETRO_PALETTES : List (String × List (ℕ × ℕ × ℕ)) := [
  ("gb_legacy", [(15, 56, 15), (48, 98, 48), (139, 172, 15), (155, 188, 15)]),
  ("gb_pocket", [(0, 0, 0), (84, 84, 84), (168, 168, 168), (255, 255, 255)]),
  ("gb_light", [(0, 64, 64), (21, 96, 93), (48, 136, 128), (0, 224, 224)]),
  ("pico8", [(0, 0, 0), (29, 43, 83), (126, 37, 83), (0, 135, 81), (171, 82, 54),
    (95, 87, 79), (194, 195, 199), (255, 241, 232), (255, 0, 77), (255, 163, 0),
    (255, 236, 39), (0, 228, 54), (41, 173, 255), (131, 118, 156), (255, 119, 168),
    (255, 204, 170)]),
  ("nes", [(124, 124, 124), (0, 0, 252), (0, 0, 188), (68, 40, 188), (148, 0, 132),
    (168, 0, 32), (168, 16, 0), (136, 20, 0), (80, 48, 0), (0, 120, 0), (0, 104, 0),
    (0, 88, 0), (0, 64, 88), (0, 0, 0), (0, 0, 0), (0, 0, 0), (188, 188, 188),
    (0, 120, 248), (0, 88, 248), (104, 68, 252), (216, 0, 204), (228, 0, 88),
    (248, 56, 0), (228, 92, 16), (172, 124, 0), (0, 184, 0), (0, 168, 0),
    (0, 168, 68), (0, 136, 136), (0, 0, 0), (0, 0, 0), (0, 0, 0), (248, 248, 248),
    (60, 188, 252), (104, 136, 252), (152, 120, 248), (248, 120, 248),
    (248, 88, 152), (248, 120, 88), (252, 160, 68), (248, 184, 0), (184, 248, 24),
    (88, 216, 84), (88, 248, 152), (0, 232, 216), (120, 120, 120), (0, 0, 0),
    (0, 0, 0), (252, 252, 252), (164, 228, 252), (184, 184, 248), (216, 184, 248),
    (248, 184, 248), (248, 164, 192), (240, 208, 176), (252, 224, 168),
    (248, 216, 120), (216, 248, 120), (184, 248, 184), (184, 248, 216),
    (0, 252, 252), (248, 216, 248), (0, 0, 0), (0, 0, 0)]),
  ("mono", [(0, 0, 0), (255, 255, 255)]),
  ("pc98", [(0, 0, 0), (0, 0, 248), (248, 0, 0), (248, 0, 248), (0, 248, 0),
    (0, 248, 248), (248, 248, 0), (248, 248, 248), (136, 136, 136), (0, 0, 136),
    (136, 0, 0), (136, 0, 136), (0, 136, 0), (0, 136, 136), (136, 136, 0),
    (192, 192, 192)]),
  ("msx", [(0, 0, 0), (62, 184, 73), (116, 208, 125), (89, 85, 224), (128, 118, 241),
    (185, 94, 81), (101, 219, 239), (219, 101, 89), (255, 137, 125), (204, 195, 94),
    (222, 208, 135), (58, 162, 65), (183, 102, 181), (204, 204, 204),
    (255, 255, 255)]),
  ("c64", [(0, 0, 0), (255, 255, 255), (129, 51, 56), (117, 206, 200), (142, 60, 151),
    (86, 172, 77), (46, 44, 155), (237, 241, 113), (142, 80, 41), (85, 56, 0),
    (196, 108, 113), (74, 74, 74), (123, 123, 123), (169, 255, 159), (112, 109, 235),
    (178, 178, 178)]),
  ("arne16", [(0, 0, 0), (157, 157, 157), (255, 255, 255), (190, 38, 51),
    (224, 111, 139), (73, 60, 43), (164, 100, 34), (235, 137, 49), (247, 226, 107),
    (47, 72, 78), (68, 137, 26), (163, 206, 39), (27, 38, 50), (0, 87, 132),
    (49, 162, 242), (178, 220, 239)]),
  ("sfc_sprite", []),
  ("sfc_bg", [])]

/-- cloneImage from `core/processor.ts` (fresh buffer, equal value). -/
def cloneImage (img : RawImage) : RawImage :=
  { width := img.width, height := img.height, data := img.data }

/-- Read a byte at a possibly fractional JS index: a non-integer or negative
index reads `undefined` in JS, embedded as 0 (no reachable pipeline call
produces one; see the downsample note). -/
def qbyte (img : RawImage) (q : ℚ) : ℕ :=
  if q.den = 1 ∧ 0 ≤ q.num then img.byte q.num.toNat else 0

/-- Values of the JS loop `for (v = q0; v < q1; v += 1)`. -/
def qRange (q0 q1 : ℚ) : List ℚ :=
  (List.range (max 0 ⌈q1 - q0⌉).toNat).map (fun k => q0 + k)

/-- Sample window gather of downsample, in row-major visit order. -/
def samplePixels (img : RawImage) (x0 x1 y0 y1 : ℚ) : List Px :=
  ((qRange y0 y1).map (fun y => (qRange x0 x1).map (fun x =>
    let base : ℚ := (y * (img.width : ℚ) + x) * 4
    (⟨qbyte img base, qbyte img (base + 1), qbyte img (base + 2),
      qbyte img (base + 3)⟩ : Px)))).flatten

/-- downsample from `core/processor.ts`: per-cell median sampling with the
alpha ≥ 16 preference and the all-pixels fallback. -/
def downsample (img : RawImage) (grid : PixelGrid) (sampleWindow : ℚ := 3) :
    RawImage :=
  let cellW := grid.cellW
  let cellH := grid.cellH
  let cropX := grid.cropX.getD grid.offsetX
  let cropY := grid.cropY.getD grid.offsetY
  let outW := match grid.outW with
    | some v => v
    | none => (max 1 ⌊((img.width : ℚ) - cropX) / cellW⌋).toNat
  let outH := match grid.outH with
    | some v => v
    | none => (max 1 ⌊((img.height : ℚ) - cropY) / cellH⌋).toNat
  let half : ℤ := max 0 ⌊sampleWindow / 2⌋
  let cw := jsRound cellW
  let ch := jsRound cellH
  let cwHalf := ⌊(cw : ℚ) / 2⌋
  let chHalf := ⌊(ch : ℚ) / 2⌋
  let useInt := |cellW - cw| < 1e-6 ∧ |cellH - ch| < 1e-6
  let data := ((List.range outH).map (fun j => ((List.range outW).map (fun i =>
    let cx : ℚ := if useInt then cropX + i * cw + cwHalf
      else (⌊cropX + (i + 0.5) * cellW + 0.5⌋ : ℚ)
    let cy : ℚ := if useInt then cropY + j * ch + chHalf
      else (⌊cropY + (j + 0.5) * cellH + 0.5⌋ : ℚ)
    let x0 := min ((img.width : ℚ) - 1) (max 0 (cx - half))
    let x1 := min (img.width : ℚ) (max 1 (cx + half + 1))
    let y0 := min ((img.height : ℚ) - 1) (max 0 (cy - half))
    let y1 := min (img.height : ℚ) (max 1 (cy + half + 1))
    let pixels := samplePixels img x0 x1 y0 y1
    let opq := pixels.filter (fun p => decide (16 ≤ p.a))
    let chosen := if 0 < opq.length then opq else pixels
    [u8c (medianOf (chosen.map (fun p => (p.r : ℚ)))),
     u8c (medianOf (chosen.map (fun p => (p.g : ℚ)))),
     u8c (medianOf (chosen.map (fun p => (p.b : ℚ)))),
     u8c (medianOf (chosen.map (fun p => (p.a : ℚ))))])).flatten)).flatten
  { width := outW, height := outH, data := data }

/-- Background-extraction seed selection (`bgExtractionMethod`). -/
inductive BgMethod where
  | none
  | topLeft
  | bottomLeft
  | topRight
  | bottomRight
  | rgb
deriving DecidableEq, Repr

/-- removeBackgroundByFloodFill from `core/processor.ts`.  `bgRgb` carries the
already-parsed `#rrggbb` triple.  The `rgb` method shares one visited bitset
across all seeds; the corner methods flood from the single matching corner. -/
def removeBackgroundByFloodFill (img : RawImage) (tolerance : ℚ)
    (method : BgMethod) (bgRgb : Option (ℕ × ℕ × ℕ)) : RawImage :=
  if method = BgMethod.none then cloneImage img
  else
    let out := cloneImage img
    let w := img.width
    let h := img.height
    match method, bgRgb with
    | BgMethod.rgb, some (r, g, b) =>
      (((List.range h).foldl (fun (st : RawImage × Finset ℕ) y =>
        (List.range w).foldl (fun (st : RawImage × Finset ℕ) x =>
          let idx := y * w + x
          if idx ∈ st.2 then st
          else
            let pr := img.byte (idx * 4)
            let pg := img.byte (idx * 4 + 1)
            let pb := img.byte (idx * 4 + 2)
            let st' := if |(pr : ℚ) - r| ≤ tolerance ∧ |(pg : ℚ) - g| ≤ tolerance ∧
                |(pb : ℚ) - b| ≤ tolerance ∧ st.1.byte (idx * 4 + 3) ≠ 0 then
                floodFillTransparentVisited st.1 x y tolerance st.2
              else st
            (st'.1, insert idx st'.2)) st) (out, ∅)).1)
    | _, _ =>
      let corners : List (ℤ × ℤ) :=
        if method = BgMethod.topLeft then [(0, 0)]
        else if method = BgMethod.bottomLeft then [(0, (h : ℤ) - 1)]
        else if method = BgMethod.topRight then [((w : ℤ) - 1, 0)]
        else if method = BgMethod.bottomRight then [((w : ℤ) - 1, (h : ℤ) - 1)]
        else []
      corners.foldl (fun o c => floodFillTransparent o c.1 c.2 tolerance) out

/-- removeBackground from `core/processor.ts`: flood fill plus the optional
global background-color match (`removeInnerBackground`). -/
def removeBackground (img : RawImage) (tolerance : ℚ)
    (removeInnerBackground : Bool) (bgTargets : List (ℕ × ℕ × ℕ))
    (method : BgMethod) (bgRgb : Option (ℕ × ℕ × ℕ)) : RawImage :=
  if method = BgMethod.none then cloneImage img
  else
    let out := removeBackgroundByFloodFill img tolerance method bgRgb
    if ¬ removeInnerBackground then out
    else if bgTargets = [] then out
    else
      { out with
        data := mapRGBA (fun r g b a =>
          if a = 0 then [r, g, b, a]
          else if bgTargets.any (fun t => decide (|(r : ℚ) - t.1| ≤ tolerance) &&
              decide (|(g : ℚ) - t.2.1| ≤ tolerance) &&
              decide (|(b : ℚ) - t.2.2| ≤ tolerance)) then [r, g, b, 0]
          else [r, g, b, a]) out.data }

/-- getBackgroundTargets from `core/processor.ts`. -/
def getBackgroundTargets (img : RawImage) (method : BgMethod)
    (bgRgb : Option (ℕ × ℕ × ℕ)) (alphaThreshold : ℕ := 16) :
    List (ℕ × ℕ × ℕ) :=
  match method, bgRgb with
  | BgMethod.none, _ => []
  | BgMethod.rgb, some t => [t]
  | _, _ =>
    let w := img.width
    let h := img.height
    let points : List (ℤ × ℤ) :=
      if method = BgMethod.topLeft then [(0, 0)]
      else if method = BgMethod.bottomLeft then [(0, (h : ℤ) - 1)]
      else if method = BgMethod.topRight then [((w : ℤ) - 1, 0)]
      else if method = BgMethod.bottomRight then [((w : ℤ) - 1, (h : ℤ) - 1)]
      else []
    points.foldl (fun targets c =>
      let idx := ((c.2 * (w : ℤ) + c.1) * 4).toNat
      let r := img.byte idx
      let g := img.byte (idx + 1)
      let b := img.byte (idx + 2)
      let a := img.byte (idx + 3)
      if a < alphaThreshold then targets
      else if targets.any (fun t => t = (r, g, b)) then targets
      else targets ++ [(r, g, b)]) []

/-- Inclusive opaque bounding box `{x, y, w, h}`. -/
structure Bounds where
  x : ℕ
  y : ℕ
  w : ℕ
  h : ℕ
deriving DecidableEq, Repr

/-- findOpaqueBounds from `core/processor.ts`. -/
def findOpaqueBounds (img : RawImage) (alphaThreshold : ℚ) : Option Bounds :=
  let w := img.width
  let h := img.height
  let st := (List.range h).foldl (fun st y => (List.range w).foldl
    (fun (st : ℤ × ℤ × ℤ × ℤ) x =>
      if alphaThreshold ≤ (img.byte ((y * w + x) * 4 + 3) : ℚ) then
        (min st.1 x, min st.2.1 y, max st.2.2.1 x, max st.2.2.2 y)
      else st) st) ((w : ℤ), (h : ℤ), -1, -1)
  if st.2.2.1 < st.1 ∨ st.2.2.2 < st.2.1 then none
  else some ⟨st.1.toNat, st.2.1.toNat, (st.2.2.1 - st.1 + 1).toNat,
    (st.2.2.2 - st.2.1 + 1).toNat⟩

/-- cropRawImage from `core/processor.ts`. -/
def cropRawImage (img : RawImage) (x y w h : ℕ) : RawImage :=
  { width := w
    height := h
    data := ((List.range h).map (fun j => ((List.range w).map (fun i =>
      let s := ((y + j) * img.width + (x + i)) * 4
      [img.byte s, img.byte (s + 1), img.byte (s + 2), img.byte (s + 3)])).flatten)).flatten }

/-- In-range 4-neighbor candidates of position `p` (left, right, up, down), the
four guarded pushes of the component BFS in `core/processor.ts`. -/
def nbrCandidates (w h : ℕ) (p : Fin (w * h)) : List (Fin (w * h)) :=
  (if 0 < (p : ℕ) % w then
    [(⟨(p : ℕ) - 1, by have := p.isLt; omega⟩ : Fin (w * h))] else []) ++
    (if hx : (p : ℕ) % w + 1 < w then
      [(⟨(p : ℕ) + 1, by
        have hp := p.isLt
        have hM := Nat.mod_add_div (p : ℕ) w
        have hdiv : (p : ℕ) / w < h := Nat.div_lt_of_lt_mul hp
        have h2 : w * ((p : ℕ) / w + 1) ≤ w * h :=
          Nat.mul_le_mul_left w (by omega)
        have h3 : w * ((p : ℕ) / w + 1) = w * ((p : ℕ) / w) + w := by ring
        omega⟩ : Fin (w * h))] else []) ++
    (if 0 < (p : ℕ) / w then
      [(⟨(p : ℕ) - w, by have := p.isLt; omega⟩ : Fin (w * h))] else []) ++
    (if hy : (p : ℕ) / w + 1 < h then
      [(⟨(p : ℕ) + w, by
        have hp := p.isLt
        have hw : 0 < w := by
          rcases Nat.eq_zero_or_pos w with h0 | hpos
          · exfalso
            have hz : w * h = 0 := by rw [h0, Nat.zero_mul]
            omega
          · exact hpos
        have hM := Nat.mod_add_div (p : ℕ) w
        have hmod : (p : ℕ) % w < w := Nat.mod_lt _ hw
        have h2 : w * ((p : ℕ) / w + 2) ≤ w * h :=
          Nat.mul_le_mul_left w (by omega)
        have h3 : w * ((p : ℕ) / w + 2) = w * ((p : ℕ) / w) + w + w := by ring
        omega⟩ : Fin (w * h))] else [])

/-- Mark-and-push fold over neighbor candidates: a candidate is pushed iff it is
unvisited and opaque, and is marked visited at push time. -/
def visitFold (n : ℕ) (opq : ℕ → Bool)
    (cands : List (Fin n)) (st : Finset ℕ × List (Fin n)) :
    Finset ℕ × List (Fin n) :=
  cands.foldl (fun st p2 =>
    if p2.val ∉ st.1 ∧ opq p2.val = true then
      (insert p2.val st.1, p2 :: st.2)
    else st) st

/-- Component BFS of removeSmallFloatingComponentsInPlace: pops count into
`size`; popped positions are recorded in `pixels` until the record exceeds
`maxPixels`, after which recording stops (`storing`). -/
def bfsLoop (w h : ℕ) (opq : ℕ → Bool) (maxPixels : ℚ) :
    Finset ℕ → List (Fin (w * h)) → ℕ → List ℕ → Bool →
    Finset ℕ × ℕ × List ℕ × Bool
  | visited, [], size, pixels, storing => (visited, size, pixels, storing)
  | visited, cur :: queue, size, pixels, storing =>
    let rec1 := if storing then
        let ps := pixels ++ [(cur : ℕ)]
        if maxPixels < (ps.length : ℚ) then (([] : List ℕ), false) else (ps, true)
      else (pixels, storing)
    let st := visitFold (w * h) opq (nbrCandidates w h cur) (visited, queue)
    bfsLoop w h opq maxPixels st.1 st.2 (size + 1) rec1.1 rec1.2
termination_by visited queue _ _ _ =>
  5 * (Finset.range (w * h) \ visited).card + queue.length
decreasing_by
  have key : ∀ (cands : List (Fin (w * h))) (V : Finset ℕ) (Q : List (Fin (w * h))),
      5 * (Finset.range (w * h) \ (visitFold (w * h) opq cands (V, Q)).1).card +
        (visitFold (w * h) opq cands (V, Q)).2.length ≤
      5 * (Finset.range (w * h) \ V).card + Q.length := by
    intro cands
    induction cands with
    | nil => intro V Q; simp [visitFold]
    | cons c cs ih =>
      intro V Q
      simp only [visitFold, List.foldl_cons]
      split_ifs with hc
      · refine le_trans (ih (insert c.val V) (c :: Q)) ?_
        have he : Finset.range (w * h) \ insert c.val V =
            (Finset.range (w * h) \ V).erase c.val := by
          ext a
          simp only [Finset.mem_sdiff, Finset.mem_erase, Finset.mem_insert,
            Finset.mem_range]
          tauto
        have h1 : (Finset.range (w * h) \ insert c.val V).card <
            (Finset.range (w * h) \ V).card := by
          rw [he]
          exact Finset.card_erase_lt_of_mem
            (by simp [Finset.mem_sdiff, c.isLt, hc.1])
        simp only [List.length_cons]
        omega
      · exact ih V Q
  have := key (nbrCandidates w h cur) visited queue
  simp only [List.length_cons]
  omega

/-- Component scan of removeSmallFloatingComponentsInPlace: label the opaque
components in scan order, tracking the first largest component id and the
records of small components (id, stored pixels, size). -/
def componentScan (w h : ℕ) (opq : ℕ → Bool) (maxPixels : ℚ) :
    Finset ℕ × ℕ × ℤ × ℕ × List (ℕ × List ℕ × ℕ) :=
  (List.finRange (w * h)).foldl (fun st p =>
    if p.val ∈ st.1 then st
    else if ¬ opq p.val = true then st
    else
      let id := st.2.1 + 1
      let r := bfsLoop w h opq maxPixels (insert p.val st.1) [p] 0 [] true
      let largest := if st.2.2.2.1 < r.2.1 then ((id : ℤ), r.2.1)
        else (st.2.2.1, st.2.2.2.1)
      let small := if (r.2.1 : ℚ) ≤ maxPixels ∧ 0 < r.2.2.1.length then
          st.2.2.2.2 ++ [(id, r.2.2.1, r.2.1)]
        else st.2.2.2.2
      (r.1, id, largest.1, largest.2, small)) (∅, 0, -1, 0, [])

/-- Zero the alpha byte of the listed positions. -/
def eraseAlphaAt (img : RawImage) (ps : List ℕ) : RawImage :=
  { img with data := ps.foldl (fun d p => d.set (p * 4 + 3) 0) img.data }

/-- removeSmallFloatingComponentsInPlace from `core/processor.ts`.  The
in-place mutation of `working` and `masked` is embedded by returning the two
updated bitmaps with `(removedComponents, removedPixels)`; the dimension
mismatch throw becomes `Except.error`. -/
def removeSmallFloatingComponentsInPlace (working masked : RawImage)
    (alphaThreshold : ℚ) (maxPixels : ℚ) :
    Except String (RawImage × RawImage × ℕ × ℕ) :=
  if maxPixels ≤ 0 then Except.ok (working, masked, 0, 0)
  else if working.width ≠ masked.width ∨ working.height ≠ masked.height then
    Except.error "working と masked のサイズが一致しません。"
  else
    let w := masked.width
    let h := masked.height
    let isOpaque : ℕ → Bool := fun p =>
      decide (alphaThreshold ≤ (masked.byte (p * 4 + 3) : ℚ))
    let scan := componentScan w h isOpaque maxPixels
    let largestId := scan.2.2.1
    Except.ok (scan.2.2.2.2.foldl (fun (st : RawImage × RawImage × ℕ × ℕ) comp =>
      if (comp.1 : ℤ) = largestId then st
      else
        (eraseAlphaAt st.1 comp.2.1, eraseAlphaAt st.2.1 comp.2.1,
          st.2.2.1 + 1, st.2.2.2 + comp.2.2)) (working, masked, 0, 0))

/-- Opaque 4-adjacency step used to state connectivity: both endpooints opaque
and 4-adjacent in the `w × h` grid. -/
def connStep (w h : ℕ) (opq : ℕ → Bool) (p q : ℕ) : Prop :=
  opq p = true ∧ opq q = true ∧ p < w * h ∧ q < w * h ∧
    ((q + 1 = p ∧ 0 < p % w) ∨ (p + 1 = q ∧ p % w + 1 < w) ∨
      (q + w = p ∧ 0 < p / w) ∨ (p + w = q ∧ p / w + 1 < h))

/-- Reachability in the opaque 4-connectivity graph (reflexive-transitive
closure of connStep); two positions of one opaque component are related. -/
def Conn (w h : ℕ) (opq : ℕ → Bool) (p q : ℕ) : Prop :=
  Relation.ReflTransGen (connStep w h opq) p q

/-- Values of the JS loop `for (v = lo; v <= hi; v += step)`. -/
def stepRange (lo hi step : ℕ) : List ℕ :=
  (List.range ((hi + step - lo) / step)).map (fun k => lo + k * step)

/-- Values of the JS loop `for (v = 0; v < len; v += stride)`. -/
def strideRange (len stride : ℕ) : List ℕ :=
  (List.range ((len + stride - 1) / stride)).map (fun k => k * stride)

/-- Reconstruction error of the auto-grid search: summed per-channel L1 error of
mask-opaque source pixels against the downsampled reconstruction, with the
evaluated pixel count. -/
def reconError (cropped mask small : RawImage) (outW outH : ℕ)
    (cellW cellH : ℚ) (pixelStride : ℕ) : ℚ × ℕ :=
  (strideRange cropped.height pixelStride).foldl (fun acc y =>
    (strideRange cropped.width pixelStride).foldl (fun (acc : ℚ × ℕ) x =>
      let pixelIdx := y * cropped.width + x
      if mask.byte (pixelIdx * 4 + 3) < 16 then acc
      else
        let i := (min ((outW : ℤ) - 1) (max 0 ⌊(x : ℚ) / cellW⌋)).toNat
        let j := (min ((outH : ℤ) - 1) (max 0 ⌊(y : ℚ) / cellH⌋)).toNat
        let srcIdx := pixelIdx * 4
        let dstIdx := (j * outW + i) * 4
        (acc.1 + |(cropped.byte srcIdx : ℚ) - (small.byte dstIdx : ℚ)| +
          |(cropped.byte (srcIdx + 1) : ℚ) - (small.byte (dstIdx + 1) : ℚ)| +
          |(cropped.byte (srcIdx + 2) : ℚ) - (small.byte (dstIdx + 2) : ℚ)|,
          acc.2 + 1)) acc) (0, 0)

/-- Winning candidate state of the auto-grid scans. -/
structure GridScanBest where
  outW : ℕ
  outH : ℕ
  cellW : ℚ
  cellH : ℚ
  score : ℚ
deriving DecidableEq, Repr

/-- GridEstimateFromTrimmed from `core/processor.ts`. -/
structure GridEstimateFromTrimmed where
  outW : ℕ
  outH : ℕ
  cellW : ℚ
  cellH : ℚ
  offsetX : ℚ
  offsetY : ℚ
deriving DecidableEq, Repr

/-- Score minimization over candidate output heights: the loop body shared by
`FastGridSearchFromTrimmed.scan` and `legacySearchGridFromTrimmed` (the legacy
loop is this scan with step and stride 1). -/
def scanGridFromTrimmed (cropped mask : RawImage) (sampleWindow : ℚ)
    (outHMin outHMax outHStep pixelStride : ℕ) :
    Option (ℕ × GridEstimateFromTrimmed) :=
  let ratio := (cropped.width : ℚ) / max 1 (cropped.height : ℚ)
  let best := (stepRange outHMin outHMax outHStep).foldl
    (fun (best : Option GridScanBest) (outH : ℕ) =>
      let outW := (max 2 (jsRound ((outH : ℚ) * ratio))).toNat
      if 256 < outW ∨ 256 < outH then best
      else
        let cellW := (cropped.width : ℚ) / (outW : ℚ)
        let cellH := (cropped.height : ℚ) / (outH : ℚ)
        if ¬ (1 < cellW ∧ 1 < cellH) then best
        else
          let grid : PixelGrid :=
            { cellW := cellW
              cellH := cellH
              offsetX := 0
              offsetY := 0
              outW := some outW
              outH := some outH
              cropX := some 0
              cropY := some 0
              cropW := some (cropped.width : ℚ)
              cropH := some (cropped.height : ℚ)
              score := 0 }
          let small := downsample cropped grid sampleWindow
          let e := reconError cropped mask small outW outH cellW cellH pixelStride
          if e.2 = 0 then best
          else
            let score := e.1 / e.2 + 0.0025 * ((outW : ℚ) * (outH : ℚ))
            match best with
            | none => some ⟨outW, outH, cellW, cellH, score⟩
            | some b => if score < b.score then some ⟨outW, outH, cellW, cellH, score⟩
                else best) none
  best.map (fun b => (b.outH, ⟨b.outW, b.outH, b.cellW, b.cellH, 0, 0⟩))

/-- legacySearchGridFromTrimmed from `core/processor.ts`. -/
def legacySearchGridFromTrimmed (cropped mask : RawImage) (sampleWindow : ℚ) :
    Option GridEstimateFromTrimmed :=
  let outHMin := max 2 (cropped.height / 32)
  let outHMax := min 128 (max outHMin (cropped.height / 4))
  (scanGridFromTrimmed cropped mask sampleWindow outHMin outHMax 1 1).map
    Prod.snd

/-- FastGridSearchFromTrimmed.search from `core/processor.ts`: coarse scan with
size-dependent strides, then stride-1 refinement around the coarse optimum. -/
def fastSearchGridFromTrimmed (cropped mask : RawImage) (sampleWindow : ℚ) :
    Option GridEstimateFromTrimmed :=
  let outHMin := max 2 (cropped.height / 32)
  let outHMax := min 128 (max outHMin (cropped.height / 4))
  let span := outHMax - outHMin
  let outHStep := if 64 ≤ span then 3 else if 32 ≤ span then 2 else 1
  let maxDim := max cropped.width cropped.height
  let pixelStride := min 4 (max 1 (maxDim / 512))
  match scanGridFromTrimmed cropped mask sampleWindow outHMin outHMax outHStep
    pixelStride with
  | none => none
  | some coarse =>
    let refineRadius := outHStep * 2
    let r0 := max outHMin (coarse.1 - refineRadius)
    let r1 := min outHMax (coarse.1 + refineRadius)
    match scanGridFromTrimmed cropped mask sampleWindow r0 r1 1
      (max 1 (pixelStride / 2)) with
    | some refined => some refined.2
    | none => some coarse.2

/-- applyColorReduction from `core/processor.ts` (the log callback is
diagnostics only and omitted). -/
noncomputable def applyColorReduction (rnd : KmRandom) (img : RawImage)
    (mode : String) (colorCount : ℕ) : RawImage :=
  let pixelData := (pxList img.data).map (fun p =>
    (⟨p.r, p.g, p.b, p.a⟩ : PixelData))
  let isSfcMode := mode = "sfc_sprite" ∨ mode = "sfc_bg"
  let workingPixelData := if isSfcMode then
      pixelData.map (fun p => (⟨(jsRound ((p.r : ℚ) / 8)).toNat * 8,
        (jsRound ((p.g : ℚ) / 8)).toNat * 8,
        (jsRound ((p.b : ℚ) / 8)).toNat * 8, p.alpha⟩ : PixelData))
    else pixelData
  let reducedPixels := if mode = "auto" ∨ isSfcMode then
      let count := if mode = "sfc_sprite" then 16
        else if mode = "sfc_bg" then 256 else colorCount
      OklabKMeans.quantize rnd count 20 0.001 workingPixelData
    else
      match RETRO_PALETTES.find? (fun e => decide (e.1 = mode)) with
      | some pdef => PaletteQuantizer.quantize
          (pdef.2.map (fun t => ⟨t.1, t.2.1, t.2.2⟩)) workingPixelData
      | none => OklabKMeans.quantize rnd colorCount 20 0.001 workingPixelData
  { img with data := (reducedPixels.map (fun p => [p.r, p.g, p.b, p.alpha])).flatten }

/-- ProcessOptions from `core/processor.ts` (a `DetectOptions` extension; every
field optional as in the source; `bgRgb` carries the parsed `#rrggbb` triple and
`debugHook` the presence of the diagnostic callback, which the source tests
when deciding whether to precompute the masked bitmap). -/
structure ProcessOptions where
  detectionQuantStep : Option ℚ := none
  autoMaxCellsW : Option ℕ := none
  autoMaxCellsH : Option ℕ := none
  detectionStrips : Option ℕ := none
  backgroundMask : Option Bool := none
  backgroundMaskTolerance : Option ℚ := none
  preRemoveBackground : Option Bool := none
  postRemoveBackground : Option Bool := none
  forcePixelsW : Option ℚ := none
  forcePixelsH : Option ℚ := none
  removeInnerBackground : Option Bool := none
  backgroundTolerance : Option ℚ := none
  sampleWindow : Option ℚ := none
  trimToContent : Option Bool := none
  trimAlphaThreshold : Option ℚ := none
  ignoreFloatingContent : Option Bool := none
  floatingMaxPixels : Option ℚ := none
  autoGridFromTrimmed : Option Bool := none
  fastAutoGridFromTrimmed : Option Bool := none
  enableGridDetection : Option Bool := none
  reduceColors : Option Bool := none
  reduceColorMode : Option String := none
  colorCount : Option ℚ := none
  bgExtractionMethod : Option BgMethod := none
  bgRgb : Option (ℕ × ℕ × ℕ) := none
  debugHook : Bool := false
deriving DecidableEq, Repr

/-- Result record of normalizeProcessOptions. -/
structure NormalizedOptions where
  detect : DetectOptions
  preRemoveBackground : Bool
  postRemoveBackground : Bool
  forcePixelsW : Option ℤ
  forcePixelsH : Option ℤ
  removeInnerBackground : Bool
  backgroundTolerance : ℤ
  sampleWindow : ℤ
  trimToContent : Bool
  trimAlphaThreshold : ℤ
  autoGridFromTrimmed : Bool
  fastAutoGridFromTrimmed : Bool
  enableGridDetection : Bool
  reduceColors : Bool
  reduceColorMode : String
  colorCount : ℤ
  ignoreFloatingContent : Bool
  floatingMaxPixels : ℤ
  bgExtractionMethod : BgMethod
  bgRgb : Option (ℕ × ℕ × ℕ)
  debugHook : Bool
deriving DecidableEq, Repr

/-- normalizeProcessOptions from `core/processor.ts`: clamp numeric options and
fill PROCESS_DEFAULTS (`ignoreFloatingContent` defaults to off, per the option's
doc comment in the source). -/
def normalizeProcessOptions (raw : ProcessOptions) : NormalizedOptions :=
  let quantStep : ℚ :=
    ((clampInt (raw.detectionQuantStep.getD 64) rangeDetectionQuantStep : ℤ) : ℚ)
  { detect :=
      { detectionQuantStep := some quantStep
        autoMaxCellsW := raw.autoMaxCellsW
        autoMaxCellsH := raw.autoMaxCellsH
        detectionStrips := raw.detectionStrips
        backgroundMask := raw.backgroundMask
        backgroundMaskTolerance := raw.backgroundMaskTolerance }
    preRemoveBackground := raw.preRemoveBackground.getD true
    postRemoveBackground := raw.postRemoveBackground.getD true
    forcePixelsW := clampOptionalInt raw.forcePixelsW rangeForcePixels
    forcePixelsH := clampOptionalInt raw.forcePixelsH rangeForcePixels
    removeInnerBackground := raw.removeInnerBackground.getD false
    backgroundTolerance := clampInt (raw.backgroundTolerance.getD 64)
      rangeBackgroundTolerance
    sampleWindow := clampInt (raw.sampleWindow.getD 3) rangeSampleWindow
    trimToContent := raw.trimToContent.getD true
    trimAlphaThreshold := clampInt (raw.trimAlphaThreshold.getD 16)
      rangeTrimAlphaThreshold
    autoGridFromTrimmed := raw.autoGridFromTrimmed.getD true
    fastAutoGridFromTrimmed := raw.fastAutoGridFromTrimmed.getD true
    enableGridDetection := raw.enableGridDetection.getD true
    reduceColors := raw.reduceColors.getD false
    reduceColorMode := raw.reduceColorMode.getD "none"
    colorCount := clampInt (raw.colorCount.getD 32) rangeColorCount
    ignoreFloatingContent := raw.ignoreFloatingContent.getD false
    floatingMaxPixels := clampInt (raw.floatingMaxPixels.getD 0)
      rangeFloatingMaxPixels
    bgExtractionMethod := raw.bgExtractionMethod.getD BgMethod.topLeft
    bgRgb := raw.bgRgb
    debugHook := raw.debugHook }

/-- Return record of processImage: the result bitmap and the grid. -/
structure ProcOut where
  result : RawImage
  grid : PixelGrid
deriving DecidableEq, Repr

/-- Forced-size path of processImage (`forcePixelsW/H` both set): mask, optional
floating-component removal, bbox trim (ContentNotFound on empty), forced grid,
downsample (window 1 on sub-pixel cells), post mask and color reduction. -/
noncomputable def processForced (rnd : KmRandom) (o : NormalizedOptions)
    (bgTargets : List (ℕ × ℕ × ℕ)) (working : RawImage) (fw fh : ℤ) :
    Except String ProcOut :=
  let bgTol : ℚ := (o.backgroundTolerance : ℚ)
  let masked := removeBackground working bgTol o.removeInnerBackground bgTargets
    o.bgExtractionMethod o.bgRgb
  let step1 : Except String (RawImage × RawImage) :=
    if o.ignoreFloatingContent then
      match removeSmallFloatingComponentsInPlace working masked
        (o.trimAlphaThreshold : ℚ) (o.floatingMaxPixels : ℚ) with
      | Except.error e => Except.error e
      | Except.ok r => Except.ok (r.1, r.2.1)
    else Except.ok (working, masked)
  match step1 with
  | Except.error e => Except.error e
  | Except.ok (working2, masked2) =>
    match findOpaqueBounds masked2 (o.trimAlphaThreshold : ℚ) with
    | none => Except.error "内容物が見つからないため指定ピクセル変換できません。"
    | some b =>
      let cropped := cropRawImage working2 b.x b.y b.w b.h
      let outW := fw.toNat
      let outH := fh.toNat
      let cellW := (cropped.width : ℚ) / outW
      let cellH := (cropped.height : ℚ) / outH
      let g : PixelGrid :=
        { cellW := cellW
          cellH := cellH
          offsetX := 0
          offsetY := 0
          outW := some outW
          outH := some outH
          cropX := some 0
          cropY := some 0
          cropW := some (cropped.width : ℚ)
          cropH := some (cropped.height : ℚ)
          score := 0 }
      let sw : ℚ := if cellW < 1 ∨ cellH < 1 then 1 else (o.sampleWindow : ℚ)
      let down2 := downsample cropped g sw
      let result2 := if o.postRemoveBackground then
          removeBackground down2 bgTol o.removeInnerBackground bgTargets
            o.bgExtractionMethod o.bgRgb
        else down2
      let finalResult := if o.reduceColors then
          applyColorReduction rnd result2 o.reduceColorMode o.colorCount.toNat
        else result2
      Except.ok ⟨finalResult, g⟩

/-- Grid-disabled path of processImage (`enableGridDetection = false`): mask,
optional floating-component removal, optional bbox crop, unit-cell grid. -/
noncomputable def processGridDisabled (rnd : KmRandom) (o : NormalizedOptions)
    (bgTargets : List (ℕ × ℕ × ℕ)) (working : RawImage) :
    Except String ProcOut :=
  let bgTol : ℚ := (o.backgroundTolerance : ℚ)
  let masked := removeBackground working bgTol o.removeInnerBackground bgTargets
    o.bgExtractionMethod o.bgRgb
  let step1 : Except String (RawImage × RawImage) :=
    if o.ignoreFloatingContent then
      match removeSmallFloatingComponentsInPlace working masked
        (o.trimAlphaThreshold : ℚ) (o.floatingMaxPixels : ℚ) with
      | Except.error e => Except.error e
      | Except.ok r => Except.ok (r.1, r.2.1)
    else Except.ok (working, masked)
  match step1 with
  | Except.error e => Except.error e
  | Except.ok (working2, masked2) =>
    let trimmed := if o.trimToContent then
        match findOpaqueBounds masked2 (o.trimAlphaThreshold : ℚ) with
        | some b => (cropRawImage working2 b.x b.y b.w b.h, b.w, b.h, b.x, b.y)
        | none => (working2, working2.width, working2.height, 0, 0)
      else (working2, working2.width, working2.height, 0, 0)
    let g : PixelGrid :=
      { cellW := 1
        cellH := 1
        offsetX := 0
        offsetY := 0
        outW := some trimmed.2.1
        outH := some trimmed.2.2.1
        cropX := some (trimmed.2.2.2.1 : ℚ)
        cropY := some (trimmed.2.2.2.2 : ℚ)
        cropW := some (trimmed.2.1 : ℚ)
        cropH := some (trimmed.2.2.1 : ℚ)
        score := 1 }
    let result := if o.postRemoveBackground then
        removeBackground trimmed.1 bgTol o.removeInnerBackground bgTargets
          o.bgExtractionMethod o.bgRgb
      else trimmed.1
    let finalResult := if o.reduceColors then
        applyColorReduction rnd result o.reduceColorMode o.colorCount.toNat
      else result
    Except.ok ⟨finalResult, g⟩

/-- Auto path of processImage: optional auto-grid-from-trimmed estimate applied
to the full working bitmap, detector fallback, downsample, optional bbox trim of
the downsampled result with crop translation, post mask, color reduction. -/
noncomputable def processAuto (log1p : ℚ → ℚ) (rnd : KmRandom)
    (o : NormalizedOptions) (bgTargets : List (ℕ × ℕ × ℕ)) (working : RawImage) :
    Except String ProcOut :=
  let bgTol : ℚ := (o.backgroundTolerance : ℚ)
  let maskedForDebugOrAuto := if o.debugHook ∨ o.autoGridFromTrimmed ∨
      o.ignoreFloatingContent then
      some (removeBackground working bgTol o.removeInnerBackground bgTargets
        o.bgExtractionMethod o.bgRgb)
    else none
  let step1 : Except String (RawImage × Option RawImage) :=
    match maskedForDebugOrAuto with
    | some m =>
      if o.ignoreFloatingContent then
        match removeSmallFloatingComponentsInPlace working m
          (o.trimAlphaThreshold : ℚ) (o.floatingMaxPixels : ℚ) with
        | Except.error e => Except.error e
        | Except.ok r => Except.ok (r.1, some r.2.1)
      else Except.ok (working, some m)
    | none => Except.ok (working, none)
  match step1 with
  | Except.error e => Except.error e
  | Except.ok (working2, maskedOpt) =>
    let grid0 : Option PixelGrid :=
      if o.autoGridFromTrimmed then
        match maskedOpt with
        | some m =>
          match findOpaqueBounds m (o.trimAlphaThreshold : ℚ) with
          | some b =>
            let cropped := cropRawImage working2 b.x b.y b.w b.h
            let croppedMask := cropRawImage m b.x b.y b.w b.h
            let est := if o.fastAutoGridFromTrimmed then
                fastSearchGridFromTrimmed cropped croppedMask (o.sampleWindow : ℚ)
              else legacySearchGridFromTrimmed cropped croppedMask
                (o.sampleWindow : ℚ)
            match est with
            | some e =>
              let outW := (max 1 ⌊(working2.width : ℚ) / e.cellW⌋).toNat
              let outH := (max 1 ⌊(working2.height : ℚ) / e.cellH⌋).toNat
              some
                { cellW := e.cellW
                  cellH := e.cellH
                  offsetX := 0
                  offsetY := 0
                  outW := some outW
                  outH := some outH
                  cropX := some 0
                  cropY := some 0
                  cropW := some ((outW : ℚ) * e.cellW)
                  cropH := some ((outH : ℚ) * e.cellH)
                  score := 0 }
            | none => none
          | none => none
        | none => none
      else none
    let gridE : Except String PixelGrid := match grid0 with
      | some g => Except.ok g
      | none => detectGrid log1p working2 o.detect
    match gridE with
    | Except.error e => Except.error e
    | Except.ok grid =>
      let down := downsample working2 grid (o.sampleWindow : ℚ)
      let trimmed2 : RawImage × PixelGrid := if o.trimToContent then
          let masked2 := removeBackground down bgTol o.removeInnerBackground
            bgTargets o.bgExtractionMethod o.bgRgb
          match findOpaqueBounds masked2 (o.trimAlphaThreshold : ℚ) with
          | some b =>
            if b.x ≠ 0 ∨ b.y ≠ 0 ∨ b.w ≠ down.width ∨ b.h ≠ down.height then
              let baseCropX := grid.cropX.getD grid.offsetX
              let baseCropY := grid.cropY.getD grid.offsetY
              (cropRawImage down b.x b.y b.w b.h,
                { grid with
                  outW := some b.w
                  outH := some b.h
                  cropX := some (baseCropX + b.x * grid.cellW)
                  cropY := some (baseCropY + b.y * grid.cellH)
                  cropW := some ((b.w : ℚ) * grid.cellW)
                  cropH := some ((b.h : ℚ) * grid.cellH) })
            else (down, grid)
          | none => (down, grid)
        else (down, grid)
      let result := if o.postRemoveBackground then
          removeBackground trimmed2.1 bgTol o.removeInnerBackground bgTargets
            o.bgExtractionMethod o.bgRgb
        else trimmed2.1
      let finalResult := if o.reduceColors then
          applyColorReduction rnd result o.reduceColorMode o.colorCount.toNat
        else result
      Except.ok ⟨finalResult, trimmed2.2⟩

/-- processImage from `core/processor.ts`: normalize options, extract background
targets, pre-flood-fill, then one of the forced-size, grid-disabled or auto
paths.  `log1p` and `rnd` embed `Math.log1p` and the `Math.random` draws. -/
noncomputable def processImage (log1p : ℚ → ℚ) (rnd : KmRandom)
    (img : RawImage) (options : ProcessOptions) : Except String ProcOut :=
  let o := normalizeProcessOptions options
  let bgTargets := if o.removeInnerBackground then
      getBackgroundTargets img o.bgExtractionMethod o.bgRgb 16
    else []
  let working := if o.preRemoveBackground then
      removeBackgroundByFloodFill img (o.backgroundTolerance : ℚ)
        o.bgExtractionMethod o.bgRgb
    else cloneImage img
  match o.forcePixelsW, o.forcePixelsH with
  | some fw, some fh => processForced rnd o bgTargets working fw fh
  | some _, none => if ¬ o.enableGridDetection then
      processGridDisabled rnd o bgTargets working
    else processAuto log1p rnd o bgTargets working
  | none, _ => if ¬ o.enableGridDetection then
      processGridDisabled rnd o bgTargets working
    else processAuto log1p rnd o bgTargets working

/-- Modelled from the spec: nearest-neighbor resize to the given dimensions,
used for the two before-reference views of the result record ("two comparison
views (original and sanitized, both resized to the result dimensions)").  The
processor.ts revision that builds this record (the `ProcessResult` imported by
`worker.ts` and destructured by `app.ts`) is not among the staged sources. -/
def resizeNearestTo (img : RawImage) (w h : ℕ) : RawImage :=
  { width := w
    height := h
    data := ((List.range h).map (fun j => ((List.range w).map (fun i =>
      let s := ((j * img.height / h) * img.width + i * img.width / w) * 4
      [img.byte s, img.byte (s + 1), img.byte (s + 2), img.byte (s + 3)])).flatten)).flatten }

/-- Modelled from the spec: the extracted palette of the result — the distinct
RGB triples of its sufficiently opaque pixels in scan order, following the
repository's extractColorsFromImage (`utils/palette.ts`, alpha ≥ 128). -/
def extractedPaletteOf (img : RawImage) : List (ℕ × ℕ × ℕ) :=
  (pxList img.data).foldl (fun acc p =>
    if p.a < 128 then acc
    else if acc.any (fun t => t = (p.r, p.g, p.b)) then acc
    else acc ++ [(p.r, p.g, p.b)]) []

/-- Modelled from the spec: the result record of the primary operation
`process(bitmap, options)` — `{ bitmap, grid, extractedPalette,
compareBeforeOriginal, compareBeforeSanitized }` (spec §6). -/
structure ProcessResult where
  bitmap : RawImage
  grid : PixelGrid
  extractedPalette : List (ℕ × ℕ × ℕ)
  compareBeforeOriginal : RawImage
  compareBeforeSanitized : RawImage
deriving DecidableEq, Repr

/-- Modelled from the spec: the primary operation `process` — run the pipeline
and return its bitmap and grid together with the extracted palette and the
original and sanitized inputs resized to the result dimensions (spec §4.13 and
§6; the sanitized input is the working bitmap after the pre flood fill). -/
noncomputable def process (log1p : ℚ → ℚ) (rnd : KmRandom) (img : RawImage)
    (options : ProcessOptions) : Except String ProcessResult :=
  match processImage log1p rnd img options with
  | Except.error e => Except.error e
  | Except.ok r =>
    let o := normalizeProcessOptions options
    let sanitized := if o.preRemoveBackground then
        removeBackgroundByFloodFill img (o.backgroundTolerance : ℚ)
          o.bgExtractionMethod o.bgRgb
      else cloneImage img
    Except.ok
      { bitmap := r.result
        grid := r.grid
        extractedPalette := extractedPaletteOf r.result
        compareBeforeOriginal := resizeNearestTo img r.result.width
          r.result.height
        compareBeforeSanitized := resizeNearestTo sanitized r.result.width
          r.result.height }

/-- Number of distinct packed-RGB keys among the pixels of nonzero alpha (the
"unique opaque colors" of the spec; the packing is injective on the byte
channels of every reachable pixel). -/
def uniqueOpaqueColors (pixels : List PixelData) : ℕ :=
  ((pixels.filter (fun p => decide (0 < p.alpha))).map pixelKey).toFinset.card

/-- The grid invariants of the spec: the offsets lie in `[0, cell)` on both
axes, and the crop extent is exactly the output size times the cell size:
`outW * cellW = cropW` and `outH * cellH = cropH` (with the crop and output
fields populated). -/
def GridInvariant (g : PixelGrid) : Prop :=
  0 ≤ g.offsetX ∧ g.offsetX < g.cellW ∧ 0 ≤ g.offsetY ∧ g.offsetY < g.cellH ∧
    ∃ ow oh cw ch, g.outW = some ow ∧ g.outH = some oh ∧ g.cropW = some cw ∧
      g.cropH = some ch ∧ (ow : ℚ) * g.cellW = cw ∧ (oh : ℚ) * g.cellH = ch

/-- A single-color image: `w * h` RGBA pixels of one fixed color (used to state
the uniform-input claims; fully opaque when `a = 255`). -/
def uniformImage (w h r g b a : ℕ) : RawImage :=
  ⟨w, h, (List.replicate (w * h) [r, g, b, a]).flatten⟩

/-
Theorems.  Support lemmas first, then one named theorem per claim (witnesses and
counterexamples as separate closed theorems).
-/

theorem setPixel_width (img : RawImage) (x y : ℤ) (p : Px) :
    (setPixel img x y p).width = img.width := by
  unfold setPixel; split <;> rfl

theorem setPixel_height (img : RawImage) (x y : ℤ) (p : Px) :
    (setPixel img x y p).height = img.height := by
  unfold setPixel; split <;> rfl

theorem setPixel_data_length (img : RawImage) (x y : ℤ) (p : Px) :
    (setPixel img x y p).data.length = img.data.length := by
  unfold setPixel; split
  · rfl
  · simp [List.length_set]

theorem getD_set_ne (l : List ℕ) (i j a : ℕ) (h : i ≠ j) :
    (l.set i a).getD j 0 = l.getD j 0 := by
  simp [List.getD_eq_getElem?_getD, List.getElem?_set_ne h]

theorem getD_set_self (l : List ℕ) (i a : ℕ) (h : i < l.length) :
    (l.set i a).getD i 0 = a := by
  simp [List.getD_eq_getElem?_getD, List.getElem?_set_self h]

theorem getPixel_of_lt {img : RawImage} {x y : ℕ} (hx : x < img.width)
    (hy : y < img.height) :
    getPixel img x y =
      ⟨img.byte ((y * img.width + x) * 4), img.byte ((y * img.width + x) * 4 + 1),
        img.byte ((y * img.width + x) * 4 + 2),
        img.byte ((y * img.width + x) * 4 + 3)⟩ := by
  unfold getPixel
  have h1 : min ((img.width : ℤ) - 1) (max 0 ((x : ℕ) : ℤ)) = (x : ℤ) := by omega
  have h2 : min ((img.height : ℤ) - 1) (max 0 ((y : ℕ) : ℤ)) = (y : ℤ) := by omega
  simp only [h1, h2]
  have h3 : (((y : ℤ) * img.width + x) * 4).toNat = (y * img.width + x) * 4 := by
    omega
  simp only [h3]

theorem setPixel_of_lt {img : RawImage} {x y : ℕ} (hx : x < img.width)
    (hy : y < img.height) (p : Px) :
    setPixel img x y p =
      { img with data := ((((img.data.set ((y * img.width + x) * 4) p.r).set
          ((y * img.width + x) * 4 + 1) p.g).set
          ((y * img.width + x) * 4 + 2) p.b).set
          ((y * img.width + x) * 4 + 3) p.a) } := by
  unfold setPixel
  rw [if_neg (by push_neg; refine ⟨by omega, by omega, by omega, by omega⟩)]
  simp only [Int.toNat_natCast]

theorem ffLoop_spec (w h : ℕ) (tol : ℚ) (t₁ t₂ t₃ : ℕ) :
    ∀ (img : RawImage) (visited : Finset ℕ) (stack : List (Fin w × Fin h)),
      img.width = w → img.height = h →
      (ffLoop w h tol t₁ t₂ t₃ img visited stack).1.width = img.width ∧
      (ffLoop w h tol t₁ t₂ t₃ img visited stack).1.height = img.height ∧
      (ffLoop w h tol t₁ t₂ t₃ img visited stack).1.data.length =
        img.data.length ∧
      ∀ i ∈ visited, ∀ k, k < 4 →
        (ffLoop w h tol t₁ t₂ t₃ img visited stack).1.data.getD (4 * i + k) 0 =
          img.data.getD (4 * i + k) 0 := by
  intro img visited stack
  induction img, visited, stack using ffLoop.induct w h tol t₁ t₂ t₃ with
  | case1 img visited =>
    intro _ _
    rw [ffLoop]
    exact ⟨rfl, rfl, rfl, fun i _ k _ => rfl⟩
  | case2 img visited x y stack hmem ih =>
    intro hw hh
    rw [ffLoop, if_pos hmem]
    exact ih hw hh
  | case3 img visited x y stack hmem visited' px htol ih =>
    intro hw hh
    rw [ffLoop, if_neg hmem]
    simp only [htol, if_pos rfl]
    obtain ⟨h1, h2, h3, h4⟩ := ih hw hh
    exact ⟨h1, h2, h3, fun i hi k hk => h4 i (Finset.mem_insert_of_mem hi) k hk⟩
  | case4 img visited x y stack hmem visited' px htol ha ih =>
    intro hw hh
    rw [ffLoop, if_neg hmem]
    simp only [htol]
    rw [if_neg (by simp), if_pos ha]
    obtain ⟨h1, h2, h3, h4⟩ := ih hw hh
    exact ⟨h1, h2, h3, fun i hi k hk => h4 i (Finset.mem_insert_of_mem hi) k hk⟩
  | case5 img visited x y stack hmem visited' px htol ha ih =>
    intro hw hh
    rw [ffLoop, if_neg hmem]
    simp only [htol]
    rw [if_neg (by simp), if_neg ha]
    have hw2 : (setPixel img ((x : ℕ) : ℤ) ((y : ℕ) : ℤ)
        ⟨px.r, px.g, px.b, 0⟩).width = img.width := setPixel_width ..
    obtain ⟨h1, h2, h3, h4⟩ := ih (by rw [hw2, hw])
      (by rw [setPixel_height, hh])
    refine ⟨by rw [h1, hw2], by rw [h2, setPixel_height], by
      rw [h3, setPixel_data_length], fun i hi k hk => ?_⟩
    rw [h4 i (Finset.mem_insert_of_mem hi) k hk]
    have hxw : (x : ℕ) < img.width := by rw [hw]; exact x.isLt
    have hyh : (y : ℕ) < img.height := by rw [hh]; exact y.isLt
    rw [setPixel_of_lt hxw hyh]
    have hne : (y : ℕ) * img.width + (x : ℕ) ≠ i := by
      intro hcontra
      apply hmem
      have hpi : posIdx x y = i := by
        simp only [posIdx, hw] at hcontra ⊢
        omega
      exact hpi ▸ hi
    have hb : ∀ m, m < 4 →
        ((y : ℕ) * img.width + (x : ℕ)) * 4 + m ≠ 4 * i + k := by
      intro m hm hcontra
      apply hne
      omega
    simp only []
    rw [getD_set_ne _ _ _ _ (by have := hb 3 (by omega); omega),
      getD_set_ne _ _ _ _ (by have := hb 2 (by omega); omega),
      getD_set_ne _ _ _ _ (by have := hb 1 (by omega); omega),
      getD_set_ne _ _ _ _ (by have := hb 0 (by omega); omega)]

theorem withinTolerance_self_true (a b c : ℕ) {tol : ℚ} (h : 0 ≤ tol) :
    withinTolerance a b c a b c tol = true := by
  simp [withinTolerance, sub_self, abs_zero, h]

theorem withinTolerance_self_false (a b c : ℕ) {tol : ℚ} (h : tol < 0) :
    withinTolerance a b c a b c tol = false := by
  simp [withinTolerance, sub_self, abs_zero, not_le.mpr h]

theorem floodFillVisited_oob {img : RawImage} {sx sy : ℤ} {tol : ℚ}
    {v : Finset ℕ}
    (h : sx < 0 ∨ sy < 0 ∨ (img.width : ℤ) ≤ sx ∨ (img.height : ℤ) ≤ sy) :
    floodFillTransparentVisited img sx sy tol v = (img, v) := by
  unfold floodFillTransparentVisited
  rw [dif_pos h]

theorem floodFill_oob {img : RawImage} {sx sy : ℤ} {tol : ℚ}
    (h : sx < 0 ∨ sy < 0 ∨ (img.width : ℤ) ≤ sx ∨ (img.height : ℤ) ≤ sy) :
    floodFillTransparent img sx sy tol = img := by
  unfold floodFillTransparent
  rw [floodFillVisited_oob h]

theorem floodFill_noop {img : RawImage} {sx sy : ℤ} {tol : ℚ}
    (hin : ¬ (sx < 0 ∨ sy < 0 ∨ (img.width : ℤ) ≤ sx ∨ (img.height : ℤ) ≤ sy))
    (hcase : tol < 0 ∨ (getPixel img sx sy).a = 0) :
    floodFillTransparent img sx sy tol = img := by
  unfold floodFillTransparent floodFillTransparentVisited
  rw [dif_neg hin]
  push_neg at hin
  have hsx : ((sx.toNat : ℕ) : ℤ) = sx := Int.toNat_of_nonneg (by omega)
  have hsy : ((sy.toNat : ℕ) : ℤ) = sy := Int.toNat_of_nonneg (by omega)
  rw [ffLoop, if_neg (Finset.not_mem_empty _)]
  simp only [hsx, hsy]
  by_cases htol : tol < 0
  · rw [if_pos (by
      rw [withinTolerance_self_false _ _ _ htol])]
    rw [ffLoop]
  · push_neg at htol
    rw [if_neg (by rw [withinTolerance_self_true _ _ _ htol]; simp)]
    rcases hcase with hc | hc
    · exact absurd hc (not_lt.mpr htol)
    · rw [if_pos hc, ffLoop]

theorem floodFill_accepted {img : RawImage} {sx sy : ℤ} {tol : ℚ}
    (hin : ¬ (sx < 0 ∨ sy < 0 ∨ (img.width : ℤ) ≤ sx ∨ (img.height : ℤ) ≤ sy))
    (htol : 0 ≤ tol) (ha : ¬ (getPixel img sx sy).a = 0)
    (hlen : img.data.length = 4 * img.width * img.height) :
    (floodFillTransparent img sx sy tol).width = img.width ∧
    (floodFillTransparent img sx sy tol).height = img.height ∧
    (floodFillTransparent img sx sy tol).data.length = img.data.length ∧
    getPixel (floodFillTransparent img sx sy tol) sx sy =
      ⟨(getPixel img sx sy).r, (getPixel img sx sy).g, (getPixel img sx sy).b,
        0⟩ := by
  unfold floodFillTransparent floodFillTransparentVisited
  rw [dif_neg hin]
  push_neg at hin
  have hsx : ((sx.toNat : ℕ) : ℤ) = sx := Int.toNat_of_nonneg (by omega)
  have hsy : ((sy.toNat : ℕ) : ℤ) = sy := Int.toNat_of_nonneg (by omega)
  have hxw : sx.toNat < img.width := by omega
  have hyh : sy.toNat < img.height := by omega
  rw [ffLoop, if_neg (Finset.not_mem_empty _)]
  simp only [hsx, hsy]
  rw [if_neg (by rw [withinTolerance_self_true _ _ _ htol]; simp), if_neg ha]
  set seed := getPixel img sx sy with hseed
  set X : Fin img.width := ⟨sx.toNat, hxw⟩
  set Y : Fin img.height := ⟨sy.toNat, hyh⟩
  set img1 := setPixel img sx sy ⟨seed.r, seed.g, seed.b, 0⟩ with himg1
  rw [show (insert (posIdx X Y) (∅ : Finset ℕ)) = {posIdx X Y} from rfl]
  have himg1w : img1.width = img.width := setPixel_width ..
  have himg1h : img1.height = img.height := setPixel_height ..
  have himg1len : img1.data.length = img.data.length := setPixel_data_length ..
  obtain ⟨h1, h2, h3, h4⟩ := ffLoop_spec img.width img.height tol seed.r seed.g
    seed.b img1 {posIdx X Y} (pushNbrs X Y []) himg1w himg1h
  have hmem : posIdx X Y ∈ ({posIdx X Y} : Finset ℕ) := Finset.mem_singleton_self _
  refine ⟨by rw [h1, himg1w], by rw [h2, himg1h], by rw [h3, himg1len], ?_⟩
  have hRw : (ffLoop img.width img.height tol seed.r seed.g seed.b img1
      {posIdx X Y} (pushNbrs X Y [])).1.width = img.width := by rw [h1, himg1w]
  have hRh : (ffLoop img.width img.height tol seed.r seed.g seed.b img1
      {posIdx X Y} (pushNbrs X Y [])).1.height = img.height := by
    rw [h2, himg1h]
  have hgp : getPixel (ffLoop img.width img.height tol seed.r seed.g seed.b img1
      {posIdx X Y} (pushNbrs X Y [])).1 sx sy =
      ⟨seed.r, seed.g, seed.b, 0⟩ := by
    rw [← hsx, ← hsy]
    rw [getPixel_of_lt (by rw [hRw]; exact hxw) (by rw [hRh]; exact hyh)]
    have hbase : (sy.toNat * (ffLoop img.width img.height tol seed.r seed.g
        seed.b img1 {posIdx X Y} (pushNbrs X Y [])).1.width + sx.toNat) * 4 =
        4 * posIdx X Y := by
      rw [hRw]
      simp only [posIdx]
      ring
    have hb4 : ∀ k, k < 4 → (ffLoop img.width img.height tol seed.r seed.g
        seed.b img1 {posIdx X Y} (pushNbrs X Y [])).1.data.getD
          (4 * posIdx X Y + k) 0 = img1.data.getD (4 * posIdx X Y + k) 0 :=
      fun k hk => h4 _ hmem k hk
    have himg1data : img1.data = (((img.data.set
        ((sy.toNat * img.width + sx.toNat) * 4) seed.r).set
        ((sy.toNat * img.width + sx.toNat) * 4 + 1) seed.g).set
        ((sy.toNat * img.width + sx.toNat) * 4 + 2) seed.b).set
        ((sy.toNat * img.width + sx.toNat) * 4 + 3) 0 := by
      rw [himg1, ← hsx, ← hsy, setPixel_of_lt hxw hyh]
      have hx2 : sx ⊔ 0 = sx := sup_eq_left.mpr (by omega)
      have hy2 : sy ⊔ 0 = sy := sup_eq_left.mpr (by omega)
      simp [Int.toNat_natCast, hx2, hy2]
    have hbase2 : (sy.toNat * img.width + sx.toNat) * 4 = 4 * posIdx X Y := by
      simp only [posIdx]; ring
    have hlt : posIdx X Y < img.width * img.height := by
      simp only [posIdx]
      calc sy.toNat * img.width + sx.toNat
          < sy.toNat * img.width + img.width := by omega
        _ = (sy.toNat + 1) * img.width := by ring
        _ ≤ img.height * img.width := Nat.mul_le_mul_right _ (by omega)
        _ = img.width * img.height := Nat.mul_comm ..
    have hdl : 4 * posIdx X Y + 3 < img.data.length := by
      have h4wh : 4 * img.width * img.height = 4 * (img.width * img.height) := by
        ring
      rw [hlen, h4wh]
      omega
    unfold RawImage.byte
    rw [hbase]
    have e0 : img1.data.getD (4 * posIdx X Y) 0 = seed.r := by
      rw [himg1data, hbase2]
      rw [getD_set_ne _ _ _ _ (by omega), getD_set_ne _ _ _ _ (by omega),
        getD_set_ne _ _ _ _ (by omega)]
      exact getD_set_self _ _ _ (by omega)
    have e1 : img1.data.getD (4 * posIdx X Y + 1) 0 = seed.g := by
      rw [himg1data, hbase2]
      rw [getD_set_ne _ _ _ _ (by omega), getD_set_ne _ _ _ _ (by omega)]
      exact getD_set_self _ _ _ (by simp only [List.length_set]; omega)
    have e2 : img1.data.getD (4 * posIdx X Y + 2) 0 = seed.b := by
      rw [himg1data, hbase2]
      rw [getD_set_ne _ _ _ _ (by omega)]
      exact getD_set_self _ _ _ (by simp only [List.length_set]; omega)
    have e3 : img1.data.getD (4 * posIdx X Y + 3) 0 = 0 := by
      rw [himg1data, hbase2]
      exact getD_set_self _ _ _ (by simp only [List.length_set]; omega)
    have hb40 : (ffLoop img.width img.height tol seed.r seed.g seed.b img1
        {posIdx X Y} (pushNbrs X Y [])).1.data.getD (4 * posIdx X Y) 0 =
        img1.data.getD (4 * posIdx X Y) 0 := by
      have := hb4 0 (by omega)
      simpa using this
    rw [hb40, hb4 1 (by omega), hb4 2 (by omega), hb4 3 (by omega)]
    rw [e0, e1, e2, e3]
  exact hgp

/-- Claim C5: floodFillTransparent is idempotent — for every (well-formed)
image, seed coordinate and tolerance, running the fill twice with the same
parameters produces the same image (in particular the same per-pixel alpha
field) as running it once. -/
theorem floodFillTransparent_idempotent (img : RawImage) (sx sy : ℤ) (tol : ℚ)
    (hlen : img.data.length = 4 * img.width * img.height) :
    floodFillTransparent (floodFillTransparent img sx sy tol) sx sy tol =
      floodFillTransparent img sx sy tol := by
  by_cases hin : sx < 0 ∨ sy < 0 ∨ (img.width : ℤ) ≤ sx ∨ (img.height : ℤ) ≤ sy
  · rw [floodFill_oob hin, floodFill_oob hin]
  · by_cases htol : tol < 0
    · rw [floodFill_noop hin (Or.inl htol)]
      exact floodFill_noop hin (Or.inl htol)
    · push_neg at htol
      by_cases ha : (getPixel img sx sy).a = 0
      · rw [floodFill_noop hin (Or.inr ha)]
        exact floodFill_noop hin (Or.inr ha)
      · obtain ⟨hW, hH, _, hpx⟩ := floodFill_accepted hin htol ha hlen
        have hin2 : ¬ (sx < 0 ∨ sy < 0 ∨
            ((floodFillTransparent img sx sy tol).width : ℤ) ≤ sx ∨
            ((floodFillTransparent img sx sy tol).height : ℤ) ≤ sy) := by
          rw [hW, hH]; exact hin
        exact floodFill_noop hin2 (Or.inr (by rw [hpx]))

/-- Witness for C5 at a concrete input: a well-formed 1×1 image, seed (0,0),
tolerance 0. -/
theorem floodFillTransparent_idempotent_witness :
    (⟨1, 1, [9, 8, 7, 255]⟩ : RawImage).data.length =
      4 * (⟨1, 1, [9, 8, 7, 255]⟩ : RawImage).width *
        (⟨1, 1, [9, 8, 7, 255]⟩ : RawImage).height ∧
    floodFillTransparent
        (floodFillTransparent (⟨1, 1, [9, 8, 7, 255]⟩ : RawImage) 0 0 0) 0 0 0 =
      floodFillTransparent (⟨1, 1, [9, 8, 7, 255]⟩ : RawImage) 0 0 0 :=
  ⟨rfl, floodFillTransparent_idempotent ⟨1, 1, [9, 8, 7, 255]⟩ 0 0 0 rfl⟩

/-- Claim C10: when the seed lies outside the image bounds or the seed pixel's
alpha is 0, floodFillTransparent returns the image unchanged. -/
theorem floodFillTransparent_noop_oob_or_transparent (img : RawImage)
    (sx sy : ℤ) (tol : ℚ)
    (h : (sx < 0 ∨ sy < 0 ∨ (img.width : ℤ) ≤ sx ∨ (img.height : ℤ) ≤ sy) ∨
      (getPixel img sx sy).a = 0) :
    floodFillTransparent img sx sy tol = img := by
  rcases h with hoob | ha
  · exact floodFill_oob hoob
  · by_cases hin : sx < 0 ∨ sy < 0 ∨ (img.width : ℤ) ≤ sx ∨
        (img.height : ℤ) ≤ sy
    · exact floodFill_oob hin
    · exact floodFill_noop hin (Or.inr ha)

/-- Witness for C10: out-of-bounds seed (5, 5) on a 1×1 image. -/
theorem floodFillTransparent_noop_witness :
    (((5 : ℤ) < 0 ∨ (5 : ℤ) < 0 ∨
        (((⟨1, 1, [9, 8, 7, 255]⟩ : RawImage).width : ℤ) ≤ 5) ∨
        (((⟨1, 1, [9, 8, 7, 255]⟩ : RawImage).height : ℤ) ≤ 5)) ∨
      (getPixel (⟨1, 1, [9, 8, 7, 255]⟩ : RawImage) 5 5).a = 0) ∧
    floodFillTransparent (⟨1, 1, [9, 8, 7, 255]⟩ : RawImage) 5 5 3 =
      ⟨1, 1, [9, 8, 7, 255]⟩ :=
  ⟨Or.inl (by decide),
    floodFillTransparent_noop_oob_or_transparent ⟨1, 1, [9, 8, 7, 255]⟩ 5 5 3
      (Or.inl (by decide))⟩

theorem buildColorMap_go (ops : List PixelData) :
    ∀ m : List (ℕ × UColor), (m.map Prod.fst).Nodup →
      (ops.foldl (fun m p =>
        let key := pixelKey p
        if m.any (fun e => decide (e.1 = key)) then
          m.map (fun e => if e.1 = key then (e.1, ⟨e.2.lab, e.2.count + 1⟩) else e)
        else m ++ [(key, ⟨rgbToOklab p.r p.g p.b, 1⟩)]) m).length =
      (m.map Prod.fst ++ ops.map pixelKey).toFinset.card := by
  induction ops with
  | nil =>
    intro m hnd
    simpa using (List.toFinset_card_of_nodup hnd).symm
  | cons p rest ih =>
    intro m hnd
    simp only [List.foldl_cons]
    by_cases hmem : (pixelKey p) ∈ m.map Prod.fst
    · have hany : m.any (fun e => decide (e.1 = pixelKey p)) = true := by
        simp only [List.any_eq_true, decide_eq_true_eq]
        obtain ⟨e, he, hek⟩ := List.mem_map.mp hmem
        exact ⟨e, he, hek⟩
      rw [if_pos hany]
      have hkeys : (m.map (fun e => if e.1 = pixelKey p then
          ((e.1, ⟨e.2.lab, e.2.count + 1⟩) : ℕ × UColor) else e)).map Prod.fst =
          m.map Prod.fst := by
        rw [List.map_map]
        refine List.map_congr_left ?_
        intro e _
        by_cases he : e.1 = pixelKey p <;> simp [he]
      rw [ih _ (by rw [hkeys]; exact hnd), hkeys]
      congr 1
      rw [List.map_cons, List.toFinset_append, List.toFinset_append,
        List.toFinset_cons, Finset.union_insert,
        Finset.insert_eq_self.mpr
          (Finset.mem_union_left _ (List.mem_toFinset.mpr hmem))]
    · have hany : m.any (fun e => decide (e.1 = pixelKey p)) = false := by
        simp only [List.any_eq_false, decide_eq_true_eq]
        intro e he hek
        exact hmem (List.mem_map.mpr ⟨e, he, hek⟩)
      rw [if_neg (by simp [hany])]
      have hkeys : ((m ++ [(pixelKey p, (⟨rgbToOklab p.r p.g p.b, 1⟩ : UColor))]).map
          Prod.fst) = m.map Prod.fst ++ [pixelKey p] := by
        simp
      have hnd2 : ((m ++ [(pixelKey p, (⟨rgbToOklab p.r p.g p.b, 1⟩ : UColor))]).map
          Prod.fst).Nodup := by
        rw [hkeys]
        refine List.Nodup.append hnd (List.nodup_singleton _) ?_
        intro a ha hb
        rw [List.mem_singleton] at hb
        exact hmem (hb ▸ ha)
      rw [ih _ hnd2, hkeys]
      congr 1
      rw [List.append_assoc, List.singleton_append, List.map_cons]

theorem buildColorMap_length (ops : List PixelData) :
    (buildColorMap ops).length = (ops.map pixelKey).toFinset.card := by
  have := buildColorMap_go ops [] (by simp)
  simpa [buildColorMap] using this

/-- Claim C4: when the number of unique opaque colors in the input is at most
maxColors, OklabKMeans.quantize returns the input pixel list unchanged (same
RGB bytes and alpha for every pixel), for every random oracle, iteration limit
and tolerance. -/
theorem OklabKMeans.quantize_unique_le_id (rnd : KmRandom)
    (maxColors maxIterations : ℕ) (tolerance : ℝ) (pixels : List PixelData)
    (h : uniqueOpaqueColors pixels ≤ maxColors) :
    OklabKMeans.quantize rnd maxColors maxIterations tolerance pixels =
      pixels := by
  unfold OklabKMeans.quantize
  by_cases h1 : (pixels.filter (fun p => decide (0 < p.alpha))).length = 0 ∨
      (pixels.filter (fun p => decide (0 < p.alpha))).length ≤ maxColors
  · rw [if_pos h1]
  · rw [if_neg h1]
    rw [if_pos (by
      rw [List.length_map, buildColorMap_length]
      exact h)]

/-- Witness for C4: three pixels in two distinct colors, maxColors = 2. -/
theorem OklabKMeans.quantize_unique_le_id_witness :
    uniqueOpaqueColors [⟨1, 2, 3, 255⟩, ⟨1, 2, 3, 255⟩, ⟨9, 9, 9, 7⟩] ≤ 2 ∧
    OklabKMeans.quantize ⟨fun _ => [], fun _ _ _ => ⟨0, 0, 0⟩⟩ 2 20 0.001
        [⟨1, 2, 3, 255⟩, ⟨1, 2, 3, 255⟩, ⟨9, 9, 9, 7⟩] =
      [⟨1, 2, 3, 255⟩, ⟨1, 2, 3, 255⟩, ⟨9, 9, 9, 7⟩] :=
  ⟨by decide,
    OklabKMeans.quantize_unique_le_id ⟨fun _ => [], fun _ _ _ => ⟨0, 0, 0⟩⟩ 2 20
      0.001 [⟨1, 2, 3, 255⟩, ⟨1, 2, 3, 255⟩, ⟨9, 9, 9, 7⟩] (by decide)⟩

/-! #### Unit-cell downsampling (C8) -/

theorem getD_le_255 (l : List ℕ) (h : ∀ b ∈ l, b ≤ 255) (n : ℕ) :
    l.getD n 0 ≤ 255 := by
  rcases lt_or_le n l.length with hlt | hge
  · rw [List.getD_eq_getElem l 0 hlt]
    exact h _ (List.getElem_mem hlt)
  · rw [List.getD_eq_default l 0 hge]
    omega

theorem rhe_natCast (v : ℕ) : rhe (v : ℚ) = (v : ℤ) := by
  show (if ((v : ℚ) - ((⌊(v : ℚ)⌋ : ℤ) : ℚ)) < 1/2 then ⌊(v : ℚ)⌋
    else if 1/2 < ((v : ℚ) - ((⌊(v : ℚ)⌋ : ℤ) : ℚ)) then ⌊(v : ℚ)⌋ + 1
    else if Even ⌊(v : ℚ)⌋ then ⌊(v : ℚ)⌋ else ⌊(v : ℚ)⌋ + 1) = (v : ℤ)
  rw [Int.floor_natCast]
  rw [if_pos (by push_cast; norm_num)]

theorem u8c_natCast (v : ℕ) (h : v ≤ 255) : u8c (v : ℚ) = v := by
  unfold u8c
  rw [if_neg (not_lt.mpr (Nat.cast_nonneg v)),
    if_neg (not_lt.mpr (show (v : ℚ) ≤ 255 by exact_mod_cast h)), rhe_natCast,
    Int.toNat_natCast]

theorem medianOf_singleton (v : ℚ) : medianOf [v] = v := by
  simp [medianOf, sortQ]

theorem qbyte_natCast (img : RawImage) (n : ℕ) : qbyte img (n : ℚ) = img.byte n := by
  unfold qbyte
  rw [if_pos ⟨Rat.den_natCast n, by rw [Rat.num_natCast]; exact_mod_cast Nat.zero_le n⟩]
  rw [Rat.num_natCast, Int.toNat_natCast]

theorem qRange_unit (q : ℚ) : qRange q (q + 1) = [q] := by
  unfold qRange
  rw [show q + 1 - q = 1 by ring,
    show ((max 0 ⌈(1 : ℚ)⌉).toNat) = 1 by norm_num]
  rw [show List.range 1 = [0] from rfl]
  simp

theorem samplePixels_unit (img : RawImage) (i j : ℕ) :
    samplePixels img (i : ℚ) ((i : ℚ) + 1) (j : ℚ) ((j : ℚ) + 1) =
      [⟨img.byte ((j * img.width + i) * 4), img.byte ((j * img.width + i) * 4 + 1),
        img.byte ((j * img.width + i) * 4 + 2),
        img.byte ((j * img.width + i) * 4 + 3)⟩] := by
  unfold samplePixels
  rw [qRange_unit, qRange_unit]
  simp only [List.map_cons, List.map_nil, List.flatten_cons, List.flatten_nil,
    List.append_nil]
  have e0 : ((j : ℚ) * (img.width : ℚ) + (i : ℚ)) * 4 =
      (((j * img.width + i) * 4 : ℕ) : ℚ) := by
    push_cast
    ring
  rw [e0]
  have e1 : (((j * img.width + i) * 4 : ℕ) : ℚ) + 1 =
      (((j * img.width + i) * 4 + 1 : ℕ) : ℚ) := by push_cast; ring
  have e2 : (((j * img.width + i) * 4 : ℕ) : ℚ) + 2 =
      (((j * img.width + i) * 4 + 2 : ℕ) : ℚ) := by push_cast; ring
  have e3 : (((j * img.width + i) * 4 : ℕ) : ℚ) + 3 =
      (((j * img.width + i) * 4 + 3 : ℕ) : ℚ) := by push_cast; ring
  rw [e1, e2, e3, qbyte_natCast, qbyte_natCast, qbyte_natCast, qbyte_natCast]

theorem chosen_singleton (p : Px) :
    (if 0 < ([p].filter (fun q => decide (16 ≤ q.a))).length then
      [p].filter (fun q => decide (16 ≤ q.a)) else [p]) = [p] := by
  by_cases h : 16 ≤ p.a <;> simp [h]

theorem flatten_grid_rows (g : ℕ → List ℕ) (W H : ℕ) :
    ((List.range H).map
        (fun j => ((List.range W).map (fun i => g (j * W + i))).flatten)).flatten =
      ((List.range (H * W)).map g).flatten := by
  induction H with
  | zero => simp
  | succ H ih =>
    rw [List.range_succ, List.map_append, List.flatten_append, ih, Nat.succ_mul,
      List.range_add, List.map_append, List.flatten_append]
    congr 1
    simp only [List.map_cons, List.map_nil, List.flatten_cons, List.flatten_nil,
      List.append_nil, List.map_map]
    exact congrArg List.flatten (List.map_congr_left (fun i _ => rfl))

theorem chunk_flatten : ∀ (n : ℕ) (l : List ℕ), l.length = 4 * n →
    ((List.range n).map (fun k => [l.getD (k * 4) 0, l.getD (k * 4 + 1) 0,
      l.getD (k * 4 + 2) 0, l.getD (k * 4 + 3) 0])).flatten = l := by
  intro n
  induction n with
  | zero =>
    intro l h
    simp only [List.range_zero, List.map_nil, List.flatten_nil]
    exact (List.length_eq_zero.mp (by omega)).symm
  | succ n ih =>
    intro l h
    obtain ⟨b0, b1, b2, b3, rest, rfl⟩ :
        ∃ b0 b1 b2 b3 rest, l = b0 :: b1 :: b2 :: b3 :: rest := by
      rcases l with _ | ⟨c0, _ | ⟨c1, _ | ⟨c2, _ | ⟨c3, r⟩⟩⟩⟩ <;>
        first
          | exact ⟨_, _, _, _, _, rfl⟩
          | (exfalso
             simp only [List.length_cons, List.length_nil] at h
             omega)
    have hdrop : ∀ m : ℕ,
        (b0 :: b1 :: b2 :: b3 :: rest).getD (m + 4) 0 = rest.getD m 0 := by
      intro m
      rw [show m + 4 = m + 1 + 1 + 1 + 1 by omega]
      simp [List.getD_cons_succ]
    have hrest : rest.length = 4 * n := by
      simp only [List.length_cons] at h
      omega
    rw [List.range_succ_eq_map, List.map_cons, List.flatten_cons, List.map_map]
    have hmap : (List.range n).map
        ((fun k => [(b0 :: b1 :: b2 :: b3 :: rest).getD (k * 4) 0,
          (b0 :: b1 :: b2 :: b3 :: rest).getD (k * 4 + 1) 0,
          (b0 :: b1 :: b2 :: b3 :: rest).getD (k * 4 + 2) 0,
          (b0 :: b1 :: b2 :: b3 :: rest).getD (k * 4 + 3) 0]) ∘ Nat.succ) =
        (List.range n).map (fun k => [rest.getD (k * 4) 0, rest.getD (k * 4 + 1) 0,
          rest.getD (k * 4 + 2) 0, rest.getD (k * 4 + 3) 0]) := by
      refine List.map_congr_left ?_
      intro k _
      simp only [Function.comp_apply]
      rw [show Nat.succ k * 4 = k * 4 + 4 by omega,
        show k * 4 + 4 + 1 = k * 4 + 1 + 4 by omega,
        show k * 4 + 4 + 2 = k * 4 + 2 + 4 by omega,
        show k * 4 + 4 + 3 = k * 4 + 3 + 4 by omega,
        hdrop, hdrop, hdrop, hdrop]
    rw [hmap, ih rest hrest]
    rfl

/-- Claim C8: downsampling any well-formed bitmap (buffer length 4*W*H, byte
values at most 255) with a grid whose cellW = cellH = 1, offsets 0, crop
origin 0, outW = W and outH = H, at sampleWindow = 1, returns the input
bitmap unchanged: every RGBA pixel of the output equals the corresponding
input pixel. -/
theorem downsample_unit_identity (img : RawImage) (grid : PixelGrid)
    (hcw : grid.cellW = 1) (hch : grid.cellH = 1)
    (hox : grid.offsetX = 0) (hoy : grid.offsetY = 0)
    (hgx : grid.cropX = none ∨ grid.cropX = some 0)
    (hgy : grid.cropY = none ∨ grid.cropY = some 0)
    (how : grid.outW = some img.width) (hoh : grid.outH = some img.height)
    (hlen : img.data.length = 4 * img.width * img.height)
    (hbytes : ∀ b ∈ img.data, b ≤ 255) :
    downsample img grid 1 = img := by
  obtain ⟨W, H, l⟩ := img
  obtain ⟨gcw, gch, gox, goy, gsc, gcx, gcy, gcwo, gcho, gow, goh, gsx, gsy⟩ := grid
  simp only at hcw hch hox hoy how hoh hlen hbytes hgx hgy
  subst hcw hch hox hoy how hoh
  have ecx : gcx.getD 0 = 0 := by rcases hgx with h | h <;> simp [h]
  have ecy : gcy.getD 0 = 0 := by rcases hgy with h | h <;> simp [h]
  have ej : jsRound (1 : ℚ) = 1 := by norm_num [jsRound]
  have efl : (⌊(1 : ℚ) / 2⌋ : ℤ) = 0 := by norm_num
  have e6 : (0 : ℚ) < 1e-6 := by norm_num
  simp only [downsample, ecx, ecy, ej, efl, e6, Int.cast_one, Int.cast_zero,
    mul_one, add_zero, zero_add, sub_zero, sub_self, abs_zero, max_self,
    and_self, if_true]
  have hco : ∀ (f : ℚ → List ℕ) (n : ℕ),
      (List.map f (do let a ← List.range n; pure ((a : ℕ) : ℚ))) =
        List.map (fun a => f ((a : ℕ) : ℚ)) (List.range n) := by
    intro f n
    have hco1 : ∀ (L : List ℕ),
        List.map f (L.flatMap fun a => [((a : ℕ) : ℚ)]) =
          List.map (fun a => f ((a : ℕ) : ℚ)) L := by
      intro L
      induction L with
      | nil => rfl
      | cons x t ih => simp [ih]
    simpa using hco1 (List.range n)
  simp only [hco]
  refine congrArg (RawImage.mk W H) ?_
  refine Eq.trans (congrArg List.flatten (@List.map_congr_left ℕ
    (List.range H) (List ℕ) _
    (fun j => ((List.range W).map (fun i => [l.getD ((j * W + i) * 4) 0,
      l.getD ((j * W + i) * 4 + 1) 0, l.getD ((j * W + i) * 4 + 2) 0,
      l.getD ((j * W + i) * 4 + 3) 0])).flatten)
    (fun j hj => congrArg List.flatten (@List.map_congr_left ℕ
      (List.range W) (List ℕ) _
      (fun i => [l.getD ((j * W + i) * 4) 0, l.getD ((j * W + i) * 4 + 1) 0,
        l.getD ((j * W + i) * 4 + 2) 0, l.getD ((j * W + i) * 4 + 3) 0])
      (fun i hi => ?_))))) ?_

  · have hiW : i < W := List.mem_range.mp hi
    have hjH : j < H := List.mem_range.mp hj
    have h0i : (0 : ℚ) ≤ (i : ℚ) := Nat.cast_nonneg i
    have h0j : (0 : ℚ) ≤ (j : ℚ) := Nat.cast_nonneg j
    have hiW' : (i : ℚ) + 1 ≤ (W : ℚ) := by exact_mod_cast hiW
    have hjH' : (j : ℚ) + 1 ≤ (H : ℚ) := by exact_mod_cast hjH
    have c1 : (0 : ℚ) ⊔ (i : ℚ) = (i : ℚ) := max_eq_right h0i
    have c2 : ((W : ℚ) - 1) ⊓ (i : ℚ) = (i : ℚ) := min_eq_right (by linarith)
    have c3 : (1 : ℚ) ⊔ ((i : ℚ) + 1) = (i : ℚ) + 1 := max_eq_right (by linarith)
    have c4 : (W : ℚ) ⊓ ((i : ℚ) + 1) = (i : ℚ) + 1 := min_eq_right hiW'
    have d1 : (0 : ℚ) ⊔ (j : ℚ) = (j : ℚ) := max_eq_right h0j
    have d2 : ((H : ℚ) - 1) ⊓ (j : ℚ) = (j : ℚ) := min_eq_right (by linarith)
    have d3 : (1 : ℚ) ⊔ ((j : ℚ) + 1) = (j : ℚ) + 1 := max_eq_right (by linarith)
    have d4 : (H : ℚ) ⊓ ((j : ℚ) + 1) = (j : ℚ) + 1 := min_eq_right hjH'
    rw [c1, c2, c3, c4, d1, d2, d3, d4, samplePixels_unit, chosen_singleton]
    simp only [List.map_cons, List.map_nil, RawImage.byte]
    rw [medianOf_singleton, medianOf_singleton, medianOf_singleton,
      medianOf_singleton, u8c_natCast _ (getD_le_255 l hbytes _),
      u8c_natCast _ (getD_le_255 l hbytes _), u8c_natCast _ (getD_le_255 l hbytes _),
      u8c_natCast _ (getD_le_255 l hbytes _)]
  · have hgrid := flatten_grid_rows (fun k => [l.getD (k * 4) 0, l.getD (k * 4 + 1) 0,
      l.getD (k * 4 + 2) 0, l.getD (k * 4 + 3) 0]) W H
    simp only at hgrid
    rw [hgrid, chunk_flatten (H * W) l (by rw [hlen]; ring)]


/-- Witness for C8: a 1x1 image with a unit grid round-trips exactly. -/
theorem downsample_unit_identity_witness :
    downsample ⟨1, 1, [10, 20, 30, 255]⟩
      ⟨1, 1, 0, 0, 1, some 0, some 0, some 1, some 1, some 1, some 1, none,
        none⟩ 1 =
      ⟨1, 1, [10, 20, 30, 255]⟩ :=
  downsample_unit_identity ⟨1, 1, [10, 20, 30, 255]⟩
    ⟨1, 1, 0, 0, 1, some 0, some 0, some 1, some 1, some 1, some 1, none, none⟩
    rfl rfl rfl rfl (Or.inr rfl) (Or.inr rfl) rfl rfl (by decide) (by decide)


theorem foldl_option_invariant {α β : Type} (P : β → Prop)
    (f : Option β → α → Option β)
    (hf : ∀ acc x b, f acc x = some b → (∀ b', acc = some b' → P b') → P b) :
    ∀ (l : List α) (acc : Option β), (∀ b', acc = some b' → P b') →
      ∀ b, l.foldl f acc = some b → P b := by
  intro l
  induction l with
  | nil => intro acc hacc b hb; exact hacc b hb
  | cons x t ih =>
    intro acc hacc b hb
    refine ih (f acc x) ?_ b hb
    intro b' hb'
    exact hf acc x b' hb' hacc

theorem scanGridFromTrimmed_cells (cropped mask : RawImage) (sw : ℚ)
    (hMin hMax hStep pStride : ℕ) (n : ℕ) (e : GridEstimateFromTrimmed)
    (h : scanGridFromTrimmed cropped mask sw hMin hMax hStep pStride =
      some (n, e)) :
    1 < e.cellW ∧ 1 < e.cellH ∧ e.offsetX = 0 ∧ e.offsetY = 0 := by
  unfold scanGridFromTrimmed at h
  rw [Option.map_eq_some'] at h
  obtain ⟨bb, hfold, hmap⟩ := h
  have hP : 1 < bb.cellW ∧ 1 < bb.cellH := by
    refine foldl_option_invariant (fun b => 1 < b.cellW ∧ 1 < b.cellH) _
      ?_ _ none (by intro b' hb'; cases hb') bb hfold
    intro acc x b hstep hacc
    simp only at hstep
    split at hstep
    · exact hacc b hstep
    · split at hstep
      · exact hacc b hstep
      · split at hstep
        · exact hacc b hstep
        · split at hstep
          · cases hstep
            push_neg at *
            assumption
          · split at hstep
            · cases hstep
              push_neg at *
              assumption
            · exact hacc b hstep
  cases hmap
  exact ⟨hP.1, hP.2, rfl, rfl⟩


theorem legacySearchGridFromTrimmed_cells (cropped mask : RawImage) (sw : ℚ)
    (e : GridEstimateFromTrimmed)
    (h : legacySearchGridFromTrimmed cropped mask sw = some e) :
    1 < e.cellW ∧ 1 < e.cellH ∧ e.offsetX = 0 ∧ e.offsetY = 0 := by
  unfold legacySearchGridFromTrimmed at h
  rw [Option.map_eq_some'] at h
  obtain ⟨⟨n, e'⟩, hscan, hsnd⟩ := h
  cases hsnd
  exact scanGridFromTrimmed_cells _ _ _ _ _ _ _ _ _ hscan

theorem fastSearchGridFromTrimmed_cells (cropped mask : RawImage) (sw : ℚ)
    (e : GridEstimateFromTrimmed)
    (h : fastSearchGridFromTrimmed cropped mask sw = some e) :
    1 < e.cellW ∧ 1 < e.cellH ∧ e.offsetX = 0 ∧ e.offsetY = 0 := by
  simp only [fastSearchGridFromTrimmed] at h
  split at h
  · cases h
  · split at h
    · cases h
      next refined heq =>
        exact scanGridFromTrimmed_cells _ _ _ _ _ _ _ _ _ heq
    · cases h
      rename_i x1 coarse heq1 x2 heq2
      exact scanGridFromTrimmed_cells _ _ _ _ _ _ _ _ _ heq1

theorem findOpaqueBounds_pos (img : RawImage) (t : ℚ) (b : Bounds)
    (h : findOpaqueBounds img t = some b) : 0 < b.w ∧ 0 < b.h := by
  simp only [findOpaqueBounds] at h
  split at h
  · cases h
  · cases h
    next hlt =>
      push_neg at hlt
      constructor <;> simp only <;> omega


theorem detectGrid_invariant (lp : ℚ → ℚ) (img : RawImage)
    (opts : DetectOptions) (g : PixelGrid)
    (h : detectGrid lp img opts = Except.ok g) : GridInvariant g := by
  simp only [detectGrid] at h
  split at h
  · cases h
    unfold GridInvariant
    dsimp only
    refine ⟨Nat.cast_nonneg _, ?_, Nat.cast_nonneg _, ?_, _, _, _, _, rfl, rfl,
      rfl, rfl, ?_, ?_⟩
    · exact_mod_cast Nat.mod_lt _
        (Nat.lt_of_lt_of_le Nat.zero_lt_one (le_max_left 1 _))
    · exact_mod_cast Nat.mod_lt _
        (Nat.lt_of_lt_of_le Nat.zero_lt_one (le_max_left 1 _))
    · push_cast
      ring
    · push_cast
      ring
  · cases h


theorem processGridDisabled_invariant (rnd : KmRandom) (o : NormalizedOptions)
    (bgT : List (ℕ × ℕ × ℕ)) (working : RawImage) (r : ProcOut)
    (h : processGridDisabled rnd o bgT working = Except.ok r) :
    GridInvariant r.grid := by
  simp only [processGridDisabled] at h
  split at h
  · cases h
  · cases h
    unfold GridInvariant
    dsimp only
    exact ⟨le_refl 0, one_pos, le_refl 0, one_pos, _, _, _, _, rfl, rfl, rfl,
      rfl, mul_one _, mul_one _⟩

theorem processForced_invariant (rnd : KmRandom) (o : NormalizedOptions)
    (bgT : List (ℕ × ℕ × ℕ)) (working : RawImage) (fw fh : ℤ)
    (hfw : 1 ≤ fw) (hfh : 1 ≤ fh) (r : ProcOut)
    (h : processForced rnd o bgT working fw fh = Except.ok r) :
    GridInvariant r.grid := by
  simp only [processForced] at h
  split at h
  · cases h
  · split at h
    · cases h
    · cases h
      rename_i b hb
      have hbw := findOpaqueBounds_pos _ _ _ hb
      have hfw1 : 1 ≤ fw.toNat := by omega
      have hfh1 : 1 ≤ fh.toNat := by omega
      have hw0 : (0 : ℚ) < (fw.toNat : ℚ) := by exact_mod_cast hfw1
      have hh0 : (0 : ℚ) < (fh.toNat : ℚ) := by exact_mod_cast hfh1
      have hcw0 : (0 : ℚ) < (b.w : ℚ) := by exact_mod_cast hbw.1
      have hch0 : (0 : ℚ) < (b.h : ℚ) := by exact_mod_cast hbw.2
      unfold GridInvariant
      dsimp only [cropRawImage]
      refine ⟨le_refl 0, div_pos hcw0 hw0, le_refl 0, div_pos hch0 hh0, _, _, _,
        _, rfl, rfl, rfl, rfl, ?_, ?_⟩
      · rw [mul_comm]
        exact div_mul_cancel₀ _ (ne_of_gt hw0)
      · rw [mul_comm]
        exact div_mul_cancel₀ _ (ne_of_gt hh0)


theorem processAuto_invariant (lp : ℚ → ℚ) (rnd : KmRandom)
    (o : NormalizedOptions) (bgT : List (ℕ × ℕ × ℕ)) (working : RawImage)
    (r : ProcOut) (h : processAuto lp rnd o bgT working = Except.ok r) :
    GridInvariant r.grid := by
  simp only [processAuto] at h
  split at h
  · cases h
  · split at h
    · cases h
    · cases h
      rename_i grid heqGrid
      have hInv : GridInvariant grid := by
        split at heqGrid
        · cases heqGrid
          rename_i g0 heq2
          split at heq2
          · split at heq2
            · split at heq2
              · split at heq2
                · cases heq2
                  rename_i e hest
                  have hc : 1 < e.cellW ∧ 1 < e.cellH ∧ e.offsetX = 0 ∧
                      e.offsetY = 0 := by
                    split at hest
                    · exact fastSearchGridFromTrimmed_cells _ _ _ _ hest
                    · exact legacySearchGridFromTrimmed_cells _ _ _ _ hest
                  unfold GridInvariant
                  dsimp only
                  exact ⟨le_refl 0, lt_trans zero_lt_one hc.1, le_refl 0,
                    lt_trans zero_lt_one hc.2.1, _, _, _, _, rfl, rfl, rfl, rfl,
                    rfl, rfl⟩
                · cases heq2
              · cases heq2
            · cases heq2
          · cases heq2
        · exact detectGrid_invariant _ _ _ _ heqGrid
      dsimp only
      split
      · split
        · split
          · obtain ⟨h1, h2, h3, h4, _⟩ := hInv
            unfold GridInvariant
            dsimp only
            exact ⟨h1, h2, h3, h4, _, _, _, _, rfl, rfl, rfl, rfl, rfl, rfl⟩
          · exact hInv
        · exact hInv
      · exact hInv


theorem forcePixels_ge_one (v : Option ℚ) (z : ℤ)
    (h : clampOptionalInt v rangeForcePixels = some z) : 1 ≤ z := by
  unfold clampOptionalInt at h
  rw [Option.map_eq_some'] at h
  obtain ⟨q, _, hz⟩ := h
  subst hz
  unfold clampInt rangeForcePixels
  dsimp only
  exact le_min (by norm_num) (le_max_left 1 _)

/-- Claim C1: whenever processImage returns a result, the returned grid carries
populated crop and output fields with `outW * cellW = cropW`,
`outH * cellH = cropH`, `0 ≤ offsetX < cellW` and `0 ≤ offsetY < cellH`, on the
forced-size path, on the grid-disabled path, and on the auto path (detector
grid, auto-grid-from-trimmed estimate, and the post-downsample content trim
rewrite alike). -/
theorem processImage_grid_invariant (lp : ℚ → ℚ) (rnd : KmRandom)
    (img : RawImage) (opts : ProcessOptions) (r : ProcOut)
    (h : processImage lp rnd img opts = Except.ok r) : GridInvariant r.grid := by
  simp only [processImage] at h
  split at h
  · rename_i fw fh hfw hfh
    simp only [normalizeProcessOptions] at hfw hfh
    exact processForced_invariant _ _ _ _ _ _
      (forcePixels_ge_one _ _ hfw) (forcePixels_ge_one _ _ hfh) _ h
  · split at h
    · exact processGridDisabled_invariant _ _ _ _ _ h
    · exact processAuto_invariant _ _ _ _ _ _ h
  · split at h
    · exact processGridDisabled_invariant _ _ _ _ _ h
    · exact processAuto_invariant _ _ _ _ _ _ h


/-- Witness for C1: the grid-disabled path on a 1x1 transparent image. -/
theorem processImage_grid_invariant_witness :
    GridInvariant (⟨1, 1, 0, 0, 1, some 0, some 0, some 1, some 1, some 1,
      some 1, none, none⟩ : PixelGrid) :=
  processImage_grid_invariant (fun _ => 0)
    ⟨fun _ => [], fun _ _ _ => ⟨0, 0, 0⟩⟩ ⟨1, 1, [0, 0, 0, 0]⟩
    { preRemoveBackground := some false
      postRemoveBackground := some false
      trimToContent := some false
      ignoreFloatingContent := some false
      enableGridDetection := some false
      reduceColors := some false
      bgExtractionMethod := some BgMethod.none }
    ⟨⟨1, 1, [0, 0, 0, 0]⟩, ⟨1, 1, 0, 0, 1, some 0, some 0, some 1, some 1,
      some 1, some 1, none, none⟩⟩ rfl


/-- Claim C2: whenever the primary operation `process` succeeds, its result
record carries exactly the pipeline output bitmap, the pipeline grid, the
extracted palette of the output bitmap, and the original and sanitized inputs
resized to the result dimensions (so both comparison bitmaps have the result's
width and height). -/
theorem process_result_components (lp : ℚ → ℚ) (rnd : KmRandom)
    (img : RawImage) (opts : ProcessOptions) (res : ProcessResult)
    (h : process lp rnd img opts = Except.ok res) :
    ∃ r, processImage lp rnd img opts = Except.ok r ∧
      res.bitmap = r.result ∧ res.grid = r.grid ∧
      res.extractedPalette = extractedPaletteOf res.bitmap ∧
      res.compareBeforeOriginal =
        resizeNearestTo img res.bitmap.width res.bitmap.height ∧
      res.compareBeforeSanitized = resizeNearestTo
        (if (normalizeProcessOptions opts).preRemoveBackground then
          removeBackgroundByFloodFill img
            (((normalizeProcessOptions opts).backgroundTolerance : ℤ) : ℚ)
            (normalizeProcessOptions opts).bgExtractionMethod
            (normalizeProcessOptions opts).bgRgb
        else cloneImage img) res.bitmap.width res.bitmap.height ∧
      res.compareBeforeOriginal.width = res.bitmap.width ∧
      res.compareBeforeOriginal.height = res.bitmap.height ∧
      res.compareBeforeSanitized.width = res.bitmap.width ∧
      res.compareBeforeSanitized.height = res.bitmap.height := by
  simp only [process] at h
  split at h
  · cases h
  · cases h
    rename_i r heq
    exact ⟨r, heq, rfl, rfl, rfl, rfl, rfl, rfl, rfl, rfl, rfl⟩

/-- Witness for C2 on a 1x1 transparent image with the sanitizing passes off. -/
theorem process_result_components_witness :
    ∃ r, processImage (fun _ => 0) ⟨fun _ => [], fun _ _ _ => ⟨0, 0, 0⟩⟩
        ⟨1, 1, [0, 0, 0, 0]⟩
        { preRemoveBackground := some false
          postRemoveBackground := some false
          trimToContent := some false
          ignoreFloatingContent := some false
          enableGridDetection := some false
          reduceColors := some false
          bgExtractionMethod := some BgMethod.none } = Except.ok r ∧
      (⟨1, 1, [0, 0, 0, 0]⟩ : RawImage) = r.result ∧
      (⟨1, 1, 0, 0, 1, some 0, some 0, some 1, some 1, some 1, some 1, none,
        none⟩ : PixelGrid) = r.grid ∧
      ([] : List (ℕ × ℕ × ℕ)) = extractedPaletteOf ⟨1, 1, [0, 0, 0, 0]⟩ ∧
      (⟨1, 1, [0, 0, 0, 0]⟩ : RawImage) =
        resizeNearestTo ⟨1, 1, [0, 0, 0, 0]⟩ 1 1 ∧
      (⟨1, 1, [0, 0, 0, 0]⟩ : RawImage) =
        resizeNearestTo ⟨1, 1, [0, 0, 0, 0]⟩ 1 1 ∧
      (1 : ℕ) = 1 ∧ (1 : ℕ) = 1 ∧ (1 : ℕ) = 1 ∧ (1 : ℕ) = 1 :=
  process_result_components (fun _ => 0) ⟨fun _ => [], fun _ _ _ => ⟨0, 0, 0⟩⟩
    ⟨1, 1, [0, 0, 0, 0]⟩
    { preRemoveBackground := some false
      postRemoveBackground := some false
      trimToContent := some false
      ignoreFloatingContent := some false
      enableGridDetection := some false
      reduceColors := some false
      bgExtractionMethod := some BgMethod.none }
    ⟨⟨1, 1, [0, 0, 0, 0]⟩,
      ⟨1, 1, 0, 0, 1, some 0, some 0, some 1, some 1, some 1, some 1, none,
        none⟩, [], ⟨1, 1, [0, 0, 0, 0]⟩, ⟨1, 1, [0, 0, 0, 0]⟩⟩ rfl


theorem replFlat_length (n r g b a : ℕ) :
    ((List.replicate n [r, g, b, a]).flatten).length = 4 * n := by
  rw [List.length_flatten, List.map_replicate]
  simp [List.sum_replicate, Nat.mul_comm]

theorem replFlat_getD (n c r g b a : ℕ) (hc : c < 4) :
    ∀ k, k < n → ((List.replicate n [r, g, b, a]).flatten).getD (k * 4 + c) 0 =
      [r, g, b, a].getD c 0 := by
  induction n with
  | zero => omega
  | succ n ih =>
    intro k hk
    rw [List.replicate_succ, List.flatten_cons]
    cases k with
    | zero =>
      rw [List.getD_append]
      · simp
      · simpa using hc
    | succ k =>
      rw [List.getD_append_right _ _ _ _ (by simp; omega)]
      have e : (k + 1) * 4 + c - ([r, g, b, a] : List ℕ).length = k * 4 + c := by
        simp
        ring_nf
        omega
      rw [e]
      exact ih k (by omega)

theorem uniformImage_byte (w h r g b a k c : ℕ) (hk : k < w * h) (hc : c < 4) :
    (uniformImage w h r g b a).byte (k * 4 + c) = [r, g, b, a].getD c 0 :=
  replFlat_getD (w * h) c r g b a hc k hk

theorem uniformImage_byte_oob (w h r g b a i : ℕ) (hi : 4 * (w * h) ≤ i) :
    (uniformImage w h r g b a).byte i = 0 := by
  unfold uniformImage RawImage.byte
  rw [List.getD_eq_default]
  rw [replFlat_length]
  omega


theorem mapRGBA_replFlat (f : ℕ → ℕ → ℕ → ℕ → List ℕ) (n r g b a : ℕ) :
    mapRGBA f ((List.replicate n [r, g, b, a]).flatten) =
      (List.replicate n (f r g b a)).flatten := by
  induction n with
  | zero => rfl
  | succ n ih =>
    rw [List.replicate_succ, List.flatten_cons, List.replicate_succ,
      List.flatten_cons]
    simp only [List.cons_append, List.nil_append, mapRGBA]
    exact congrArg (f r g b a ++ ·) ih

theorem posterize_uniform (w h r g b a : ℕ) (step : ℚ) :
    ∃ r2 g2 b2, posterize (uniformImage w h r g b a) step =
      uniformImage w h r2 g2 b2 a := by
  unfold posterize
  split
  · exact ⟨r, g, b, rfl⟩
  · refine ⟨u8c (posterizeChannel r step), u8c (posterizeChannel g step),
      u8c (posterizeChannel b step), ?_⟩
    show RawImage.mk (uniformImage w h r g b a).width
      (uniformImage w h r g b a).height _ = _
    unfold uniformImage
    exact congrArg (RawImage.mk w h) (mapRGBA_replFlat _ _ _ _ _ _)

theorem getPixel_uniform (w h r g b a : ℕ) (hw : 0 < w) (hh : 0 < h)
    (x y : ℤ) :
    getPixel (uniformImage w h r g b a) x y = (⟨r, g, b, a⟩ : Px) := by
  have hwid : (uniformImage w h r g b a).width = w := rfl
  have hhei : (uniformImage w h r g b a).height = h := rfl
  simp only [getPixel, hwid, hhei]
  set cx := min ((w : ℤ) - 1) (max 0 x) with hcx
  set cy := min ((h : ℤ) - 1) (max 0 y) with hcy
  have hcx0 : 0 ≤ cx := le_min (by omega) (le_max_left 0 x)
  have hcxw : cx ≤ (w : ℤ) - 1 := min_le_left _ _
  have hcy0 : 0 ≤ cy := le_min (by omega) (le_max_left 0 y)
  have hcyh : cy ≤ (h : ℤ) - 1 := min_le_left _ _
  obtain ⟨m, hm⟩ : ∃ m : ℕ, cy = (m : ℤ) :=
    ⟨cy.toNat, (Int.toNat_of_nonneg hcy0).symm⟩
  obtain ⟨nn, hn⟩ : ∃ nn : ℕ, cx = (nn : ℤ) :=
    ⟨cx.toNat, (Int.toNat_of_nonneg hcx0).symm⟩
  have hmh : m ≤ h - 1 := by omega
  have hnw : nn ≤ w - 1 := by omega
  have hk : ((cy * (w : ℤ) + cx) * 4).toNat = (m * w + nn) * 4 := by
    rw [hm, hn, show ((m : ℤ) * (w : ℤ) + (nn : ℤ)) * 4 =
      (((m * w + nn) * 4 : ℕ) : ℤ) by push_cast; ring]
    exact Int.toNat_natCast _
  have hww : w ≤ h * w := Nat.le_mul_of_pos_left w hh
  have hklt : m * w + nn < w * h := by
    have h1 : m * w ≤ (h - 1) * w := Nat.mul_le_mul_right w hmh
    have h2 : (h - 1) * w = h * w - w := Nat.sub_one_mul h w
    have h3 : h * w = w * h := Nat.mul_comm h w
    omega
  rw [hk]
  have e0 := uniformImage_byte w h r g b a (m * w + nn) 0 hklt (by omega)
  have e1 := uniformImage_byte w h r g b a (m * w + nn) 1 hklt (by omega)
  have e2 := uniformImage_byte w h r g b a (m * w + nn) 2 hklt (by omega)
  have e3 := uniformImage_byte w h r g b a (m * w + nn) 3 hklt (by omega)
  simp only [Nat.add_zero] at e0
  rw [e0, e1, e2, e3]
  rfl

theorem flatMap_singleton_length (L : List ℕ) :
    (L.flatMap fun a => ([((a : ℕ) : ℤ)] : List ℤ)).length = L.length := by
  induction L with
  | nil => rfl
  | cons x t ih => simp [ih]

theorem extractStripY_uniform (w h r g b a : ℕ) (hw : 0 < w) (hh : 0 < h)
    (pos : ℚ) :
    extractStripY (uniformImage w h r g b a) pos =
      List.replicate w (⟨r, g, b, a⟩ : Px) := by
  unfold extractStripY
  refine (List.eq_replicate_iff.mpr
    ⟨by simpa [uniformImage] using flatMap_singleton_length (List.range w), ?_⟩)
  intro p hp
  obtain ⟨x, hx, hpx⟩ := List.mem_map.mp hp
  rw [← hpx]
  exact getPixel_uniform w h r g b a hw hh _ _

theorem extractStripX_uniform (w h r g b a : ℕ) (hw : 0 < w) (hh : 0 < h)
    (pos : ℚ) :
    extractStripX (uniformImage w h r g b a) pos =
      List.replicate h (⟨r, g, b, a⟩ : Px) := by
  unfold extractStripX
  refine (List.eq_replicate_iff.mpr
    ⟨by simpa [uniformImage] using flatMap_singleton_length (List.range h), ?_⟩)
  intro p hp
  obtain ⟨x, hx, hpx⟩ := List.mem_map.mp hp
  rw [← hpx]
  exact getPixel_uniform w h r g b a hw hh _ _


theorem buildRuns_const (segStart : ℕ) (step : ℚ) (P : Px) :
    ∀ (m runStart k : ℕ),
      (buildRuns segStart step runStart k (detQuantizePx P step)
        (List.replicate m P)).length = 1 := by
  intro m
  induction m with
  | zero => intro runStart k; rfl
  | succ m ih =>
    intro runStart k
    rw [List.replicate_succ]
    simp only [buildRuns]
    rw [if_neg (by simp)]
    exact ih runStart (k + 1)

theorem segSplit_const (P : Px) (hP : 16 ≤ P.a) (m i : ℕ) (hm : 0 < m) :
    segSplit 16 i (List.replicate m P) = [(i, List.replicate m P)] := by
  obtain ⟨m', rfl⟩ : ∃ m', m = m' + 1 := ⟨m - 1, by omega⟩
  rw [List.replicate_succ]
  rw [segSplit]
  rw [if_neg (by omega)]
  simp only
  rw [show (P :: List.replicate m' P) = List.replicate (m' + 1) P from
    (List.replicate_succ P m').symm]
  rw [List.takeWhile_replicate, List.dropWhile_replicate]
  rw [if_pos (by simpa using hP), if_pos (by simpa using hP)]
  rw [show ∀ j, segSplit 16 j ([] : List Px) = [] from fun j => by rw [segSplit]]

theorem getRunLengths_const (P : Px) (q : ℚ) (n : ℕ) :
    ∀ seg ∈ getRunLengths (List.replicate n P) q 16, seg.runs.length ≤ 1 := by
  intro seg hseg
  rcases Nat.eq_zero_or_pos n with hn | hn
  · subst hn
    simp [getRunLengths] at hseg
  have hany : (List.replicate n P).any (fun p => decide (16 ≤ p.a)) =
      decide (16 ≤ P.a) := by
    rw [List.any_replicate]
    rw [if_neg (by omega)]
  by_cases hPa : 16 ≤ P.a
  · unfold getRunLengths at hseg
    rw [if_neg (by simp only [List.length_replicate]; omega),
      if_neg (by rw [hany]; exact not_not_intro (by simpa using hPa))] at hseg
    rw [segSplit_const P hPa n 0 hn] at hseg
    obtain ⟨m', rfl⟩ : ∃ m', n = m' + 1 := ⟨n - 1, by omega⟩
    rw [List.replicate_succ, List.filterMap_cons] at hseg
    simp only at hseg
    rw [if_neg (by rw [buildRuns_const]; omega)] at hseg
    simp only [List.filterMap_nil] at hseg
    rcases List.mem_cons.mp hseg with h1 | h1
    · subst h1
      simp only
      rw [buildRuns_const]
    · cases h1
  · unfold getRunLengths at hseg
    rw [if_neg (by simp only [List.length_replicate]; omega),
      if_pos (by rw [hany]; simpa using hPa)] at hseg
    cases hseg


theorem estimateFromSegments_none (lp : ℚ → ℚ) (segLists : List (List Segment))
    (len eMin eMax : ℕ) (tc : Option ℤ) (tw : ℚ) (mc : ℕ)
    (hruns : ∀ seg ∈ segLists.flatten, seg.runs.length ≤ 1) :
    estimateFromSegments lp segLists len eMin eMax tc tw mc = none := by
  have hb : (collectBoundaryData segLists).boundaries = [] := by
    unfold collectBoundaryData
    simp only
    rw [List.flatten_eq_nil_iff]
    intro l hl
    obtain ⟨s, hs, hsl⟩ := List.mem_map.mp hl
    rw [← hsl, List.drop_eq_nil_of_le (hruns s hs)]
    rfl
  simp only [estimateFromSegments]
  rw [if_pos (Or.inr (by rw [hb]; simp))]

theorem estimateFromBoundaryData_none (lp : ℚ → ℚ) (d : BoundaryData)
    (len eMin eMax : ℕ) (tc : Option ℤ) (tw : ℚ) (mc : ℕ)
    (hb : d.boundaries.length < 2) :
    estimateFromBoundaryData lp d len eMin eMax tc tw mc = none := by
  simp only [estimateFromBoundaryData]
  rw [if_pos (Or.inr hb)]


theorem foldl_fixed {α β : Type} (f : β → α → β) (b : β) :
    ∀ l : List α, (∀ a ∈ l, f b a = b) → l.foldl f b = b := by
  intro l
  induction l with
  | nil => intro _; rfl
  | cons x t ih =>
    intro h
    rw [List.foldl_cons, h x (by simp)]
    exact ih (fun a ha => h a (by simp [ha]))

theorem scanStep_eq (isFg : ℕ → Bool) (st : Bool × ℕ × List ℕ × List ℕ) (i : ℕ)
    (h : isFg i = st.1) : scanStep isFg st i = st := by
  obtain ⟨c, s0, rls, bds⟩ := st
  simp only [scanStep]
  rw [if_neg (not_not_intro h)]

theorem scanLineLoop_const (isFg : ℕ → Bool) (len : ℕ)
    (hconst : ∀ i, i < len → isFg i = isFg 0) :
    (scanLineLoop isFg len).2 = [] := by
  unfold scanLineLoop
  rw [foldl_fixed _ _ _ (fun a ha => scanStep_eq _ _ _ (by
    obtain ⟨h1, h2⟩ := List.mem_range'_1.mp ha
    exact hconst a (by omega)))]

theorem scan_le_one (isFg : ℕ → Bool) (T : ℕ) (A B : Bool)
    (hlow : ∀ i, i < T → isFg i = A) (hhigh : ∀ i, T ≤ i → isFg i = B) :
    ∀ (n s strt : ℕ) (rls bds : List ℕ),
      (((List.range' s n).foldl (scanStep isFg) (A, strt, rls, bds)).2.2.2).length ≤
        bds.length + 1 := by
  intro n
  induction n with
  | zero => intro s strt rls bds; simp
  | succ n ih =>
    intro s strt rls bds
    rw [List.range'_succ, List.foldl_cons]
    by_cases hs : s < T
    · rw [scanStep_eq _ _ _ (hlow s hs)]
      exact ih (s + 1) strt rls bds
    · push_neg at hs
      by_cases hAB : A = B
      · rw [scanStep_eq _ _ _ (by rw [hhigh s hs, hAB])]
        exact ih (s + 1) strt rls bds
      · have hstep : scanStep isFg (A, strt, rls, bds) s =
            (B, s, if 2 ≤ s - strt then rls ++ [s - strt] else rls,
              bds ++ [s]) := by
          simp only [scanStep]
          rw [hhigh s hs, if_pos (fun hEq => hAB hEq.symm)]
        rw [hstep]
        rw [foldl_fixed _ _ _ (fun a ha => scanStep_eq _ _ _ (by
          obtain ⟨h1, h2⟩ := List.mem_range'_1.mp ha
          exact hhigh a (by omega)))]
        simp

theorem scanLineLoop_le_one (isFg : ℕ → Bool) (len T : ℕ) (A B : Bool)
    (hlow : ∀ i, i < T → isFg i = A) (hhigh : ∀ i, T ≤ i → isFg i = B) :
    ((scanLineLoop isFg len).2).length ≤ 1 := by
  rcases Nat.eq_zero_or_pos T with hT | hT
  · rw [scanLineLoop_const isFg len (fun i _ => by
      rw [hhigh i (by omega), hhigh 0 (by omega)])]
    simp
  · unfold scanLineLoop
    simp only
    rw [hlow 0 hT]
    simpa using scan_le_one isFg T A B hlow hhigh (len - 1) 1 0 [] []


theorem isFgAt_uniform (w h r g b a : ℕ) (keys : List (ℕ × ℕ × ℕ))
    (axisX : Bool) (line pos : ℕ) :
    isFgAt (uniformImage w h r g b a) w keys axisX line pos =
      if (if axisX then line * w + pos else pos * w + line) < w * h then
        decide (¬ (r, g, b) ∈ keys)
      else decide (¬ ((0 : ℕ), (0 : ℕ), (0 : ℕ)) ∈ keys) := by
  unfold isFgAt
  simp only
  set k := if axisX then line * w + pos else pos * w + line with hk
  by_cases hkin : k < w * h
  · rw [if_pos hkin]
    have e0 := uniformImage_byte w h r g b a k 0 hkin (by omega)
    have e1 := uniformImage_byte w h r g b a k 1 hkin (by omega)
    have e2 := uniformImage_byte w h r g b a k 2 hkin (by omega)
    simp only [Nat.add_zero] at e0
    rw [e0, e1, e2]
    rfl
  · rw [if_neg hkin]
    push_neg at hkin
    have e0 := uniformImage_byte_oob w h r g b a (k * 4) (by omega)
    have e1 := uniformImage_byte_oob w h r g b a (k * 4 + 1) (by omega)
    have e2 := uniformImage_byte_oob w h r g b a (k * 4 + 2) (by omega)
    rw [e0, e1, e2]

theorem isFgAt_uniform_row (w h r g b a : ℕ) (keys : List (ℕ × ℕ × ℕ))
    (line pos : ℕ) :
    isFgAt (uniformImage w h r g b a) w keys true line pos =
      if line * w + pos < w * h then decide (¬ (r, g, b) ∈ keys)
      else decide (¬ ((0 : ℕ), (0 : ℕ), (0 : ℕ)) ∈ keys) := by
  rw [isFgAt_uniform]
  norm_num

theorem isFgAt_uniform_col (w h r g b a : ℕ) (keys : List (ℕ × ℕ × ℕ))
    (line pos : ℕ) :
    isFgAt (uniformImage w h r g b a) w keys false line pos =
      if pos * w + line < w * h then decide (¬ (r, g, b) ∈ keys)
      else decide (¬ ((0 : ℕ), (0 : ℕ), (0 : ℕ)) ∈ keys) := by
  rw [isFgAt_uniform]
  norm_num

theorem scanline_row_zero (w h r g b a : ℕ) (keys : List (ℕ × ℕ × ℕ))
    (line : ℕ) :
    (scanLineLoop (isFgAt (uniformImage w h r g b a) w keys true line) w).2 =
      [] := by
  refine scanLineLoop_const _ _ (fun i hi => ?_)
  rw [isFgAt_uniform_row, isFgAt_uniform_row]
  rcases Nat.lt_or_ge line h with hl | hl
  · have h1 : line * w ≤ (h - 1) * w := Nat.mul_le_mul_right w (by omega)
    have h2 : (h - 1) * w = h * w - w := Nat.sub_one_mul h w
    have h3 : h * w = w * h := Nat.mul_comm h w
    have h4 : w ≤ h * w := Nat.le_mul_of_pos_left w (by omega)
    rw [if_pos (by omega), if_pos (by omega)]
  · have h1 : h * w ≤ line * w := Nat.mul_le_mul_right w hl
    have h3 : h * w = w * h := Nat.mul_comm h w
    rw [if_neg (by omega), if_neg (by omega)]

theorem scanline_col_zero (w h r g b a : ℕ) (keys : List (ℕ × ℕ × ℕ))
    (line : ℕ) (hline : line < w) :
    (scanLineLoop (isFgAt (uniformImage w h r g b a) w keys false line) h).2 =
      [] := by
  refine scanLineLoop_const _ _ (fun i hi => ?_)
  rw [isFgAt_uniform_col, isFgAt_uniform_col]
  have h1 : i * w ≤ (h - 1) * w := Nat.mul_le_mul_right w (by omega)
  have h2 : (h - 1) * w = h * w - w := Nat.sub_one_mul h w
  have h3 : h * w = w * h := Nat.mul_comm h w
  have h4 : w ≤ w * h := Nat.le_mul_of_pos_right w (by omega)
  rw [if_pos (by omega), if_pos (by omega)]

theorem scanline_col_le_one (w h r g b a : ℕ) (keys : List (ℕ × ℕ × ℕ))
    (line : ℕ) :
    ((scanLineLoop (isFgAt (uniformImage w h r g b a) w keys false line)
      h).2).length ≤ 1 := by
  rcases Nat.eq_zero_or_pos w with hw | hw
  · rw [scanLineLoop_const _ _ (fun i _ => by
      rw [isFgAt_uniform_col, isFgAt_uniform_col]
      subst hw
      simp)]
    simp
  · refine scanLineLoop_le_one _ h ((w * h - line + (w - 1)) / w)
      (decide (¬ (r, g, b) ∈ keys))
      (decide (¬ ((0 : ℕ), (0 : ℕ), (0 : ℕ)) ∈ keys)) (fun i hi => ?_)
      (fun i hi => ?_)
    · rw [isFgAt_uniform_col]
      have h1 : (i + 1) * w ≤ w * h - line + (w - 1) :=
        (Nat.le_div_iff_mul_le hw).mp hi
      have h2 : (i + 1) * w = i * w + w := Nat.succ_mul i w
      rw [if_pos (by omega)]
    · rw [isFgAt_uniform_col]
      set T := (w * h - line + (w - 1)) / w with hT
      have h0 : (w * h - line + (w - 1)) / w < T + 1 := by omega
      have h1 : w * h - line + (w - 1) < (T + 1) * w :=
        (Nat.div_lt_iff_lt_mul hw).mp h0
      have h2 : (T + 1) * w = T * w + w := Nat.succ_mul T w
      have h3 : T * w ≤ i * w := Nat.mul_le_mul_right w hi
      rw [if_neg (by omega)]


theorem pickLoop_mem (minSep count : ℕ) :
    ∀ (l : List (ℕ × ℕ)) (picked : List ℕ) (x : ℕ),
      x ∈ pickLoop minSep count l picked →
      x ∈ picked ∨ ∃ p ∈ l, p.1 = x := by
  intro l
  induction l with
  | nil =>
    intro picked x hx
    rw [pickLoop] at hx
    exact Or.inl hx
  | cons hd t ih =>
    intro picked x hx
    rw [pickLoop] at hx
    split at hx
    · exact Or.inl hx
    · split at hx
      · simp only at hx
        split at hx
        · rcases List.mem_append.mp hx with h1 | h1
          · exact Or.inl h1
          · exact Or.inr ⟨hd, by simp, by simpa using (List.mem_singleton.mp h1).symm⟩
        · rcases ih _ _ hx with h1 | h1
          · rcases List.mem_append.mp h1 with h2 | h2
            · exact Or.inl h2
            · exact Or.inr ⟨hd, by simp, by simpa using (List.mem_singleton.mp h2).symm⟩
          · obtain ⟨p, hp, hpx⟩ := h1
            exact Or.inr ⟨p, by simp [hp], hpx⟩
      · rcases ih _ _ hx with h1 | h1
        · exact Or.inl h1
        · obtain ⟨p, hp, hpx⟩ := h1
          exact Or.inr ⟨p, by simp [hp], hpx⟩

theorem pickDenseStrips_lt (m : RawImage) (axisY : Bool) (c : ℕ) :
    ∀ x ∈ pickDenseStrips m axisY c,
      x < (if axisY then m.height else m.width) := by
  intro x hx
  unfold pickDenseStrips at hx
  rcases pickLoop_mem _ _ _ _ _ hx with h1 | h1
  · cases h1
  · obtain ⟨p, hp, hpx⟩ := h1
    rw [List.mem_mergeSort] at hp
    obtain ⟨i, hi, hip⟩ := List.mem_map.mp hp
    rw [← hpx, ← hip]
    simpa using List.mem_range.mp hi


theorem bsbd_rows_nil (w h r2 g2 b2 a : ℕ) (keys : List (ℕ × ℕ × ℕ))
    (ys : List ℕ) :
    (buildScanlineBoundaryData (uniformImage w h r2 g2 b2 a) w h keys true
      ys).boundaries = [] := by
  unfold buildScanlineBoundaryData
  simp only
  rw [List.flatten_eq_nil_iff]
  intro l hl
  obtain ⟨pr, hpr, hprl⟩ := List.mem_map.mp hl
  obtain ⟨line, hline, hlpr⟩ := List.mem_map.mp hpr
  rw [← hprl, ← hlpr]
  exact scanline_row_zero w h r2 g2 b2 a keys line

theorem bsbd_cols_lt_two (w h r2 g2 b2 a : ℕ) (keys : List (ℕ × ℕ × ℕ))
    (xs : List ℕ)
    (hxs : (∀ x ∈ xs, x < w) ∨ ∃ x1 x2, xs = [x1, x2] ∧ x1 < w) :
    (buildScanlineBoundaryData (uniformImage w h r2 g2 b2 a) w h keys false
      xs).boundaries.length < 2 := by
  rcases hxs with hall | ⟨x1, x2, rfl, hx1⟩
  · have : (buildScanlineBoundaryData (uniformImage w h r2 g2 b2 a) w h keys
        false xs).boundaries = [] := by
      unfold buildScanlineBoundaryData
      simp only
      rw [List.flatten_eq_nil_iff]
      intro l hl
      obtain ⟨pr, hpr, hprl⟩ := List.mem_map.mp hl
      obtain ⟨line, hline, hlpr⟩ := List.mem_map.mp hpr
      rw [← hprl, ← hlpr]
      exact scanline_col_zero w h r2 g2 b2 a keys line (hall line hline)
    rw [this]
    simp
  · unfold buildScanlineBoundaryData
    simp only [List.map_cons, List.map_nil, List.flatten_cons, List.flatten_nil,
      List.append_nil, List.length_append, Bool.false_eq_true, if_false]
    rw [scanline_col_zero w h r2 g2 b2 a keys x1 hx1]
    have := scanline_col_le_one w h r2 g2 b2 a keys x2
    simp only [List.length_nil]
    omega

theorem segLists_runs_le_one_Y (w h r2 g2 b2 a : ℕ) (hw : 0 < w) (hh : 0 < h)
    (q : ℚ) (ys : List ℚ) :
    ∀ seg ∈ (ys.map (fun y => getRunLengths
      (extractStripY (uniformImage w h r2 g2 b2 a) y) q 16)).flatten,
      seg.runs.length ≤ 1 := by
  intro seg hseg
  obtain ⟨lst, hlst, hsegl⟩ := List.mem_flatten.mp hseg
  obtain ⟨y, hy, hylst⟩ := List.mem_map.mp hlst
  rw [← hylst] at hsegl
  rw [extractStripY_uniform w h r2 g2 b2 a hw hh] at hsegl
  exact getRunLengths_const _ _ _ seg hsegl

theorem segLists_runs_le_one_X (w h r2 g2 b2 a : ℕ) (hw : 0 < w) (hh : 0 < h)
    (q : ℚ) (xs : List ℚ) :
    ∀ seg ∈ (xs.map (fun x => getRunLengths
      (extractStripX (uniformImage w h r2 g2 b2 a) x) q 16)).flatten,
      seg.runs.length ≤ 1 := by
  intro seg hseg
  obtain ⟨lst, hlst, hsegl⟩ := List.mem_flatten.mp hseg
  obtain ⟨x, hx, hxlst⟩ := List.mem_map.mp hlst
  rw [← hxlst] at hsegl
  rw [extractStripX_uniform w h r2 g2 b2 a hw hh] at hsegl
  exact getRunLengths_const _ _ _ seg hsegl

theorem detectAxisEstimate_uniform_none (lp : ℚ → ℚ) (w h r2 g2 b2 a : ℕ)
    (bgInfo : Option (List (ℕ × ℕ × ℕ) × ℚ)) (axisX : Bool) (lines : List ℕ)
    (segLists : List (List Segment)) (len expMax : ℕ)
    (hseg : ∀ seg ∈ segLists.flatten, seg.runs.length ≤ 1)
    (hbound : ∀ i, bgInfo = some i →
      (buildScanlineBoundaryData (uniformImage w h r2 g2 b2 a) w h i.1 axisX
        lines).boundaries.length < 2) :
    detectAxisEstimate lp (uniformImage w h r2 g2 b2 a) w h bgInfo axisX lines
      segLists len expMax = none := by
  cases bgInfo with
  | none =>
    simp only [detectAxisEstimate]
    exact estimateFromSegments_none _ _ _ _ _ _ _ _ hseg
  | some i =>
    simp only [detectAxisEstimate]
    rw [estimateFromBoundaryData_none _ _ _ _ _ _ _ _ (hbound i rfl)]
    exact estimateFromSegments_none _ _ _ _ _ _ _ _ hseg


/-- Claim C9: grid detection on a fully-opaque single-color image fails with
the GridDetectionFailed error: no run boundaries exist on either axis, so both
axis estimates are missing and the detector raises instead of returning a
grid. -/
theorem detectGrid_uniform_fails (lp : ℚ → ℚ) (opts : DetectOptions)
    (w h r g b : ℕ) (hw : 0 < w) (hh : 0 < h) :
    detectGrid lp (uniformImage w h r g b 255) opts =
      Except.error "グリッド検出に失敗しました。入力画像やオプションを確認してください。" := by
  obtain ⟨r2, g2, b2, hdet⟩ :=
    posterize_uniform w h r g b 255 (opts.detectionQuantStep.getD 64)
  have hW : (uniformImage w h r g b 255).width = w := rfl
  have hH : (uniformImage w h r g b 255).height = h := rfl
  have hq1 : (1 : ℚ) ≤ (w : ℚ) := by exact_mod_cast hw
  have hfb1 : (jsRound ((w : ℚ) / 3)).toNat < w := by
    have hfl : ⌊(w : ℚ) / 3 + 1 / 2⌋ < (w : ℤ) := Int.floor_lt.mpr (by
      push_cast
      linarith)
    unfold jsRound
    omega
  simp only [detectGrid, hW, hH]
  rw [hdet]
  rw [detectAxisEstimate_uniform_none lp w h r2 g2 b2 255 _ true _ _ _ _ ?hsx ?hbx]
  case hsx => exact segLists_runs_le_one_Y w h r2 g2 b2 255 hw hh _ _
  case hbx =>
    intro i _
    rw [bsbd_rows_nil]
    simp
  rw [detectAxisEstimate_uniform_none lp w h r2 g2 b2 255 _ false _ _ _ _ ?hsy ?hby]
  case hsy => exact segLists_runs_le_one_X w h r2 g2 b2 255 hw hh _ _
  case hby =>
    intro i _
    refine bsbd_cols_lt_two w h r2 g2 b2 255 i.1 _ ?_
    by_cases hp : pickDenseStrips
        (match (if opts.backgroundMask.getD true = true then
            some (dominantBackground (uniformImage w h r2 g2 b2 255))
          else none) with
        | some j => maskBackgroundByKeys (uniformImage w h r2 g2 b2 255) j.1
        | none => uniformImage w h r2 g2 b2 255) false
        (opts.detectionStrips.getD 12) ≠ []
    · rw [if_pos hp]
      left
      intro x hx
      have hlt := pickDenseStrips_lt _ false _ x hx
      have hdw : (match (if opts.backgroundMask.getD true = true then
            some (dominantBackground (uniformImage w h r2 g2 b2 255))
          else none) with
        | some j => maskBackgroundByKeys (uniformImage w h r2 g2 b2 255) j.1
        | none => uniformImage w h r2 g2 b2 255).width = w := by
        split <;> rfl
      rw [if_neg (by simp)] at hlt
      rw [hdw] at hlt
      exact hlt
    · rw [if_neg hp]
      right
      exact ⟨_, _, rfl, hfb1⟩
  rfl


/-- Witness for C9: a 2x2 opaque gray image fails grid detection. -/
theorem detectGrid_uniform_fails_witness :
    detectGrid (fun _ => 0) (uniformImage 2 2 7 7 7 255) {} =
      Except.error "グリッド検出に失敗しました。入力画像やオプションを確認してください。" :=
  detectGrid_uniform_fails (fun _ => 0) {} 2 2 7 7 7 (by decide) (by decide)


theorem connStep_pos_w {w h : ℕ} {opq : ℕ → Bool} {p q : ℕ}
    (hs : connStep w h opq p q) : 0 < w := by
  obtain ⟨_, _, hpw, _, _⟩ := hs
  rcases Nat.eq_zero_or_pos w with h0 | h1
  · subst h0
    simp at hpw
  · exact h1

theorem connStep_symm {w h : ℕ} {opq : ℕ → Bool} {p q : ℕ}
    (hs : connStep w h opq p q) : connStep w h opq q p := by
  have hw : 0 < w := connStep_pos_w hs
  obtain ⟨hp, hq, hpw, hqw, hcase⟩ := hs
  refine ⟨hq, hp, hqw, hpw, ?_⟩
  have hMp := Nat.mod_add_div p w
  have hMq := Nat.mod_add_div q w
  have hmp : p % w < w := Nat.mod_lt _ hw
  have hmq : q % w < w := Nat.mod_lt _ hw
  rcases hcase with ⟨h1, h2⟩ | ⟨h1, h2⟩ | ⟨h1, h2⟩ | ⟨h1, h2⟩
  · -- q + 1 = p, 0 < p % w : p is right neighbor of q
    refine Or.inr (Or.inl ⟨h1, ?_⟩)
    by_contra hcon
    push_neg at hcon
    have he : q % w = w - 1 := by omega
    have hp0 : p = w * (q / w + 1) := by
      have : w * (q / w + 1) = w * (q / w) + w := by ring
      omega
    have : p % w = 0 := by
      rw [hp0, Nat.mul_comm]
      exact Nat.mul_mod_left _ _
    omega
  · -- p + 1 = q, p % w + 1 < w : q is right neighbor of p
    refine Or.inl ⟨h1, ?_⟩
    have hq1 : q = w * (q / w) + q % w := by omega
    have hq2 : q = w * (p / w) + (p % w + 1) := by omega
    have h3 : q % w = (p % w + 1) % w := by
      have := Nat.mul_add_mod w (p / w) (p % w + 1)
      rw [← hq2] at this
      omega
    rw [Nat.mod_eq_of_lt h2] at h3
    omega
  · -- q + w = p, 0 < p / w : p is below q
    refine Or.inr (Or.inr (Or.inr ⟨h1, ?_⟩))
    have hpd : p / w < h := Nat.div_lt_of_lt_mul hpw
    have hqd : q / w = p / w - 1 := by
      have hq2 : q = w * (p / w - 1) + p % w := by
        have h4 : p / w - 1 + 1 = p / w := by omega
        have h5 : w * (p / w - 1) + w = w * (p / w) := by
          calc w * (p / w - 1) + w = w * (p / w - 1 + 1) := by ring
            _ = w * (p / w) := by rw [h4]
        omega
      rw [hq2, Nat.mul_add_div hw, Nat.div_eq_of_lt hmp]
      all_goals omega
    omega
  · -- p + w = q, p / w + 1 < h : q is below p
    refine Or.inr (Or.inr (Or.inl ⟨h1, ?_⟩))
    have hqd : q / w = p / w + 1 := by
      have hq2 : q = w * (p / w + 1) + p % w := by
        have : w * (p / w + 1) = w * (p / w) + w := by ring
        omega
      rw [hq2, Nat.mul_add_div hw, Nat.div_eq_of_lt hmp]
      all_goals omega
    rw [hqd]
    exact Nat.succ_pos _


theorem Conn_symm {w h : ℕ} {opq : ℕ → Bool} {p q : ℕ}
    (hc : Conn w h opq p q) : Conn w h opq q p :=
  Relation.ReflTransGen.symmetric (fun _ _ hs => connStep_symm hs) hc

theorem Conn_trans {w h : ℕ} {opq : ℕ → Bool} {p q r : ℕ}
    (h1 : Conn w h opq p q) (h2 : Conn w h opq q r) : Conn w h opq p r :=
  Relation.ReflTransGen.trans h1 h2

theorem Conn_props {w h : ℕ} {opq : ℕ → Bool} {p x : ℕ} (hp : opq p = true)
    (hpw : p < w * h) (hc : Conn w h opq p x) : opq x = true ∧ x < w * h := by
  induction hc with
  | refl => exact ⟨hp, hpw⟩
  | tail _ hstep _ => exact ⟨hstep.2.1, hstep.2.2.2.1⟩

theorem nbr_sound {w h : ℕ} {opq : ℕ → Bool} (p : Fin (w * h))
    (q : Fin (w * h)) (hq : q ∈ nbrCandidates w h p) (hop : opq p.val = true)
    (hoq : opq q.val = true) : connStep w h opq p.val q.val := by
  refine ⟨hop, hoq, p.isLt, q.isLt, ?_⟩
  unfold nbrCandidates at hq
  rcases List.mem_append.mp hq with hm | hm
  case _ =>
    rcases List.mem_append.mp hm with hm2 | hm2
    case _ =>
      rcases List.mem_append.mp hm2 with hm3 | hm3
      · -- left neighbor
        split at hm3
        · next hg =>
            rcases List.mem_singleton.mp hm3 with rfl
            exact Or.inl ⟨by
              have := Nat.mod_le p.val w
              simp only
              omega, hg⟩
        · cases hm3
      · -- right neighbor
        split at hm3
        · next hg =>
            rcases List.mem_singleton.mp hm3 with rfl
            exact Or.inr (Or.inl ⟨by simp only, hg⟩)
        · cases hm3
    case _ =>
      -- up neighbor
      split at hm2
      · next hg =>
          rcases List.mem_singleton.mp hm2 with rfl
          refine Or.inr (Or.inr (Or.inl ⟨?_, hg⟩))
          simp only
          have : w ≤ p.val := by
            have := Nat.mod_add_div p.val w
            have hww : 0 < w := by
              rcases Nat.eq_zero_or_pos w with h0 | h1
              · exfalso
                have := p.isLt
                subst h0
                simp at this
              · exact h1
            have h5 : 1 ≤ p.val / w := hg
            have h6 : w * 1 ≤ w * (p.val / w) := Nat.mul_le_mul_left w h5
            omega
          omega
      · cases hm2
  case _ =>
    -- down neighbor
    split at hm
    · next hg =>
        rcases List.mem_singleton.mp hm with rfl
        exact Or.inr (Or.inr (Or.inr ⟨by simp only, hg⟩))
    · cases hm


theorem nbr_complete {w h : ℕ} {opq : ℕ → Bool} (p : Fin (w * h)) {v : ℕ}
    (hs : connStep w h opq p.val v) :
    ∃ q ∈ nbrCandidates w h p, (q : ℕ) = v := by
  obtain ⟨hp, hv, hpw, hvw, hcase⟩ := hs
  refine ⟨⟨v, hvw⟩, ?_, rfl⟩
  unfold nbrCandidates
  rcases hcase with ⟨h1, h2⟩ | ⟨h1, h2⟩ | ⟨h1, h2⟩ | ⟨h1, h2⟩
  · refine List.mem_append_left _ (List.mem_append_left _
      (List.mem_append_left _ ?_))
    rw [if_pos h2]
    simp only [List.mem_singleton, Fin.mk.injEq]
    omega
  · refine List.mem_append_left _ (List.mem_append_left _
      (List.mem_append_right _ ?_))
    rw [dif_pos h2]
    simp only [List.mem_singleton, Fin.mk.injEq]
    omega
  · refine List.mem_append_left _ (List.mem_append_right _ ?_)
    rw [if_pos h2]
    simp only [List.mem_singleton, Fin.mk.injEq]
    omega
  · refine List.mem_append_right _ ?_
    rw [dif_pos h2]
    simp only [List.mem_singleton, Fin.mk.injEq]
    omega


theorem vf_sub (n : ℕ) (opq : ℕ → Bool) :
    ∀ (cands : List (Fin n)) (st : Finset ℕ × List (Fin n)),
      st.1 ⊆ (visitFold n opq cands st).1 := by
  intro cands
  induction cands with
  | nil => intro st; simp [visitFold]
  | cons c cs ih =>
    intro st
    simp only [visitFold, List.foldl_cons]
    split_ifs with hc
    · exact fun x hx => ih (insert c.val st.1, c :: st.2) (Finset.mem_insert_of_mem hx)
    · exact ih st

theorem vf_mem_visited (n : ℕ) (opq : ℕ → Bool) :
    ∀ (cands : List (Fin n)) (st : Finset ℕ × List (Fin n)) (x : ℕ),
      x ∈ (visitFold n opq cands st).1 →
      x ∈ st.1 ∨ ∃ q ∈ cands, (q : ℕ) = x ∧ opq x = true := by
  intro cands
  induction cands with
  | nil => intro st x hx; exact Or.inl (by simpa [visitFold] using hx)
  | cons c cs ih =>
    intro st x hx
    simp only [visitFold, List.foldl_cons] at hx
    split_ifs at hx with hc
    · rcases ih _ x hx with h1 | ⟨q, hq, hqx, hqo⟩
      · rcases Finset.mem_insert.mp h1 with h2 | h2
        · exact Or.inr ⟨c, by simp, h2.symm, by rw [← h2] at hc; exact hc.2⟩
        · exact Or.inl h2
      · exact Or.inr ⟨q, by simp [hq], hqx, hqo⟩
    · rcases ih _ x hx with h1 | ⟨q, hq, hqx, hqo⟩
      · exact Or.inl h1
      · exact Or.inr ⟨q, by simp [hq], hqx, hqo⟩

theorem vf_queue_cases (n : ℕ) (opq : ℕ → Bool) :
    ∀ (cands : List (Fin n)) (st : Finset ℕ × List (Fin n)) (q : Fin n),
      q ∈ (visitFold n opq cands st).2 →
      q ∈ st.2 ∨ (q ∈ cands ∧ opq (q : ℕ) = true ∧ (q : ℕ) ∉ st.1) := by
  intro cands
  induction cands with
  | nil => intro st q hq; exact Or.inl (by simpa [visitFold] using hq)
  | cons c cs ih =>
    intro st q hq
    simp only [visitFold, List.foldl_cons] at hq
    split_ifs at hq with hc
    · rcases ih _ q hq with h1 | ⟨h1, h2, h3⟩
      · rcases List.mem_cons.mp h1 with h2 | h2
        · subst h2
          exact Or.inr ⟨by simp, hc.2, hc.1⟩
        · exact Or.inl h2
      · exact Or.inr ⟨by simp [h1], h2,
          fun hm => h3 (Finset.mem_insert_of_mem hm)⟩
    · rcases ih _ q hq with h1 | ⟨h1, h2, h3⟩
      · exact Or.inl h1
      · exact Or.inr ⟨by simp [h1], h2, h3⟩

theorem vf_queue_mono (n : ℕ) (opq : ℕ → Bool) :
    ∀ (cands : List (Fin n)) (st : Finset ℕ × List (Fin n)) (q : Fin n),
      q ∈ st.2 → q ∈ (visitFold n opq cands st).2 := by
  intro cands
  induction cands with
  | nil => intro st q hq; simpa [visitFold] using hq
  | cons c cs ih =>
    intro st q hq
    simp only [visitFold, List.foldl_cons]
    split_ifs with hc
    · exact ih (insert c.val st.1, c :: st.2) q (List.mem_cons_of_mem _ hq)
    · exact ih st q hq

theorem vf_push (n : ℕ) (opq : ℕ → Bool) :
    ∀ (cands : List (Fin n)) (st : Finset ℕ × List (Fin n)), ∀ q ∈ cands,
      opq (q : ℕ) = true → (q : ℕ) ∉ st.1 →
      ∃ q2 ∈ (visitFold n opq cands st).2, (q2 : ℕ) = (q : ℕ) := by
  intro cands
  induction cands with
  | nil => intro st q hq; cases hq
  | cons c cs ih =>
    intro st q hq hop hnv
    simp only [visitFold, List.foldl_cons]
    rcases List.mem_cons.mp hq with h1 | h1
    · subst h1
      rw [if_pos ⟨hnv, hop⟩]
      exact ⟨q, vf_queue_mono n opq cs _ q (List.mem_cons_self _ _), rfl⟩
    · split_ifs with hc
      · by_cases hqc : (q : ℕ) = (c : ℕ)
        · exact ⟨c, vf_queue_mono n opq cs _ c (List.mem_cons_self _ _), hqc.symm⟩
        · exact ih (insert c.val st.1, c :: st.2) q h1 hop (fun hm => by
            rcases Finset.mem_insert.mp hm with h2 | h2
            · exact hqc h2
            · exact hnv h2)
      · exact ih st q h1 hop hnv

theorem vf_queue_visited (n : ℕ) (opq : ℕ → Bool) :
    ∀ (cands : List (Fin n)) (st : Finset ℕ × List (Fin n)),
      (∀ q ∈ st.2, (q : ℕ) ∈ st.1) →
      ∀ q ∈ (visitFold n opq cands st).2, (q : ℕ) ∈ (visitFold n opq cands st).1 := by
  intro cands
  induction cands with
  | nil => intro st hst; simpa [visitFold] using hst
  | cons c cs ih =>
    intro st hst
    simp only [visitFold, List.foldl_cons]
    split_ifs with hc
    · refine ih (insert c.val st.1, c :: st.2) ?_
      intro q hq
      rcases List.mem_cons.mp hq with h1 | h1
      · subst h1
        exact Finset.mem_insert_self _ _
      · exact Finset.mem_insert_of_mem (hst q h1)
    · exact ih st hst

theorem vf_cands_visited (n : ℕ) (opq : ℕ → Bool) :
    ∀ (cands : List (Fin n)) (st : Finset ℕ × List (Fin n)),
      ∀ q ∈ cands, opq (q : ℕ) = true → (q : ℕ) ∈ (visitFold n opq cands st).1 := by
  intro cands
  induction cands with
  | nil => intro st q hq; cases hq
  | cons c cs ih =>
    intro st q hq hqo
    rcases List.mem_cons.mp hq with h1 | h1
    · subst h1
      simp only [visitFold, List.foldl_cons]
      split_ifs with hc
      · exact vf_sub n opq cs _ (Finset.mem_insert_self _ _)
      · have : (q : ℕ) ∈ st.1 := by
          by_contra hmem
          exact hc ⟨hmem, hqo⟩
        exact vf_sub n opq cs st this
    · simp only [visitFold, List.foldl_cons]
      split_ifs with hc
      · exact ih _ q h1 hqo
      · exact ih st q h1 hqo

theorem vf_count (n : ℕ) (opq : ℕ → Bool) (V₀ : Finset ℕ) :
    ∀ (cands : List (Fin n)) (st : Finset ℕ × List (Fin n)), V₀ ⊆ st.1 →
      ((visitFold n opq cands st).1 \ V₀).card + st.2.length =
        (st.1 \ V₀).card + (visitFold n opq cands st).2.length := by
  intro cands
  induction cands with
  | nil => intro st hsub; simp [visitFold]
  | cons c cs ih =>
    intro st hsub
    simp only [visitFold, List.foldl_cons]
    split_ifs with hc
    · have h1 := ih (insert c.val st.1, c :: st.2)
        (fun x hx => Finset.mem_insert_of_mem (hsub hx))
      simp only [visitFold] at h1
      have h2 : (insert c.val st.1 \ V₀).card = (st.1 \ V₀).card + 1 := by
        have hnv : (c : ℕ) ∉ V₀ := fun hmem => hc.1 (hsub hmem)
        rw [Finset.insert_sdiff_of_not_mem _ hnv]
        exact Finset.card_insert_of_not_mem (fun hmem =>
          hc.1 (Finset.mem_sdiff.mp hmem).1)
      simp only [List.length_cons] at h1
      omega
    · exact ih st hsub


theorem bfsLoop_spec (w h : ℕ) (opq : ℕ → Bool) (mp : ℚ) (s : ℕ) (V₀ : Finset ℕ) :
    ∀ (visited : Finset ℕ) (queue : List (Fin (w * h))) (size : ℕ)
      (pixels : List ℕ) (storing : Bool),
      V₀ ⊆ visited →
      (∀ q ∈ queue, opq (q : ℕ) = true ∧ (q : ℕ) ∈ visited ∧ (q : ℕ) ∉ V₀ ∧
        Conn w h opq s (q : ℕ)) →
      (∀ x ∈ visited, x ∉ V₀ → opq x = true ∧ Conn w h opq s x) →
      (∀ u ∈ visited, (∀ q ∈ queue, (q : ℕ) ≠ u) → ∀ v, connStep w h opq u v →
        v ∈ visited) →
      size + queue.length = (visited \ V₀).card →
      (∀ x ∈ pixels, x ∈ visited ∧ x ∉ V₀) →
      V₀ ⊆ (bfsLoop w h opq mp visited queue size pixels storing).1 ∧
      (∀ x ∈ (bfsLoop w h opq mp visited queue size pixels storing).1, x ∉ V₀ →
        opq x = true ∧ Conn w h opq s x) ∧
      (∀ u ∈ (bfsLoop w h opq mp visited queue size pixels storing).1,
        ∀ v, connStep w h opq u v →
          v ∈ (bfsLoop w h opq mp visited queue size pixels storing).1) ∧
      (bfsLoop w h opq mp visited queue size pixels storing).2.1 =
        ((bfsLoop w h opq mp visited queue size pixels storing).1 \ V₀).card ∧
      (∀ x ∈ (bfsLoop w h opq mp visited queue size pixels storing).2.2.1,
        x ∈ (bfsLoop w h opq mp visited queue size pixels storing).1 ∧ x ∉ V₀) ∧
      visited ⊆ (bfsLoop w h opq mp visited queue size pixels storing).1 := by
  intro visited queue size pixels storing
  induction visited, queue, size, pixels, storing using bfsLoop.induct w h opq mp with
  | case1 visited size pixels storing =>
    intro hI1 hI2 hI3 hI4 hI5 hI6
    rw [bfsLoop]
    exact ⟨hI1, hI3, fun u hu v hsv => hI4 u hu (fun q hq => absurd hq
      (List.not_mem_nil q)) v hsv, by simpa using hI5, hI6, fun x hx => hx⟩
  | case2 visited cur queue size pixels storing rec1 st ih =>
    intro hI1 hI2 hI3 hI4 hI5 hI6
    obtain ⟨hco, hcm, hcv, hcc⟩ := hI2 cur (List.mem_cons_self _ _)
    have hsub := vf_sub (w * h) opq (nbrCandidates w h cur) (visited, queue)
    have hJ1 : V₀ ⊆ (visitFold (w * h) opq (nbrCandidates w h cur)
        (visited, queue)).1 := fun x hx => hsub (hI1 hx)
    have hJ2 : ∀ q ∈ (visitFold (w * h) opq (nbrCandidates w h cur)
        (visited, queue)).2, opq (q : ℕ) = true ∧
        (q : ℕ) ∈ (visitFold (w * h) opq (nbrCandidates w h cur)
          (visited, queue)).1 ∧ (q : ℕ) ∉ V₀ ∧ Conn w h opq s (q : ℕ) := by
      intro q hq
      rcases vf_queue_cases (w * h) opq (nbrCandidates w h cur)
          (visited, queue) q hq with hold | ⟨hcand, hop, hnv⟩
      · obtain ⟨h1, h2, h3, h4⟩ := hI2 q (List.mem_cons_of_mem _ hold)
        exact ⟨h1, hsub h2, h3, h4⟩
      · exact ⟨hop, vf_cands_visited (w * h) opq (nbrCandidates w h cur)
          (visited, queue) q hcand hop, fun hm => hnv (hI1 hm),
          Relation.ReflTransGen.tail hcc (nbr_sound cur q hcand hco hop)⟩
    have hJ3 : ∀ x ∈ (visitFold (w * h) opq (nbrCandidates w h cur)
        (visited, queue)).1, x ∉ V₀ → opq x = true ∧ Conn w h opq s x := by
      intro x hx hxv
      rcases vf_mem_visited (w * h) opq (nbrCandidates w h cur)
          (visited, queue) x hx with hold | ⟨q, hq, hqx, hqo⟩
      · exact hI3 x hold hxv
      · subst hqx
        exact ⟨hqo, Relation.ReflTransGen.tail hcc (nbr_sound cur q hq hco hqo)⟩
    have hJ4 : ∀ u ∈ (visitFold (w * h) opq (nbrCandidates w h cur)
        (visited, queue)).1,
        (∀ q ∈ (visitFold (w * h) opq (nbrCandidates w h cur)
          (visited, queue)).2, (q : ℕ) ≠ u) →
        ∀ v, connStep w h opq u v →
          v ∈ (visitFold (w * h) opq (nbrCandidates w h cur)
            (visited, queue)).1 := by
      intro u hu hnq v hsv
      by_cases hucur : u = (cur : ℕ)
      · subst hucur
        obtain ⟨q, hq, hqv⟩ := nbr_complete cur hsv
        have hqo : opq (q : ℕ) = true := by rw [hqv]; exact hsv.2.1
        have := vf_cands_visited (w * h) opq (nbrCandidates w h cur)
          (visited, queue) q hq hqo
        rwa [hqv] at this
      · by_cases huv : u ∈ visited
        · have hnold : ∀ q2 ∈ cur :: queue, (q2 : ℕ) ≠ u := by
            intro q2 hq2
            rcases List.mem_cons.mp hq2 with h1 | h1
            · subst h1
              exact fun he => hucur he.symm
            · exact hnq q2 (vf_queue_mono (w * h) opq (nbrCandidates w h cur)
                (visited, queue) q2 h1)
          exact hsub (hI4 u huv hnold v hsv)
        · rcases vf_mem_visited (w * h) opq (nbrCandidates w h cur)
              (visited, queue) u hu with h1 | ⟨q, hq, hqu, hou⟩
          · exact absurd h1 huv
          · exfalso
            obtain ⟨q2, hq2, hq2u⟩ := vf_push (w * h) opq (nbrCandidates w h cur)
              (visited, queue) q hq (by rw [hqu]; exact hou)
              (by rw [hqu]; exact huv)
            exact hnq q2 hq2 (hq2u.trans hqu)
    have hJ5 : (size + 1) + (visitFold (w * h) opq (nbrCandidates w h cur)
        (visited, queue)).2.length =
        ((visitFold (w * h) opq (nbrCandidates w h cur)
          (visited, queue)).1 \ V₀).card := by
      have hc : ((visitFold (w * h) opq (nbrCandidates w h cur)
            (visited, queue)).1 \ V₀).card + queue.length =
          (visited \ V₀).card + (visitFold (w * h) opq (nbrCandidates w h cur)
            (visited, queue)).2.length :=
        vf_count (w * h) opq V₀ (nbrCandidates w h cur) (visited, queue) hI1
      simp only [List.length_cons] at hI5
      omega
    have hrec : ∀ x ∈ (if storing then
        (let ps := pixels ++ [(cur : ℕ)];
          if mp < (ps.length : ℚ) then (([] : List ℕ), false) else (ps, true))
        else (pixels, storing)).1, x ∈ pixels ∨ x = (cur : ℕ) := by
      intro x hx
      split at hx
      · dsimp only at hx
        split at hx
        · cases hx
        · rcases List.mem_append.mp hx with h1 | h1
          · exact Or.inl h1
          · exact Or.inr (List.mem_singleton.mp h1)
      · exact Or.inl hx
    have hJ6 : ∀ x ∈ (if storing then
        (let ps := pixels ++ [(cur : ℕ)];
          if mp < (ps.length : ℚ) then (([] : List ℕ), false) else (ps, true))
        else (pixels, storing)).1,
        x ∈ (visitFold (w * h) opq (nbrCandidates w h cur)
          (visited, queue)).1 ∧ x ∉ V₀ := by
      intro x hx
      rcases hrec x hx with h1 | h1
      · obtain ⟨h2, h3⟩ := hI6 x h1
        exact ⟨hsub h2, h3⟩
      · subst h1
        exact ⟨hsub hcm, hcv⟩
    rw [bfsLoop]
    obtain ⟨c1, c2, c3, c4, c5, c6⟩ := ih hJ1 hJ2 hJ3 hJ4 hJ5 hJ6
    exact ⟨c1, c2, c3, c4, c5, fun x hx => c6 (hsub hx)⟩


theorem Conn_closed_mem {w h : ℕ} {opq : ℕ → Bool} {V : Finset ℕ}
    (hcl : ∀ u ∈ V, ∀ v, connStep w h opq u v → v ∈ V) {x y : ℕ}
    (hx : x ∈ V) (hc : Conn w h opq x y) : y ∈ V := by
  induction hc with
  | refl => exact hx
  | tail _ hstep ih => exact hcl _ ih _ hstep

theorem Conn_class_finite {w h : ℕ} {opq : ℕ → Bool} {p : ℕ}
    (hp : opq p = true) (hpw : p < w * h) :
    {y | Conn w h opq p y}.Finite :=
  Set.Finite.subset (Set.finite_Iio (w * h))
    (fun y hy => (Conn_props hp hpw hy).2)

theorem Conn_class_pos {w h : ℕ} {opq : ℕ → Bool} {p : ℕ}
    (hp : opq p = true) (hpw : p < w * h) :
    0 < Set.ncard {y | Conn w h opq p y} :=
  (Set.ncard_pos (Conn_class_finite hp hpw)).mpr
    ⟨p, Relation.ReflTransGen.refl⟩

theorem Conn_class_eq {w h : ℕ} {opq : ℕ → Bool} {p q : ℕ}
    (hc : Conn w h opq p q) :
    {y | Conn w h opq p y} = {y | Conn w h opq q y} :=
  Set.ext fun _ => ⟨fun hy => Conn_trans (Conn_symm hc) hy,
    fun hy => Conn_trans hc hy⟩

theorem bfsRun_spec (w h : ℕ) (opq : ℕ → Bool) (mp : ℚ) (p : Fin (w * h))
    (V : Finset ℕ) (hop : opq (p : ℕ) = true)
    (hcl : ∀ u ∈ V, ∀ v, connStep w h opq u v → v ∈ V)
    (hpv : (p : ℕ) ∉ V) :
    V ⊆ (bfsLoop w h opq mp (insert (p : ℕ) V) [p] 0 [] true).1 ∧
    (∀ u ∈ (bfsLoop w h opq mp (insert (p : ℕ) V) [p] 0 [] true).1,
      ∀ v, connStep w h opq u v →
        v ∈ (bfsLoop w h opq mp (insert (p : ℕ) V) [p] 0 [] true).1) ∧
    (((bfsLoop w h opq mp (insert (p : ℕ) V) [p] 0 [] true).1 \ V : Finset ℕ)
        : Set ℕ) = {y | Conn w h opq (p : ℕ) y} ∧
    (bfsLoop w h opq mp (insert (p : ℕ) V) [p] 0 [] true).2.1 =
      Set.ncard {y | Conn w h opq (p : ℕ) y} ∧
    (∀ x ∈ (bfsLoop w h opq mp (insert (p : ℕ) V) [p] 0 [] true).2.2.1,
      Conn w h opq (p : ℕ) x) ∧
    (p : ℕ) ∈ (bfsLoop w h opq mp (insert (p : ℕ) V) [p] 0 [] true).1 := by
  have hdisj : ∀ x ∈ V, ¬ Conn w h opq (p : ℕ) x := fun x hx hconn =>
    hpv (Conn_closed_mem hcl hx (Conn_symm hconn))
  obtain ⟨c1, c2, c3, c4, c5, c6⟩ := bfsLoop_spec w h opq mp (p : ℕ) V
    (insert (p : ℕ) V) [p] 0 [] true
    (Finset.subset_insert _ _)
    (by
      intro q hq
      rw [List.mem_singleton] at hq
      subst hq
      exact ⟨hop, Finset.mem_insert_self _ _, hpv, Relation.ReflTransGen.refl⟩)
    (by
      intro x hx hxv
      rcases Finset.mem_insert.mp hx with h1 | h1
      · subst h1
        exact ⟨hop, Relation.ReflTransGen.refl⟩
      · exact absurd h1 hxv)
    (by
      intro u hu hnq v hsv
      rcases Finset.mem_insert.mp hu with h1 | h1
      · exact absurd h1.symm (hnq p (List.mem_singleton_self _))
      · exact Finset.mem_insert_of_mem (hcl u h1 v hsv))
    (by
      have he : insert (p : ℕ) V \ V = {(p : ℕ)} := by
        ext a
        simp only [Finset.mem_sdiff, Finset.mem_insert, Finset.mem_singleton]
        constructor
        · rintro ⟨h1 | h1, h2⟩
          · exact h1
          · exact absurd h1 h2
        · rintro rfl
          exact ⟨Or.inl rfl, hpv⟩
      rw [he, Finset.card_singleton, List.length_singleton])
    (fun x hx => absurd hx (List.not_mem_nil x))
  have hmem : (p : ℕ) ∈ (bfsLoop w h opq mp (insert (p : ℕ) V) [p] 0 [] true).1 :=
    c6 (Finset.mem_insert_self _ _)
  have hset : (((bfsLoop w h opq mp (insert (p : ℕ) V) [p] 0 [] true).1 \ V :
      Finset ℕ) : Set ℕ) = {y | Conn w h opq (p : ℕ) y} := by
    ext x
    simp only [Finset.coe_sdiff, Set.mem_diff, Finset.mem_coe,
      Finset.mem_sdiff, Set.mem_setOf_eq]
    constructor
    · rintro ⟨h1, h2⟩
      exact (c2 x h1 h2).2
    · intro hconn
      exact ⟨Conn_closed_mem c3 hmem hconn, fun hm => hdisj x hm hconn⟩
  refine ⟨c1, c3, hset, ?_, ?_, hmem⟩
  · rw [c4, ← hset, Set.ncard_coe_Finset]
  · intro x hx
    obtain ⟨h1, h2⟩ := c5 x hx
    have : x ∈ (((bfsLoop w h opq mp (insert (p : ℕ) V) [p] 0 [] true).1 \ V :
        Finset ℕ) : Set ℕ) := by
      simp only [Finset.coe_sdiff, Set.mem_diff, Finset.mem_coe]
      exact ⟨h1, h2⟩
    rwa [hset] at this


theorem bfsLoop_mono (w h : ℕ) (opq : ℕ → Bool) (mp : ℚ) :
    ∀ (visited : Finset ℕ) (queue : List (Fin (w * h))) (size : ℕ)
      (pixels : List ℕ) (storing : Bool),
      visited ⊆ (bfsLoop w h opq mp visited queue size pixels storing).1 := by
  intro visited queue size pixels storing
  induction visited, queue, size, pixels, storing using bfsLoop.induct w h opq mp with
  | case1 visited size pixels storing =>
    rw [bfsLoop]
  | case2 =>
    rename_i visited cur queue size pixels storing rec1 st ih
    rw [bfsLoop]
    exact fun x hx => ih
      (vf_sub (w * h) opq (nbrCandidates w h cur) (visited, queue) hx)

theorem scanFold_mono (w h : ℕ) (opq : ℕ → Bool) (mp : ℚ) :
    ∀ (l : List (Fin (w * h)))
      (st : Finset ℕ × ℕ × ℤ × ℕ × List (ℕ × List ℕ × ℕ)),
      st.1 ⊆ (l.foldl (fun (st : Finset ℕ × ℕ × ℤ × ℕ × List (ℕ × List ℕ × ℕ))
          (p : Fin (w * h)) =>
        if p.val ∈ st.1 then st
        else if ¬ opq p.val = true then st
        else
          let id := st.2.1 + 1
          let r := bfsLoop w h opq mp (insert p.val st.1) [p] 0 [] true
          let largest := if st.2.2.2.1 < r.2.1 then ((id : ℤ), r.2.1)
            else (st.2.2.1, st.2.2.2.1)
          let small := if (r.2.1 : ℚ) ≤ mp ∧ 0 < r.2.2.1.length then
              st.2.2.2.2 ++ [(id, r.2.2.1, r.2.1)]
            else st.2.2.2.2
          (r.1, id, largest.1, largest.2, small)) st).1 := by
  intro l
  induction l with
  | nil => intro st; exact fun x hx => hx
  | cons q l ih =>
    intro st
    simp only [List.foldl_cons]
    by_cases h1 : (q : ℕ) ∈ st.1
    · rw [if_pos h1]
      exact ih st
    · rw [if_neg h1]
      by_cases h2 : opq (q : ℕ) = true
      · rw [if_neg (not_not_intro h2)]
        refine fun x hx => ih _ ?_
        exact bfsLoop_mono w h opq mp (insert (q : ℕ) st.1) [q] 0 [] true
          (Finset.mem_insert_of_mem hx)
      · rw [if_pos h2]
        exact ih st


theorem scanFold_spec (w h : ℕ) (opq : ℕ → Bool) (mp : ℚ) (p₀ : ℕ)
    (hdom : ∀ q, q < w * h → opq q = true → ¬ Conn w h opq p₀ q →
      Set.ncard {y | Conn w h opq q y} < Set.ncard {y | Conn w h opq p₀ y}) :
    ∀ (l : List (Fin (w * h)))
      (st : Finset ℕ × ℕ × ℤ × ℕ × List (ℕ × List ℕ × ℕ)),
      (∀ u ∈ st.1, ∀ v, connStep w h opq u v → v ∈ st.1) →
      (p₀ ∈ st.1 → st.2.2.2.1 = Set.ncard {y | Conn w h opq p₀ y} ∧
        ∀ sc ∈ st.2.2.2.2, (sc.1 : ℤ) ≠ st.2.2.1 →
          ∀ x ∈ sc.2.1, ¬ Conn w h opq p₀ x) →
      (p₀ ∉ st.1 → st.2.2.2.1 < Set.ncard {y | Conn w h opq p₀ y} ∧
        (∀ sc ∈ st.2.2.2.2, ∀ x ∈ sc.2.1, ¬ Conn w h opq p₀ x)) →
      ((∀ u ∈ (l.foldl (fun (st : Finset ℕ × ℕ × ℤ × ℕ × List (ℕ × List ℕ × ℕ))
          (p : Fin (w * h)) =>
        if p.val ∈ st.1 then st
        else if ¬ opq p.val = true then st
        else
          let id := st.2.1 + 1
          let r := bfsLoop w h opq mp (insert p.val st.1) [p] 0 [] true
          let largest := if st.2.2.2.1 < r.2.1 then ((id : ℤ), r.2.1)
            else (st.2.2.1, st.2.2.2.1)
          let small := if (r.2.1 : ℚ) ≤ mp ∧ 0 < r.2.2.1.length then
              st.2.2.2.2 ++ [(id, r.2.2.1, r.2.1)]
            else st.2.2.2.2
          (r.1, id, largest.1, largest.2, small)) st).1, ∀ v, connStep w h opq u v →
          v ∈ (l.foldl (fun (st : Finset ℕ × ℕ × ℤ × ℕ × List (ℕ × List ℕ × ℕ))
          (p : Fin (w * h)) =>
        if p.val ∈ st.1 then st
        else if ¬ opq p.val = true then st
        else
          let id := st.2.1 + 1
          let r := bfsLoop w h opq mp (insert p.val st.1) [p] 0 [] true
          let largest := if st.2.2.2.1 < r.2.1 then ((id : ℤ), r.2.1)
            else (st.2.2.1, st.2.2.2.1)
          let small := if (r.2.1 : ℚ) ≤ mp ∧ 0 < r.2.2.1.length then
              st.2.2.2.2 ++ [(id, r.2.2.1, r.2.1)]
            else st.2.2.2.2
          (r.1, id, largest.1, largest.2, small)) st).1) ∧
        (p₀ ∈ (l.foldl (fun (st : Finset ℕ × ℕ × ℤ × ℕ × List (ℕ × List ℕ × ℕ))
          (p : Fin (w * h)) =>
        if p.val ∈ st.1 then st
        else if ¬ opq p.val = true then st
        else
          let id := st.2.1 + 1
          let r := bfsLoop w h opq mp (insert p.val st.1) [p] 0 [] true
          let largest := if st.2.2.2.1 < r.2.1 then ((id : ℤ), r.2.1)
            else (st.2.2.1, st.2.2.2.1)
          let small := if (r.2.1 : ℚ) ≤ mp ∧ 0 < r.2.2.1.length then
              st.2.2.2.2 ++ [(id, r.2.2.1, r.2.1)]
            else st.2.2.2.2
          (r.1, id, largest.1, largest.2, small)) st).1 →
          (l.foldl (fun (st : Finset ℕ × ℕ × ℤ × ℕ × List (ℕ × List ℕ × ℕ))
          (p : Fin (w * h)) =>
        if p.val ∈ st.1 then st
        else if ¬ opq p.val = true then st
        else
          let id := st.2.1 + 1
          let r := bfsLoop w h opq mp (insert p.val st.1) [p] 0 [] true
          let largest := if st.2.2.2.1 < r.2.1 then ((id : ℤ), r.2.1)
            else (st.2.2.1, st.2.2.2.1)
          let small := if (r.2.1 : ℚ) ≤ mp ∧ 0 < r.2.2.1.length then
              st.2.2.2.2 ++ [(id, r.2.2.1, r.2.1)]
            else st.2.2.2.2
          (r.1, id, largest.1, largest.2, small)) st).2.2.2.1 = Set.ncard {y | Conn w h opq p₀ y} ∧
          ∀ sc ∈ (l.foldl (fun (st : Finset ℕ × ℕ × ℤ × ℕ × List (ℕ × List ℕ × ℕ))
          (p : Fin (w * h)) =>
        if p.val ∈ st.1 then st
        else if ¬ opq p.val = true then st
        else
          let id := st.2.1 + 1
          let r := bfsLoop w h opq mp (insert p.val st.1) [p] 0 [] true
          let largest := if st.2.2.2.1 < r.2.1 then ((id : ℤ), r.2.1)
            else (st.2.2.1, st.2.2.2.1)
          let small := if (r.2.1 : ℚ) ≤ mp ∧ 0 < r.2.2.1.length then
              st.2.2.2.2 ++ [(id, r.2.2.1, r.2.1)]
            else st.2.2.2.2
          (r.1, id, largest.1, largest.2, small)) st).2.2.2.2,
            (sc.1 : ℤ) ≠ (l.foldl (fun (st : Finset ℕ × ℕ × ℤ × ℕ × List (ℕ × List ℕ × ℕ))
          (p : Fin (w * h)) =>
        if p.val ∈ st.1 then st
        else if ¬ opq p.val = true then st
        else
          let id := st.2.1 + 1
          let r := bfsLoop w h opq mp (insert p.val st.1) [p] 0 [] true
          let largest := if st.2.2.2.1 < r.2.1 then ((id : ℤ), r.2.1)
            else (st.2.2.1, st.2.2.2.1)
          let small := if (r.2.1 : ℚ) ≤ mp ∧ 0 < r.2.2.1.length then
              st.2.2.2.2 ++ [(id, r.2.2.1, r.2.1)]
            else st.2.2.2.2
          (r.1, id, largest.1, largest.2, small)) st).2.2.1 →
            ∀ x ∈ sc.2.1, ¬ Conn w h opq p₀ x) ∧
        (p₀ ∉ (l.foldl (fun (st : Finset ℕ × ℕ × ℤ × ℕ × List (ℕ × List ℕ × ℕ))
          (p : Fin (w * h)) =>
        if p.val ∈ st.1 then st
        else if ¬ opq p.val = true then st
        else
          let id := st.2.1 + 1
          let r := bfsLoop w h opq mp (insert p.val st.1) [p] 0 [] true
          let largest := if st.2.2.2.1 < r.2.1 then ((id : ℤ), r.2.1)
            else (st.2.2.1, st.2.2.2.1)
          let small := if (r.2.1 : ℚ) ≤ mp ∧ 0 < r.2.2.1.length then
              st.2.2.2.2 ++ [(id, r.2.2.1, r.2.1)]
            else st.2.2.2.2
          (r.1, id, largest.1, largest.2, small)) st).1 →
          (l.foldl (fun (st : Finset ℕ × ℕ × ℤ × ℕ × List (ℕ × List ℕ × ℕ))
          (p : Fin (w * h)) =>
        if p.val ∈ st.1 then st
        else if ¬ opq p.val = true then st
        else
          let id := st.2.1 + 1
          let r := bfsLoop w h opq mp (insert p.val st.1) [p] 0 [] true
          let largest := if st.2.2.2.1 < r.2.1 then ((id : ℤ), r.2.1)
            else (st.2.2.1, st.2.2.2.1)
          let small := if (r.2.1 : ℚ) ≤ mp ∧ 0 < r.2.2.1.length then
              st.2.2.2.2 ++ [(id, r.2.2.1, r.2.1)]
            else st.2.2.2.2
          (r.1, id, largest.1, largest.2, small)) st).2.2.2.1 < Set.ncard {y | Conn w h opq p₀ y} ∧
          (∀ sc ∈ (l.foldl (fun (st : Finset ℕ × ℕ × ℤ × ℕ × List (ℕ × List ℕ × ℕ))
          (p : Fin (w * h)) =>
        if p.val ∈ st.1 then st
        else if ¬ opq p.val = true then st
        else
          let id := st.2.1 + 1
          let r := bfsLoop w h opq mp (insert p.val st.1) [p] 0 [] true
          let largest := if st.2.2.2.1 < r.2.1 then ((id : ℤ), r.2.1)
            else (st.2.2.1, st.2.2.2.1)
          let small := if (r.2.1 : ℚ) ≤ mp ∧ 0 < r.2.2.1.length then
              st.2.2.2.2 ++ [(id, r.2.2.1, r.2.1)]
            else st.2.2.2.2
          (r.1, id, largest.1, largest.2, small)) st).2.2.2.2,
            ∀ x ∈ sc.2.1, ¬ Conn w h opq p₀ x)) ∧
        (∀ q ∈ l, opq (q : ℕ) = true → (q : ℕ) ∈ (l.foldl (fun (st : Finset ℕ × ℕ × ℤ × ℕ × List (ℕ × List ℕ × ℕ))
          (p : Fin (w * h)) =>
        if p.val ∈ st.1 then st
        else if ¬ opq p.val = true then st
        else
          let id := st.2.1 + 1
          let r := bfsLoop w h opq mp (insert p.val st.1) [p] 0 [] true
          let largest := if st.2.2.2.1 < r.2.1 then ((id : ℤ), r.2.1)
            else (st.2.2.1, st.2.2.2.1)
          let small := if (r.2.1 : ℚ) ≤ mp ∧ 0 < r.2.2.1.length then
              st.2.2.2.2 ++ [(id, r.2.2.1, r.2.1)]
            else st.2.2.2.2
          (r.1, id, largest.1, largest.2, small)) st).1)) := by
  intro l
  induction l with
  | nil =>
    intro st hJ1 hK2 hK3
    exact ⟨hJ1, hK2, hK3, fun q hq => absurd hq (List.not_mem_nil q)⟩
  | cons q l ih =>
    intro st hJ1 hK2 hK3
    simp only [List.foldl_cons]
    by_cases h1 : (q : ℕ) ∈ st.1
    · rw [if_pos h1]
      obtain ⟨a, b, c, d⟩ := ih st hJ1 hK2 hK3
      refine ⟨a, b, c, ?_⟩
      intro q2 hq2 hop2
      rcases List.mem_cons.mp hq2 with h3 | h3
      · subst h3
        exact scanFold_mono w h opq mp l st h1
      · exact d q2 h3 hop2
    · rw [if_neg h1]
      by_cases h2 : opq (q : ℕ) = true
      · rw [if_neg (not_not_intro h2)]
        obtain ⟨c1, c2, c3, c4, c5, c6⟩ := bfsRun_spec w h opq mp q st.1 h2 hJ1 h1
        set R := bfsLoop w h opq mp (insert (q : ℕ) st.1) [q] 0 [] true with hRdef
        by_cases hconn : Conn w h opq p₀ (q : ℕ)
        · have hp0n : p₀ ∉ st.1 := fun hm => h1 (Conn_closed_mem hJ1 hm hconn)
          obtain ⟨hlt, hsm⟩ := hK3 hp0n
          have hclass : {y | Conn w h opq p₀ y} = {y | Conn w h opq (q : ℕ) y} :=
            Conn_class_eq hconn
          have hsz : R.2.1 = Set.ncard {y | Conn w h opq p₀ y} := by
            rw [c4, ← hclass]
          have hbig : st.2.2.2.1 < R.2.1 := by rw [hsz]; exact hlt
          rw [if_pos hbig]
          have hp0r : p₀ ∈ R.1 := by
            have hx : p₀ ∈ {y | Conn w h opq (q : ℕ) y} := Conn_symm hconn
            rw [← c3] at hx
            exact (Finset.mem_sdiff.mp (Finset.mem_coe.mp hx)).1
          have hsafeA : ∀ sc ∈ (if (R.2.1 : ℚ) ≤ mp ∧ 0 < R.2.2.1.length then
              st.2.2.2.2 ++ [(st.2.1 + 1, R.2.2.1, R.2.1)] else st.2.2.2.2),
              (sc.1 : ℤ) ≠ ((st.2.1 + 1 : ℕ) : ℤ) →
              ∀ x ∈ sc.2.1, ¬ Conn w h opq p₀ x := by
            intro sc hsc hne
            by_cases hsm2 : (R.2.1 : ℚ) ≤ mp ∧ 0 < R.2.2.1.length
            · rw [if_pos hsm2] at hsc
              rcases List.mem_append.mp hsc with hold | hnew
              · exact hsm sc hold
              · rw [List.mem_singleton] at hnew
                subst hnew
                exact absurd rfl hne
            · rw [if_neg hsm2] at hsc
              exact hsm sc hsc
          have hinv2 : p₀ ∈ R.1 → R.2.1 = Set.ncard {y | Conn w h opq p₀ y} ∧
              ∀ sc ∈ (if (R.2.1 : ℚ) ≤ mp ∧ 0 < R.2.2.1.length then
                st.2.2.2.2 ++ [(st.2.1 + 1, R.2.2.1, R.2.1)] else st.2.2.2.2),
                (sc.1 : ℤ) ≠ ((st.2.1 + 1 : ℕ) : ℤ) →
                ∀ x ∈ sc.2.1, ¬ Conn w h opq p₀ x :=
            fun _ => ⟨hsz, hsafeA⟩
          have hinv3 : p₀ ∉ R.1 → R.2.1 < Set.ncard {y | Conn w h opq p₀ y} ∧
              ∀ sc ∈ (if (R.2.1 : ℚ) ≤ mp ∧ 0 < R.2.2.1.length then
                st.2.2.2.2 ++ [(st.2.1 + 1, R.2.2.1, R.2.1)] else st.2.2.2.2),
                ∀ x ∈ sc.2.1, ¬ Conn w h opq p₀ x :=
            fun hn => absurd hp0r hn
          obtain ⟨a, b, c, d⟩ := ih (R.1, st.2.1 + 1, ((st.2.1 + 1 : ℕ) : ℤ),
            R.2.1, if (R.2.1 : ℚ) ≤ mp ∧ 0 < R.2.2.1.length then
              st.2.2.2.2 ++ [(st.2.1 + 1, R.2.2.1, R.2.1)] else st.2.2.2.2)
            c2 hinv2 hinv3
          refine ⟨a, b, c, ?_⟩
          intro q2 hq2 hop2
          rcases List.mem_cons.mp hq2 with h3 | h3
          · subst h3
            exact scanFold_mono w h opq mp l (R.1, st.2.1 + 1,
              ((st.2.1 + 1 : ℕ) : ℤ), R.2.1,
              if (R.2.1 : ℚ) ≤ mp ∧ 0 < R.2.2.1.length then
                st.2.2.2.2 ++ [(st.2.1 + 1, R.2.2.1, R.2.1)] else st.2.2.2.2) c6
          · exact d q2 h3 hop2
        · have hq_lt : Set.ncard {y | Conn w h opq (q : ℕ) y} <
              Set.ncard {y | Conn w h opq p₀ y} := hdom (q : ℕ) q.isLt h2 hconn
          have hpr : p₀ ∈ R.1 → p₀ ∈ st.1 := by
            intro hm
            by_contra hn
            have hx : p₀ ∈ ((R.1 \ st.1 : Finset ℕ) : Set ℕ) :=
              Finset.mem_coe.mpr (Finset.mem_sdiff.mpr ⟨hm, hn⟩)
            rw [c3] at hx
            exact hconn (Conn_symm hx)
          have hpixB : ∀ x ∈ R.2.2.1, ¬ Conn w h opq p₀ x := fun x hx hcx =>
            hconn (Conn_trans hcx (Conn_symm (c5 x hx)))
          by_cases hp0 : p₀ ∈ st.1
          · obtain ⟨heq, hrecs⟩ := hK2 hp0
            have hnbig : ¬ st.2.2.2.1 < R.2.1 := by rw [heq, c4]; omega
            rw [if_neg hnbig]
            have hp0r : p₀ ∈ R.1 := c1 hp0
            have hsafeC : ∀ sc ∈ (if (R.2.1 : ℚ) ≤ mp ∧ 0 < R.2.2.1.length then
                st.2.2.2.2 ++ [(st.2.1 + 1, R.2.2.1, R.2.1)] else st.2.2.2.2),
                (sc.1 : ℤ) ≠ st.2.2.1 →
                ∀ x ∈ sc.2.1, ¬ Conn w h opq p₀ x := by
              intro sc hsc hne
              by_cases hsm2 : (R.2.1 : ℚ) ≤ mp ∧ 0 < R.2.2.1.length
              · rw [if_pos hsm2] at hsc
                rcases List.mem_append.mp hsc with hold | hnew
                · exact hrecs sc hold hne
                · rw [List.mem_singleton] at hnew
                  subst hnew
                  exact hpixB
              · rw [if_neg hsm2] at hsc
                exact hrecs sc hsc hne
            have hinv2 : p₀ ∈ R.1 →
                st.2.2.2.1 = Set.ncard {y | Conn w h opq p₀ y} ∧
                ∀ sc ∈ (if (R.2.1 : ℚ) ≤ mp ∧ 0 < R.2.2.1.length then
                  st.2.2.2.2 ++ [(st.2.1 + 1, R.2.2.1, R.2.1)] else st.2.2.2.2),
                  (sc.1 : ℤ) ≠ st.2.2.1 →
                  ∀ x ∈ sc.2.1, ¬ Conn w h opq p₀ x :=
              fun _ => ⟨heq, hsafeC⟩
            have hinv3 : p₀ ∉ R.1 →
                st.2.2.2.1 < Set.ncard {y | Conn w h opq p₀ y} ∧
                ∀ sc ∈ (if (R.2.1 : ℚ) ≤ mp ∧ 0 < R.2.2.1.length then
                  st.2.2.2.2 ++ [(st.2.1 + 1, R.2.2.1, R.2.1)] else st.2.2.2.2),
                  ∀ x ∈ sc.2.1, ¬ Conn w h opq p₀ x :=
              fun hn => absurd hp0r hn
            obtain ⟨a, b, c, d⟩ := ih (R.1, st.2.1 + 1, st.2.2.1, st.2.2.2.1,
              if (R.2.1 : ℚ) ≤ mp ∧ 0 < R.2.2.1.length then
                st.2.2.2.2 ++ [(st.2.1 + 1, R.2.2.1, R.2.1)] else st.2.2.2.2)
              c2 hinv2 hinv3
            refine ⟨a, b, c, ?_⟩
            intro q2 hq2 hop2
            rcases List.mem_cons.mp hq2 with h3 | h3
            · subst h3
              exact scanFold_mono w h opq mp l (R.1, st.2.1 + 1, st.2.2.1,
                st.2.2.2.1, if (R.2.1 : ℚ) ≤ mp ∧ 0 < R.2.2.1.length then
                  st.2.2.2.2 ++ [(st.2.1 + 1, R.2.2.1, R.2.1)] else
                    st.2.2.2.2) c6
            · exact d q2 h3 hop2
          · obtain ⟨hlt, hsm⟩ := hK3 hp0
            have hp0nr : p₀ ∉ R.1 := fun hm => hp0 (hpr hm)
            have hsafeU : ∀ sc ∈ (if (R.2.1 : ℚ) ≤ mp ∧ 0 < R.2.2.1.length then
                st.2.2.2.2 ++ [(st.2.1 + 1, R.2.2.1, R.2.1)] else st.2.2.2.2),
                ∀ x ∈ sc.2.1, ¬ Conn w h opq p₀ x := by
              intro sc hsc
              by_cases hsm2 : (R.2.1 : ℚ) ≤ mp ∧ 0 < R.2.2.1.length
              · rw [if_pos hsm2] at hsc
                rcases List.mem_append.mp hsc with hold | hnew
                · exact hsm sc hold
                · rw [List.mem_singleton] at hnew
                  subst hnew
                  exact hpixB
              · rw [if_neg hsm2] at hsc
                exact hsm sc hsc
            by_cases hbig : st.2.2.2.1 < R.2.1
            · rw [if_pos hbig]
              have hinv2 : p₀ ∈ R.1 →
                  R.2.1 = Set.ncard {y | Conn w h opq p₀ y} ∧
                  ∀ sc ∈ (if (R.2.1 : ℚ) ≤ mp ∧ 0 < R.2.2.1.length then
                    st.2.2.2.2 ++ [(st.2.1 + 1, R.2.2.1, R.2.1)] else
                      st.2.2.2.2),
                    (sc.1 : ℤ) ≠ ((st.2.1 + 1 : ℕ) : ℤ) →
                    ∀ x ∈ sc.2.1, ¬ Conn w h opq p₀ x :=
                fun hm => absurd hm hp0nr
              have hinv3 : p₀ ∉ R.1 →
                  R.2.1 < Set.ncard {y | Conn w h opq p₀ y} ∧
                  ∀ sc ∈ (if (R.2.1 : ℚ) ≤ mp ∧ 0 < R.2.2.1.length then
                    st.2.2.2.2 ++ [(st.2.1 + 1, R.2.2.1, R.2.1)] else
                      st.2.2.2.2),
                    ∀ x ∈ sc.2.1, ¬ Conn w h opq p₀ x :=
                fun _ => ⟨by rw [c4]; exact hq_lt, hsafeU⟩
              obtain ⟨a, b, c, d⟩ := ih (R.1, st.2.1 + 1,
                ((st.2.1 + 1 : ℕ) : ℤ), R.2.1,
                if (R.2.1 : ℚ) ≤ mp ∧ 0 < R.2.2.1.length then
                  st.2.2.2.2 ++ [(st.2.1 + 1, R.2.2.1, R.2.1)] else st.2.2.2.2)
                c2 hinv2 hinv3
              refine ⟨a, b, c, ?_⟩
              intro q2 hq2 hop2
              rcases List.mem_cons.mp hq2 with h3 | h3
              · subst h3
                exact scanFold_mono w h opq mp l (R.1, st.2.1 + 1,
                  ((st.2.1 + 1 : ℕ) : ℤ), R.2.1,
                  if (R.2.1 : ℚ) ≤ mp ∧ 0 < R.2.2.1.length then
                    st.2.2.2.2 ++ [(st.2.1 + 1, R.2.2.1, R.2.1)] else
                      st.2.2.2.2) c6
              · exact d q2 h3 hop2
            · rw [if_neg hbig]
              have hinv2 : p₀ ∈ R.1 →
                  st.2.2.2.1 = Set.ncard {y | Conn w h opq p₀ y} ∧
                  ∀ sc ∈ (if (R.2.1 : ℚ) ≤ mp ∧ 0 < R.2.2.1.length then
                    st.2.2.2.2 ++ [(st.2.1 + 1, R.2.2.1, R.2.1)] else
                      st.2.2.2.2),
                    (sc.1 : ℤ) ≠ st.2.2.1 →
                    ∀ x ∈ sc.2.1, ¬ Conn w h opq p₀ x :=
                fun hm => absurd hm hp0nr
              have hinv3 : p₀ ∉ R.1 →
                  st.2.2.2.1 < Set.ncard {y | Conn w h opq p₀ y} ∧
                  ∀ sc ∈ (if (R.2.1 : ℚ) ≤ mp ∧ 0 < R.2.2.1.length then
                    st.2.2.2.2 ++ [(st.2.1 + 1, R.2.2.1, R.2.1)] else
                      st.2.2.2.2),
                    ∀ x ∈ sc.2.1, ¬ Conn w h opq p₀ x :=
                fun _ => ⟨hlt, hsafeU⟩
              obtain ⟨a, b, c, d⟩ := ih (R.1, st.2.1 + 1, st.2.2.1, st.2.2.2.1,
                if (R.2.1 : ℚ) ≤ mp ∧ 0 < R.2.2.1.length then
                  st.2.2.2.2 ++ [(st.2.1 + 1, R.2.2.1, R.2.1)] else st.2.2.2.2)
                c2 hinv2 hinv3
              refine ⟨a, b, c, ?_⟩
              intro q2 hq2 hop2
              rcases List.mem_cons.mp hq2 with h3 | h3
              · subst h3
                exact scanFold_mono w h opq mp l (R.1, st.2.1 + 1, st.2.2.1,
                  st.2.2.2.1, if (R.2.1 : ℚ) ≤ mp ∧ 0 < R.2.2.1.length then
                    st.2.2.2.2 ++ [(st.2.1 + 1, R.2.2.1, R.2.1)] else
                      st.2.2.2.2) c6
              · exact d q2 h3 hop2
      · rw [if_pos h2]
        obtain ⟨a, b, c, d⟩ := ih st hJ1 hK2 hK3
        refine ⟨a, b, c, ?_⟩
        intro q2 hq2 hop2
        rcases List.mem_cons.mp hq2 with h3 | h3
        · subst h3
          exact absurd hop2 h2
        · exact d q2 h3 hop2


theorem foldl_set_getD (i : ℕ) :
    ∀ (ps : List ℕ) (d : List ℕ), (∀ y ∈ ps, y * 4 + 3 ≠ i) →
      (ps.foldl (fun d p => d.set (p * 4 + 3) 0) d).getD i 0 = d.getD i 0 := by
  intro ps
  induction ps with
  | nil => intro d _; rfl
  | cons p ps ih =>
    intro d hne
    simp only [List.foldl_cons]
    rw [ih (d.set (p * 4 + 3) 0) (fun y hy => hne y (List.mem_cons_of_mem _ hy))]
    rw [List.getD_eq_getElem?_getD, List.getD_eq_getElem?_getD,
      List.getElem?_set_ne (hne p (List.mem_cons_self _ _))]

theorem eraseAlphaAt_byte (img : RawImage) (ps : List ℕ) (i : ℕ)
    (hne : ∀ y ∈ ps, y * 4 + 3 ≠ i) :
    (eraseAlphaAt img ps).byte i = img.byte i :=
  foldl_set_getD i ps img.data hne

theorem eraseFold_byte (largestId : ℤ) (x : ℕ) :
    ∀ (smalls : List (ℕ × List ℕ × ℕ)),
      (∀ sc ∈ smalls, (sc.1 : ℤ) ≠ largestId → ∀ y ∈ sc.2.1, y ≠ x) →
      ∀ (st : RawImage × RawImage × ℕ × ℕ),
        ((smalls.foldl (fun (st : RawImage × RawImage × ℕ × ℕ) comp =>
          if (comp.1 : ℤ) = largestId then st
          else
            (eraseAlphaAt st.1 comp.2.1, eraseAlphaAt st.2.1 comp.2.1,
              st.2.2.1 + 1, st.2.2.2 + comp.2.2)) st).1.byte (x * 4 + 3) =
          st.1.byte (x * 4 + 3)) ∧
        ((smalls.foldl (fun (st : RawImage × RawImage × ℕ × ℕ) comp =>
          if (comp.1 : ℤ) = largestId then st
          else
            (eraseAlphaAt st.1 comp.2.1, eraseAlphaAt st.2.1 comp.2.1,
              st.2.2.1 + 1, st.2.2.2 + comp.2.2)) st).2.1.byte (x * 4 + 3) =
          st.2.1.byte (x * 4 + 3)) := by
  intro smalls
  induction smalls with
  | nil => intro _ st; exact ⟨rfl, rfl⟩
  | cons comp smalls ih =>
    intro hsafe st
    simp only [List.foldl_cons]
    by_cases hid : (comp.1 : ℤ) = largestId
    · rw [if_pos hid]
      exact ih (fun sc hsc => hsafe sc (List.mem_cons_of_mem _ hsc)) st
    · rw [if_neg hid]
      have hny : ∀ y ∈ comp.2.1, y * 4 + 3 ≠ x * 4 + 3 := by
        intro y hy hcontra
        exact hsafe comp (List.mem_cons_self _ _) hid y hy (by omega)
      obtain ⟨h1, h2⟩ := ih (fun sc hsc => hsafe sc (List.mem_cons_of_mem _ hsc))
        (eraseAlphaAt st.1 comp.2.1, eraseAlphaAt st.2.1 comp.2.1,
          st.2.2.1 + 1, st.2.2.2 + comp.2.2)
      constructor
      · rw [h1]
        exact eraseAlphaAt_byte st.1 comp.2.1 (x * 4 + 3) hny
      · rw [h2]
        exact eraseAlphaAt_byte st.2.1 comp.2.1 (x * 4 + 3) hny


/-- C6: for equal-sized working/mask bitmaps, any alpha threshold and any
floatingMaxPixels, removeSmallFloatingComponentsInPlace never clears the alpha
byte of any pixel of the single largest opaque 4-connected component (strict
dominance over every other component), and floatingMaxPixels ≤ 0 returns both
bitmaps unchanged. -/
theorem removeSmallFloating_preserves_largest (working masked : RawImage)
    (alphaThreshold maxPixels : ℚ) (w h : ℕ) (opq : ℕ → Bool) (p : ℕ)
    (hw : w = masked.width) (hh : h = masked.height)
    (hopq : opq = fun q =>
      decide (alphaThreshold ≤ (masked.byte (q * 4 + 3) : ℚ)))
    (hp : opq p = true) (hpw : p < w * h)
    (hdom : ∀ q, q < w * h → opq q = true → ¬ Conn w h opq p q →
      Set.ncard {y | Conn w h opq q y} < Set.ncard {y | Conn w h opq p y}) :
    (maxPixels ≤ 0 →
      removeSmallFloatingComponentsInPlace working masked alphaThreshold
        maxPixels = Except.ok (working, masked, 0, 0)) ∧
    ∀ res, removeSmallFloatingComponentsInPlace working masked alphaThreshold
        maxPixels = Except.ok res →
      ∀ x, Conn w h opq p x →
        res.1.byte (x * 4 + 3) = working.byte (x * 4 + 3) ∧
        res.2.1.byte (x * 4 + 3) = masked.byte (x * 4 + 3) := by
  subst hw hh hopq
  constructor
  · intro hle
    unfold removeSmallFloatingComponentsInPlace
    rw [if_pos hle]
  · intro res heq x hconnx
    by_cases hle : maxPixels ≤ 0
    · unfold removeSmallFloatingComponentsInPlace at heq
      rw [if_pos hle] at heq
      cases heq
      exact ⟨rfl, rfl⟩
    · simp only [removeSmallFloatingComponentsInPlace] at heq
      rw [if_neg hle] at heq
      split at heq
      · exact Except.noConfusion heq
      ·
        injection heq with hres
        subst hres
        have hcs : componentScan masked.width masked.height
            (fun q => decide (alphaThreshold ≤ (masked.byte (q * 4 + 3) : ℚ)))
            maxPixels =
            (List.finRange (masked.width * masked.height)).foldl (fun (st : Finset ℕ × ℕ × ℤ × ℕ × List (ℕ × List ℕ × ℕ))
            (p : Fin (masked.width * masked.height)) =>
          if p.val ∈ st.1 then st
          else if ¬ (fun q => decide (alphaThreshold ≤
              (masked.byte (q * 4 + 3) : ℚ))) p.val = true then st
          else
            let id := st.2.1 + 1
            let r := bfsLoop masked.width masked.height
              (fun q => decide (alphaThreshold ≤ (masked.byte (q * 4 + 3) : ℚ)))
              maxPixels (insert p.val st.1) [p] 0 [] true
            let largest := if st.2.2.2.1 < r.2.1 then ((id : ℤ), r.2.1)
              else (st.2.2.1, st.2.2.2.1)
            let small := if (r.2.1 : ℚ) ≤ maxPixels ∧ 0 < r.2.2.1.length then
                st.2.2.2.2 ++ [(id, r.2.2.1, r.2.1)]
              else st.2.2.2.2
            (r.1, id, largest.1, largest.2, small))
              (∅, 0, -1, 0, []) := rfl
        obtain ⟨jf, kin, kout, cov⟩ := scanFold_spec masked.width masked.height
          (fun q => decide (alphaThreshold ≤ (masked.byte (q * 4 + 3) : ℚ)))
          maxPixels p hdom (List.finRange (masked.width * masked.height))
          (∅, 0, -1, 0, [])
          (fun u hu => absurd hu (Finset.not_mem_empty u))
          (fun hm => absurd hm (Finset.not_mem_empty p))
          (fun _ => ⟨Conn_class_pos hp hpw,
            fun sc hsc => absurd hsc (List.not_mem_nil sc)⟩)
        rw [← hcs] at kin cov
        have hp0f := cov ⟨p, hpw⟩ (List.mem_finRange _) hp
        obtain ⟨hsize, hsafe0⟩ := kin hp0f
        exact eraseFold_byte _ x _
          (fun sc hsc hne y hy hyx => hsafe0 sc hsc hne y hy (hyx.symm ▸ hconnx))
          (working, masked, 0, 0)


theorem removeSmallFloating_preserves_largest_witness :
    ((5 : ℚ) ≤ 0 →
      removeSmallFloatingComponentsInPlace ⟨1, 1, [0, 0, 0, 255]⟩
        ⟨1, 1, [0, 0, 0, 255]⟩ 16 5 =
        Except.ok (⟨1, 1, [0, 0, 0, 255]⟩, ⟨1, 1, [0, 0, 0, 255]⟩, 0, 0)) ∧
    ∀ res, removeSmallFloatingComponentsInPlace ⟨1, 1, [0, 0, 0, 255]⟩
        ⟨1, 1, [0, 0, 0, 255]⟩ 16 5 = Except.ok res →
      ∀ x, Conn 1 1 (fun q => decide ((16 : ℚ) ≤
          (((⟨1, 1, [0, 0, 0, 255]⟩ : RawImage).byte (q * 4 + 3)) : ℚ))) 0 x →
        res.1.byte (x * 4 + 3) =
          (⟨1, 1, [0, 0, 0, 255]⟩ : RawImage).byte (x * 4 + 3) ∧
        res.2.1.byte (x * 4 + 3) =
          (⟨1, 1, [0, 0, 0, 255]⟩ : RawImage).byte (x * 4 + 3) :=
  removeSmallFloating_preserves_largest ⟨1, 1, [0, 0, 0, 255]⟩
    ⟨1, 1, [0, 0, 0, 255]⟩ 16 5 1 1
    (fun q => decide ((16 : ℚ) ≤
      (((⟨1, 1, [0, 0, 0, 255]⟩ : RawImage).byte (q * 4 + 3)) : ℚ))) 0
    rfl rfl rfl (by decide) (by decide)
    (fun q hq _ hnc => absurd
      ((Nat.lt_one_iff.mp hq).symm ▸
        (Relation.ReflTransGen.refl : Conn 1 1 (fun q => decide ((16 : ℚ) ≤
          (((⟨1, 1, [0, 0, 0, 255]⟩ : RawImage).byte (q * 4 + 3)) : ℚ))) 0 0))
      hnc)


theorem cbrt_nonneg {x : ℝ} (hx : 0 ≤ x) : 0 ≤ cbrt x :=
  Real.rpow_nonneg hx _

theorem cbrt_cube {x : ℝ} (hx : 0 ≤ x) : (cbrt x) ^ (3 : ℕ) = x := by
  rw [cbrt, ← Real.rpow_natCast (x ^ ((1 : ℝ) / 3)) 3, ← Real.rpow_mul hx]
  norm_num

theorem le_cbrt {a x : ℝ} (hx : 0 ≤ x) (ha : 0 ≤ a) (h : a ^ (3 : ℕ) ≤ x) :
    a ≤ cbrt x :=
  le_of_pow_le_pow_left₀ three_ne_zero (cbrt_nonneg hx)
    (by rw [cbrt_cube hx]; exact h)

theorem cbrt_le {a x : ℝ} (hx : 0 ≤ x) (ha : 0 ≤ a) (h : x ≤ a ^ (3 : ℕ)) :
    cbrt x ≤ a :=
  le_of_pow_le_pow_left₀ three_ne_zero ha (by rw [cbrt_cube hx]; exact h)

theorem maxFinite_pos : (0 : ℝ) < maxFinite := by
  unfold maxFinite
  have h : (2 : ℝ) ^ (971 : ℕ) < 2 ^ (1024 : ℕ) :=
    pow_lt_pow_right₀ one_lt_two (by norm_num)
  linarith


theorem pq_two_entry (p : PixelData) (t0 t1 : RGBn) (halpha : ¬ p.alpha = 0)
    (hd0 : paletteDist p (rgbToOklab p.r p.g p.b) t0
      (rgbToOklab t0.r t0.g t0.b) < 0)
    (hd1 : ¬ paletteDist p (rgbToOklab p.r p.g p.b) t1
        (rgbToOklab t1.r t1.g t1.b) <
      paletteDist p (rgbToOklab p.r p.g p.b) t0 (rgbToOklab t0.r t0.g t0.b)) :
    PaletteQuantizer.quantize [t0, t1] [p] = [⟨t0.r, t0.g, t0.b, p.alpha⟩] := by
  simp only [PaletteQuantizer.quantize, List.map_cons, List.map_nil,
    List.length_cons, List.length_nil]
  rw [if_neg halpha]
  rw [show List.range (0 + 1 + 1) = [0, 1] from rfl]
  simp only [List.foldl_cons, List.foldl_nil, List.getD_cons_zero,
    List.getD_cons_succ]
  rw [if_pos (lt_trans hd0 maxFinite_pos)]
  simp only [hd1, if_false]
  rfl


theorem rgbToOklab_black : rgbToOklab 0 0 0 = ⟨0, 0, 0⟩ := by
  have hs0 : srgbToLinear ((0 : ℕ) : ℝ) = 0 := by
    simp only [srgbToLinear]
    rw [if_pos (by norm_num)]
    norm_num
  have hc0 : cbrt 0 = 0 := by
    rw [cbrt]
    exact Real.zero_rpow (by norm_num)
  simp only [rgbToOklab, hs0]
  rw [Oklab.mk.injEq]
  norm_num [hc0]


theorem paletteDist_exact_self (p : PixelData) (t : RGBn) (lab : Oklab)
    (hne : ¬ (t.r = 0 ∧ t.g = 0 ∧ t.b = 0)) (hr : (p.r : ℝ) = t.r)
    (hg : (p.g : ℝ) = t.g) (hb : (p.b : ℝ) = t.b) :
    paletteDist p lab t lab = 0 := by
  simp only [paletteDist, colorDistanceSq]
  rw [if_neg hne]
  split_ifs with h1
  · rw [hr, hg, hb]
    ring
  · ring


set_option maxHeartbeats 1000000 in
theorem paletteDist_darkRed_black_neg :
    paletteDist ⟨1, 0, 0, 255⟩ (rgbToOklab 1 0 0) ⟨0, 0, 0⟩
      (rgbToOklab 0 0 0) < 0 := by
  have hs1 : srgbToLinear (1 : ℝ) = 1 / 3294.6 := by
    simp only [srgbToLinear]
    rw [if_pos (by norm_num)]
    norm_num
  have hs0 : srgbToLinear (0 : ℝ) = 0 := by
    simp only [srgbToLinear]
    rw [if_pos (by norm_num)]
    norm_num
  rw [rgbToOklab_black]
  simp only [paletteDist, colorDistanceSq, rgbToOklab, Nat.cast_one,
    Nat.cast_zero, hs1, hs0, mul_zero, add_zero, and_self, and_true, if_true]
  set c1 := cbrt (0.4122214708 * (1 / 3294.6)) with hc1
  set c2 := cbrt (0.2119034982 * (1 / 3294.6)) with hc2
  set c3 := cbrt (0.0883024619 * (1 / 3294.6)) with hc3
  have h1lo : (0.05 : ℝ) ≤ c1 := by
    rw [hc1]; exact le_cbrt (by norm_num) (by norm_num) (by norm_num)
  have h1hi : c1 ≤ 0.0501 := by
    rw [hc1]; exact cbrt_le (by norm_num) (by norm_num) (by norm_num)
  have h2lo : (0.04 : ℝ) ≤ c2 := by
    rw [hc2]; exact le_cbrt (by norm_num) (by norm_num) (by norm_num)
  have h2hi : c2 ≤ 0.0401 := by
    rw [hc2]; exact cbrt_le (by norm_num) (by norm_num) (by norm_num)
  have h3lo : (0.0299 : ℝ) ≤ c3 := by
    rw [hc3]; exact le_cbrt (by norm_num) (by norm_num) (by norm_num)
  have h3hi : c3 ≤ 0.03 := by
    rw [hc3]; exact cbrt_le (by norm_num) (by norm_num) (by norm_num)
  clear_value c1 c2 c3
  clear hc1 hc2 hc3 hs1 hs0
  set LL := 0.2104542553 * c1 + 0.793617785 * c2 - 0.0040720468 * c3 with hLL
  set AA := 1.9779984951 * c1 - 2.428592205 * c2 + 0.4505937099 * c3 with hAA
  set BB := 0.0259040371 * c1 + 0.7827717662 * c2 - 0.808675766 * c3 with hBB
  have hLlo : (0.0421 : ℝ) ≤ LL := by rw [hLL]; linarith
  have hLhi : LL ≤ 0.0423 := by rw [hLL]; linarith
  have hAlo : (0.0149 : ℝ) ≤ AA := by rw [hAA]; linarith
  have hAhi : AA ≤ 0.0155 := by rw [hAA]; linarith
  have hBlo : (0.0083 : ℝ) ≤ BB := by rw [hBB]; linarith
  have hBhi : BB ≤ 0.0086 := by rw [hBB]; linarith
  clear_value LL AA BB
  rw [if_pos (lt_of_le_of_lt hLhi (by norm_num : (0.0423 : ℝ) < 0.1)),
    if_pos (lt_of_le_of_lt hLhi (by norm_num : (0.0423 : ℝ) < 0.2))]
  have hLpos : (0 : ℝ) ≤ LL := le_trans (by norm_num) hLlo
  have hApos : (0 : ℝ) ≤ AA := le_trans (by norm_num) hAlo
  have hBpos : (0 : ℝ) ≤ BB := le_trans (by norm_num) hBlo
  have hLsq : LL * LL ≤ 0.0423 * 0.0423 :=
    mul_le_mul hLhi hLhi hLpos (by norm_num)
  have hAsq : AA * AA ≤ 0.0155 * 0.0155 :=
    mul_le_mul hAhi hAhi hApos (by norm_num)
  have hBsq : BB * BB ≤ 0.0086 * 0.0086 :=
    mul_le_mul hBhi hBhi hBpos (by norm_num)
  have hbias : (0.23655 : ℝ) ≤ (0.2 - LL) * 1.5 := by
    have h9 : LL ≤ 0.0423 := hLhi
    nlinarith [h9]
  have hbias2 : (0.23655 : ℝ) * 0.23655 ≤ ((0.2 - LL) * 1.5) * ((0.2 - LL) * 1.5) :=
    mul_le_mul hbias hbias (by norm_num) (le_trans (by norm_num) hbias)
  nlinarith [hLsq, hAsq, hBsq, hbias2, hLlo, hLhi]


/-- C3 counterexample: the pixel (1,0,0) with alpha 255 exactly matches the
second palette entry, but the exact-black bias makes the black candidate's
biased distance negative, so PaletteQuantizer.quantize maps the pixel to
black instead of to itself. -/
theorem quantize_exact_palette_counterexample :
    PaletteQuantizer.quantize [⟨0, 0, 0⟩, ⟨1, 0, 0⟩] [⟨1, 0, 0, 255⟩] =
      [⟨0, 0, 0, 255⟩] ∧
    (⟨0, 0, 0, 255⟩ : PixelData) ≠ ⟨1, 0, 0, 255⟩ := by
  constructor
  · refine Eq.trans (pq_two_entry ⟨1, 0, 0, 255⟩ ⟨0, 0, 0⟩ ⟨1, 0, 0⟩
      (by norm_num) ?_ ?_) rfl
    · show paletteDist ⟨1, 0, 0, 255⟩ (rgbToOklab 1 0 0) ⟨0, 0, 0⟩
        (rgbToOklab 0 0 0) < 0
      exact paletteDist_darkRed_black_neg
    · show ¬ paletteDist ⟨1, 0, 0, 255⟩ (rgbToOklab 1 0 0) ⟨1, 0, 0⟩
          (rgbToOklab 1 0 0) <
        paletteDist ⟨1, 0, 0, 255⟩ (rgbToOklab 1 0 0) ⟨0, 0, 0⟩
          (rgbToOklab 0 0 0)
      intro hlt
      rw [paletteDist_exact_self ⟨1, 0, 0, 255⟩ ⟨1, 0, 0⟩ (rgbToOklab 1 0 0)
        (by norm_num) (by norm_num) (by norm_num) (by norm_num)] at hlt
      exact lt_asymm paletteDist_darkRed_black_neg hlt
  · decide


theorem scanMin_pre (dist : ℕ → ℝ) :
    ∀ (l : List ℕ), (∀ j ∈ l, 0 < dist j) → ∀ st : ℝ × ℕ, 0 < st.1 →
      0 < (l.foldl (fun (st : ℝ × ℕ) i =>
        if dist i < st.1 then (dist i, i) else st) st).1 := by
  intro l
  induction l with
  | nil => intro _ st hst; exact hst
  | cons j l ih =>
    intro hall st hst
    simp only [List.foldl_cons]
    split_ifs with hc
    · exact ih (fun x hx => hall x (List.mem_cons_of_mem _ hx)) _
        (hall j (List.mem_cons_self _ _))
    · exact ih (fun x hx => hall x (List.mem_cons_of_mem _ hx)) st hst

theorem scanMin_post (dist : ℕ → ℝ) (k : ℕ) :
    ∀ (l : List ℕ), (∀ j ∈ l, 0 ≤ dist j) →
      l.foldl (fun (st : ℝ × ℕ) i =>
        if dist i < st.1 then (dist i, i) else st) (0, k) = (0, k) := by
  intro l
  induction l with
  | nil => intro _; rfl
  | cons j l ih =>
    intro hall
    simp only [List.foldl_cons]
    rw [if_neg (not_lt.mpr (hall j (List.mem_cons_self _ _)))]
    exact ih (fun x hx => hall x (List.mem_cons_of_mem _ hx))

theorem scanMin_eq (dist : ℕ → ℝ) (n k : ℕ) (hk : k < n) (hzero : dist k = 0)
    (hpos : ∀ j, j < n → j ≠ k → 0 < dist j) :
    ((List.range n).foldl (fun (st : ℝ × ℕ) i =>
      if dist i < st.1 then (dist i, i) else st) (maxFinite, 0)).2 = k := by
  have hn : n = (k + 1) + (n - (k + 1)) := by omega
  rw [hn, List.range_add, List.range_succ, List.foldl_append, List.foldl_append]
  have h1 : 0 < ((List.range k).foldl (fun (st : ℝ × ℕ) i =>
      if dist i < st.1 then (dist i, i) else st) (maxFinite, 0)).1 :=
    scanMin_pre dist (List.range k)
      (fun j hj => hpos j (by have := List.mem_range.mp hj; omega)
        (by have := List.mem_range.mp hj; omega))
      (maxFinite, 0) maxFinite_pos
  rw [List.foldl_cons, List.foldl_nil, if_pos (by rw [hzero]; exact h1), hzero]
  rw [scanMin_post dist k _ (by
    intro j hj
    obtain ⟨i, hi, hij⟩ := List.mem_map.mp hj
    have hi2 := List.mem_range.mp hi
    exact le_of_lt (hpos j (by omega) (by omega)))]

theorem paletteDist_bright (p : PixelData) (t : RGBn) (lab tlab : Oklab)
    (hL : ¬ lab.L < 0.2) :
    paletteDist p lab t tlab = colorDistanceSq lab tlab := by
  have h01 : ¬ lab.L < 0.1 := fun h => hL (lt_of_lt_of_le h (by norm_num))
  simp only [paletteDist, if_neg h01]
  split_ifs with hb <;> rfl

theorem paletteDist_self_bright (p : PixelData) (t : RGBn) (lab : Oklab)
    (hL : ¬ lab.L < 0.2) : paletteDist p lab t lab = 0 := by
  rw [paletteDist_bright p t lab lab hL]
  simp only [colorDistanceSq]
  ring


/-- C3 (amended): a pixel with nonzero alpha whose RGB exactly equals palette
entry k is mapped to itself by PaletteQuantizer.quantize, provided the pixel is
not very dark (Oklab L ≥ 0.2, so neither the exact-black bias nor the low-L RGB
term fires) and every other palette entry sits at positive Oklab distance. -/
theorem quantize_exact_palette_fixed (palette : List RGBn)
    (pixels : List PixelData) (p : PixelData) (k : ℕ)
    (hk : k < palette.length)
    (hentry : palette.getD k ⟨0, 0, 0⟩ = ⟨p.r, p.g, p.b⟩)
    (halpha : ¬ p.alpha = 0)
    (hL : ¬ (rgbToOklab p.r p.g p.b).L < 0.2)
    (hothers : ∀ j, j < palette.length → j ≠ k →
      0 < colorDistanceSq (rgbToOklab p.r p.g p.b)
        (rgbToOklab (palette.getD j ⟨0, 0, 0⟩).r (palette.getD j ⟨0, 0, 0⟩).g
          (palette.getD j ⟨0, 0, 0⟩).b)) :
    ∀ i, i < pixels.length → pixels.getD i ⟨0, 0, 0, 0⟩ = p →
      (PaletteQuantizer.quantize palette pixels).getD i ⟨0, 0, 0, 0⟩ = p := by
  intro i hi hpi
  simp only [PaletteQuantizer.quantize]
  rw [List.getD_eq_getElem _ _ (by simpa using hi), List.getElem_map]
  rw [List.getD_eq_getElem _ _ hi] at hpi
  rw [hpi]
  rw [if_neg halpha]
  have hmk : (List.map (fun c => rgbToOklab c.r c.g c.b) palette).getD k
      ⟨0, 0, 0⟩ = rgbToOklab p.r p.g p.b := by
    rw [List.getD_eq_getElem _ _ (by simpa using hk), List.getElem_map,
      ← List.getD_eq_getElem _ _ hk, hentry]
  have hidx := scanMin_eq (fun j => paletteDist p (rgbToOklab p.r p.g p.b)
      (palette.getD j ⟨0, 0, 0⟩)
      ((List.map (fun c => rgbToOklab c.r c.g c.b) palette).getD j ⟨0, 0, 0⟩))
    ((List.map (fun c => rgbToOklab c.r c.g c.b) palette).length) k
    (by simpa using hk)
    (by
      show paletteDist p (rgbToOklab p.r p.g p.b) (palette.getD k ⟨0, 0, 0⟩)
        ((List.map (fun c => rgbToOklab c.r c.g c.b) palette).getD k
          ⟨0, 0, 0⟩) = 0
      rw [hmk, hentry]
      exact paletteDist_self_bright p ⟨p.r, p.g, p.b⟩ _ hL)
    (by
      intro j hj hne
      show 0 < paletteDist p (rgbToOklab p.r p.g p.b)
        (palette.getD j ⟨0, 0, 0⟩)
        ((List.map (fun c => rgbToOklab c.r c.g c.b) palette).getD j ⟨0, 0, 0⟩)
      have hj2 : j < palette.length := by simpa using hj
      have hoth := hothers j hj2 hne
      rw [List.getD_eq_getElem _ _ hj2] at hoth
      rw [paletteDist_bright _ _ _ _ hL]
      rw [List.getD_eq_getElem _ _ (by simpa using hj2), List.getElem_map]
      exact hoth)
  rw [hidx, hentry]


theorem rgbToOklab_white_L : ¬ (rgbToOklab 255 255 255).L < 0.2 := by
  have hs : srgbToLinear (255 : ℝ) = 1 := by
    simp only [srgbToLinear]
    rw [if_neg (by norm_num)]
    norm_num [Real.one_rpow]
  simp only [rgbToOklab, Nat.cast_ofNat, hs, mul_one]
  intro hlt
  have h1 : (0.9 : ℝ) ≤ cbrt (0.4122214708 + 0.5363325363 + 0.0514459929) :=
    le_cbrt (by norm_num) (by norm_num) (by norm_num)
  have h2 : (0.9 : ℝ) ≤ cbrt (0.2119034982 + 0.6806995451 + 0.1073969566) :=
    le_cbrt (by norm_num) (by norm_num) (by norm_num)
  have h3 : cbrt (0.0883024619 + 0.2817188501 + 0.6299787005) ≤ 1.1 :=
    cbrt_le (by norm_num) (by norm_num) (by norm_num)
  linarith

theorem quantize_exact_palette_fixed_witness :
    (PaletteQuantizer.quantize [⟨255, 255, 255⟩]
      [⟨255, 255, 255, 255⟩]).getD 0 ⟨0, 0, 0, 0⟩ = ⟨255, 255, 255, 255⟩ :=
  quantize_exact_palette_fixed [⟨255, 255, 255⟩] [⟨255, 255, 255, 255⟩]
    ⟨255, 255, 255, 255⟩ 0 (by decide) rfl (by decide) rgbToOklab_white_L
    (fun j hj hne => absurd (Nat.lt_one_iff.mp hj) hne) 0 (by decide) rfl


theorem rpow_512_le {x a : ℝ} (hx : 0 ≤ x) (ha : 0 ≤ a)
    (h : x ^ (5 : ℕ) ≤ a ^ (12 : ℕ)) : x ^ ((1 : ℝ) / 2.4) ≤ a := by
  have key : (x ^ ((1 : ℝ) / 2.4)) ^ (12 : ℕ) = x ^ (5 : ℕ) := by
    rw [← Real.rpow_natCast (x ^ ((1 : ℝ) / 2.4)) 12, ← Real.rpow_mul hx,
      show (1 : ℝ) / 2.4 * ((12 : ℕ) : ℝ) = ((5 : ℕ) : ℝ) by norm_num,
      Real.rpow_natCast]
  exact le_of_pow_le_pow_left₀ (by norm_num : (12 : ℕ) ≠ 0) ha
    (by rw [key]; exact h)

theorem le_rpow_512 {x a : ℝ} (hx : 0 ≤ x) (ha : 0 ≤ a)
    (h : a ^ (12 : ℕ) ≤ x ^ (5 : ℕ)) : a ≤ x ^ ((1 : ℝ) / 2.4) := by
  have key : (x ^ ((1 : ℝ) / 2.4)) ^ (12 : ℕ) = x ^ (5 : ℕ) := by
    rw [← Real.rpow_natCast (x ^ ((1 : ℝ) / 2.4)) 12, ← Real.rpow_mul hx,
      show (1 : ℝ) / 2.4 * ((12 : ℕ) : ℝ) = ((5 : ℕ) : ℝ) by norm_num,
      Real.rpow_natCast]
  exact le_of_pow_le_pow_left₀ (by norm_num : (12 : ℕ) ≠ 0)
    (Real.rpow_nonneg hx _) (by rw [key]; exact h)

theorem rpow_125_le {x a : ℝ} (hx : 0 ≤ x) (ha : 0 ≤ a)
    (h : x ^ (12 : ℕ) ≤ a ^ (5 : ℕ)) : x ^ (2.4 : ℝ) ≤ a := by
  have key : (x ^ (2.4 : ℝ)) ^ (5 : ℕ) = x ^ (12 : ℕ) := by
    rw [← Real.rpow_natCast (x ^ (2.4 : ℝ)) 5, ← Real.rpow_mul hx,
      show (2.4 : ℝ) * ((5 : ℕ) : ℝ) = ((12 : ℕ) : ℝ) by norm_num,
      Real.rpow_natCast]
  exact le_of_pow_le_pow_left₀ (by norm_num : (5 : ℕ) ≠ 0) ha
    (by rw [key]; exact h)

theorem le_rpow_125 {x a : ℝ} (hx : 0 ≤ x) (ha : 0 ≤ a)
    (h : a ^ (5 : ℕ) ≤ x ^ (12 : ℕ)) : a ≤ x ^ (2.4 : ℝ) := by
  have key : (x ^ (2.4 : ℝ)) ^ (5 : ℕ) = x ^ (12 : ℕ) := by
    rw [← Real.rpow_natCast (x ^ (2.4 : ℝ)) 5, ← Real.rpow_mul hx,
      show (2.4 : ℝ) * ((5 : ℕ) : ℝ) = ((12 : ℕ) : ℝ) by norm_num,
      Real.rpow_natCast]
  exact le_of_pow_le_pow_left₀ (by norm_num : (5 : ℕ) ≠ 0)
    (Real.rpow_nonneg hx _) (by rw [key]; exact h)

theorem rpow_24_roundtrip {x : ℝ} (hx : 0 ≤ x) :
    (x ^ (2.4 : ℝ)) ^ ((1 : ℝ) / 2.4) = x := by
  rw [← Real.rpow_mul hx, show (2.4 : ℝ) * (1 / 2.4) = 1 by norm_num,
    Real.rpow_one]

theorem real_rpow_subadd {x y : ℝ} (hx : 0 ≤ x) (hy : 0 ≤ y) :
    (x + y) ^ ((1 : ℝ) / 2.4) ≤ x ^ ((1 : ℝ) / 2.4) + y ^ ((1 : ℝ) / 2.4) := by
  have key := NNReal.rpow_add_le_add_rpow (Real.toNNReal x) (Real.toNNReal y)
    (by norm_num : (0 : ℝ) ≤ 1 / 2.4) (by norm_num : (1 : ℝ) / 2.4 ≤ 1)
  have hcoe := NNReal.coe_le_coe.mpr key
  push_cast at hcoe
  rw [Real.coe_toNNReal x hx, Real.coe_toNNReal y hy] at hcoe
  exact hcoe


theorem srgbToLinear_mem (c : ℕ) (hc : c ≤ 255) :
    0 ≤ srgbToLinear (c : ℝ) ∧ srgbToLinear (c : ℝ) ≤ 1 := by
  have hc255 : (c : ℝ) ≤ 255 := by exact_mod_cast hc
  have hv0 : (0 : ℝ) ≤ (c : ℝ) / 255 := by positivity
  have hv1 : (c : ℝ) / 255 ≤ 1 := by
    rw [div_le_one (by norm_num)]
    linarith
  simp only [srgbToLinear]
  split_ifs with h
  · refine ⟨by positivity, ?_⟩
    rw [div_le_one (by norm_num)]
    linarith
  · have harg0 : (0 : ℝ) ≤ ((c : ℝ) / 255 + 0.055) / 1.055 := by positivity
    have harg1 : ((c : ℝ) / 255 + 0.055) / 1.055 ≤ 1 := by
      rw [div_le_one (by norm_num)]
      linarith
    exact ⟨Real.rpow_nonneg harg0 _, Real.rpow_le_one harg0 harg1 (by norm_num)⟩

set_option maxHeartbeats 1600000 in
theorem linearToSrgb_roundtrip (c : ℕ) (hc : c ≤ 255) (y : ℝ)
    (hd : |y - srgbToLinear (c : ℝ)| ≤ 1.8e-6) :
    (((linearToSrgb y).toNat : ℤ) - (c : ℤ)).natAbs ≤ 1 := by
  rw [abs_le] at hd
  have hmain : |(if y ≤ 0.0031308 then 12.92 * y
      else 1.055 * y ^ ((1 : ℝ) / 2.4) - 0.055) * 255 - (c : ℝ)| ≤ 1.49 := by
    by_cases hin : (c : ℝ) / 255 ≤ 0.04045
    · have hlin : srgbToLinear (c : ℝ) = (c : ℝ) / 255 / 12.92 := by
        simp only [srgbToLinear]
        rw [if_pos hin]
      rw [hlin] at hd
      have hcl : (c : ℝ) / 255 / 12.92 = (c : ℝ) * (5 / 16473) := by ring
      rw [hcl] at hd
      rw [div_le_iff (by norm_num : (0 : ℝ) < 255)] at hin
      by_cases hout : y ≤ 0.0031308
      · rw [if_pos hout, abs_le]
        constructor <;> linarith [hd.1, hd.2]
      · rw [if_neg hout, abs_le]
        have hy0 : (0.0031308 : ℝ) < y := not_le.mp hout
        have hyup : y ≤ 0.0031327 := by linarith [hd.2, hin]
        have hy5 : (0.0031308 : ℝ) ^ (5 : ℕ) ≤ y ^ (5 : ℕ) :=
          pow_le_pow_left₀ (by norm_num) (le_of_lt hy0) 5
        have hy5u : y ^ (5 : ℕ) ≤ (0.0031327 : ℝ) ^ (5 : ℕ) :=
          pow_le_pow_left₀ (by linarith) hyup 5
        have hzlo : (0.0904 : ℝ) ≤ y ^ ((1 : ℝ) / 2.4) :=
          le_rpow_512 (by linarith) (by norm_num)
            (le_trans (by norm_num) hy5)
        have hzhi : y ^ ((1 : ℝ) / 2.4) ≤ 0.0905 :=
          rpow_512_le (by linarith) (by norm_num)
            (le_trans hy5u (by norm_num))
        constructor <;> linarith [hd.1, hd.2, hzlo, hzhi]
    · have hlin : srgbToLinear (c : ℝ) =
          (((c : ℝ) / 255 + 0.055) / 1.055) ^ (2.4 : ℝ) := by
        simp only [srgbToLinear]
        rw [if_neg hin]
      rw [hlin] at hd
      have hc255 : (c : ℝ) ≤ 255 := by exact_mod_cast hc
      rw [not_le, lt_div_iff₀ (by norm_num : (0 : ℝ) < 255)] at hin
      set W := ((c : ℝ) / 255 + 0.055) / 1.055 with hWdef
      have hcW : (c : ℝ) = 269.025 * W - 14.025 := by rw [hWdef]; ring
      have hW0 : 0 ≤ W := by rw [hWdef]; positivity
      have hWlo : (0.0904 : ℝ) < W := by linarith [hcW, hin]
      by_cases hout : y ≤ 0.0031308
      · rw [if_pos hout, abs_le]
        have hlinlo : (0.00312 : ℝ) ≤ W ^ (2.4 : ℝ) := by
          refine le_rpow_125 hW0 (by norm_num) ?_
          have h12 : (0.0904 : ℝ) ^ (12 : ℕ) ≤ W ^ (12 : ℕ) :=
            pow_le_pow_left₀ (by norm_num) (le_of_lt hWlo) 12
          exact le_trans (by norm_num) h12
        have hWhi : W ≤ 0.0905 := by
          by_contra hcon
          rw [not_le] at hcon
          have h1 : (0.0905 : ℝ) ^ (2.4 : ℝ) ≤ W ^ (2.4 : ℝ) :=
            Real.rpow_le_rpow (by norm_num) (le_of_lt hcon) (by norm_num)
          have h2 : (0.0031327 : ℝ) ≤ (0.0905 : ℝ) ^ (2.4 : ℝ) :=
            le_rpow_125 (by norm_num) (by norm_num) (by norm_num)
          linarith [hd.1]
        constructor <;> linarith [hd.1, hd.2, hlinlo]
      · rw [if_neg hout, abs_le]
        have hy0 : (0 : ℝ) ≤ y := le_of_lt (lt_trans (by norm_num)
          (not_le.mp hout))
        have hsub1 : (1.8e-6 : ℝ) ^ ((1 : ℝ) / 2.4) ≤ 0.0041 :=
          rpow_512_le (by norm_num) (by norm_num) (by norm_num)
        have hzup : y ^ ((1 : ℝ) / 2.4) ≤ W + 0.0041 := by
          have h1 : y ^ ((1 : ℝ) / 2.4) ≤
              (W ^ (2.4 : ℝ) + 1.8e-6) ^ ((1 : ℝ) / 2.4) :=
            Real.rpow_le_rpow hy0 (by linarith [hd.2]) (by norm_num)
          have h2 : (W ^ (2.4 : ℝ) + 1.8e-6) ^ ((1 : ℝ) / 2.4) ≤
              (W ^ (2.4 : ℝ)) ^ ((1 : ℝ) / 2.4) +
                (1.8e-6 : ℝ) ^ ((1 : ℝ) / 2.4) :=
            real_rpow_subadd (Real.rpow_nonneg hW0 _) (by norm_num)
          rw [rpow_24_roundtrip hW0] at h2
          linarith
        have hzlo : W - 0.0041 ≤ y ^ ((1 : ℝ) / 2.4) := by
          have h1 : (W ^ (2.4 : ℝ)) ^ ((1 : ℝ) / 2.4) ≤
              (y + 1.8e-6) ^ ((1 : ℝ) / 2.4) :=
            Real.rpow_le_rpow (Real.rpow_nonneg hW0 _) (by linarith [hd.1])
              (by norm_num)
          have h2 : (y + 1.8e-6) ^ ((1 : ℝ) / 2.4) ≤
              y ^ ((1 : ℝ) / 2.4) + (1.8e-6 : ℝ) ^ ((1 : ℝ) / 2.4) :=
            real_rpow_subadd hy0 (by norm_num)
          rw [rpow_24_roundtrip hW0] at h1
          linarith
        constructor <;> linarith [hzup, hzlo, hcW]
  rw [abs_le] at hmain
  simp only [linearToSrgb, jsRoundR]
  have hf1 : ⌊(if y ≤ 0.0031308 then 12.92 * y
      else 1.055 * y ^ ((1 : ℝ) / 2.4) - 0.055) * 255 + 1 / 2⌋ < (c : ℤ) + 2 := by
    refine Int.floor_lt.mpr ?_
    push_cast
    linarith [hmain.2]
  have hf2 : (c : ℤ) - 1 ≤ ⌊(if y ≤ 0.0031308 then 12.92 * y
      else 1.055 * y ^ ((1 : ℝ) / 2.4) - 0.055) * 255 + 1 / 2⌋ := by
    refine Int.le_floor.mpr ?_
    push_cast
    linarith [hmain.1]
  omega


set_option maxHeartbeats 1600000 in
/-- C7: for every 8-bit RGB triple, the Oklab round trip
oklabToRgb (rgbToOklab r g b) returns each channel within ±1 of its input:
the conversion matrices of colorUtils.ts are approximate inverses whose exact
round-trip error in linear space is below 1.8e-6, which the gamma encode and
the round-to-nearest store keep within one output step. -/
theorem oklabToRgb_rgbToOklab_within_one (r g b : ℕ) (hr : r ≤ 255)
    (hg : g ≤ 255) (hb : b ≤ 255) :
    (((oklabToRgb (rgbToOklab r g b)).r : ℤ) - (r : ℤ)).natAbs ≤ 1 ∧
    (((oklabToRgb (rgbToOklab r g b)).g : ℤ) - (g : ℤ)).natAbs ≤ 1 ∧
    (((oklabToRgb (rgbToOklab r g b)).b : ℤ) - (b : ℤ)).natAbs ≤ 1 := by
  obtain ⟨h1a, h1b⟩ := srgbToLinear_mem r hr
  obtain ⟨h2a, h2b⟩ := srgbToLinear_mem g hg
  obtain ⟨h3a, h3b⟩ := srgbToLinear_mem b hb
  simp only [rgbToOklab, oklabToRgb]
  set x1 := srgbToLinear (r : ℝ) with hx1def
  set x2 := srgbToLinear (g : ℝ) with hx2def
  set x3 := srgbToLinear (b : ℝ) with hx3def
  set u1 := 0.4122214708 * x1 + 0.5363325363 * x2 + 0.0514459929 * x3
    with hu1def
  set u2 := 0.2119034982 * x1 + 0.6806995451 * x2 + 0.1073969566 * x3
    with hu2def
  set u3 := 0.0883024619 * x1 + 0.2817188501 * x2 + 0.6299787005 * x3
    with hu3def
  have h0u1 : 0 ≤ u1 := by rw [hu1def]; linarith
  have h0u2 : 0 ≤ u2 := by rw [hu2def]; linarith
  have h0u3 : 0 ≤ u3 := by rw [hu3def]; linarith
  have hmu1 : u1 ≤ 1.0000000125 := by rw [hu1def]; linarith
  have hmu2 : u2 ≤ 1.0000000125 := by rw [hu2def]; linarith
  have hmu3 : u3 ≤ 1.0000000125 := by rw [hu3def]; linarith
  set c1 := cbrt u1 with hc1def
  set c2 := cbrt u2 with hc2def
  set c3 := cbrt u3 with hc3def
  have h0c1 : 0 ≤ c1 := by rw [hc1def]; exact cbrt_nonneg h0u1
  have h0c2 : 0 ≤ c2 := by rw [hc2def]; exact cbrt_nonneg h0u2
  have h0c3 : 0 ≤ c3 := by rw [hc3def]; exact cbrt_nonneg h0u3
  have hmc1 : c1 ≤ 1.000000005 := by
    rw [hc1def]
    exact cbrt_le h0u1 (by norm_num) (le_trans hmu1 (by norm_num))
  have hmc2 : c2 ≤ 1.000000005 := by
    rw [hc2def]
    exact cbrt_le h0u2 (by norm_num) (le_trans hmu2 (by norm_num))
  have hmc3 : c3 ≤ 1.000000005 := by
    rw [hc3def]
    exact cbrt_le h0u3 (by norm_num) (le_trans hmu3 (by norm_num))
  have hcu1 : c1 * c1 * c1 = u1 := by
    rw [hc1def, show cbrt u1 * cbrt u1 * cbrt u1 = cbrt u1 ^ (3 : ℕ) by ring,
      cbrt_cube h0u1]
  have hcu2 : c2 * c2 * c2 = u2 := by
    rw [hc2def, show cbrt u2 * cbrt u2 * cbrt u2 = cbrt u2 ^ (3 : ℕ) by ring,
      cbrt_cube h0u2]
  have hcu3 : c3 * c3 * c3 = u3 := by
    rw [hc3def, show cbrt u3 * cbrt u3 * cbrt u3 = cbrt u3 ^ (3 : ℕ) by ring,
      cbrt_cube h0u3]
  set t1 := 0.2104542553 * c1 + 0.793617785 * c2 - 0.0040720468 * c3 +
      0.3963377774 * (1.9779984951 * c1 - 2.428592205 * c2 +
        0.4505937099 * c3) +
      0.2158037573 * (0.0259040371 * c1 + 0.7827717662 * c2 -
        0.808675766 * c3) with ht1def
  set t2 := 0.2104542553 * c1 + 0.793617785 * c2 - 0.0040720468 * c3 -
      0.1055613458 * (1.9779984951 * c1 - 2.428592205 * c2 +
        0.4505937099 * c3) -
      0.0638541728 * (0.0259040371 * c1 + 0.7827717662 * c2 -
        0.808675766 * c3) with ht2def
  set t3 := 0.2104542553 * c1 + 0.793617785 * c2 - 0.0040720468 * c3 -
      0.0894841775 * (1.9779984951 * c1 - 2.428592205 * c2 +
        0.4505937099 * c3) -
      1.291485548 * (0.0259040371 * c1 + 0.7827717662 * c2 -
        0.808675766 * c3) with ht3def
  clear_value x1 x2 x3 u1 u2 u3 c1 c2 c3 t1 t2 t3
  clear hc1def hc2def hc3def
  have het1 : |t1 - c1| ≤ 7.6e-8 := by
    rw [ht1def, abs_le]
    constructor <;> linarith
  have het2 : |t2 - c2| ≤ 7.6e-8 := by
    rw [ht2def, abs_le]
    constructor <;> linarith
  have het3 : |t3 - c3| ≤ 7.6e-8 := by
    rw [ht3def, abs_le]
    constructor <;> linarith
  have hat1 : -1.0000001 ≤ t1 ∧ t1 ≤ 1.0000001 := by
    have h := abs_le.mp het1
    constructor <;> linarith [h.1, h.2]
  have hat2 : -1.0000001 ≤ t2 ∧ t2 ≤ 1.0000001 := by
    have h := abs_le.mp het2
    constructor <;> linarith [h.1, h.2]
  have hat3 : -1.0000001 ≤ t3 ∧ t3 ≤ 1.0000001 := by
    have h := abs_le.mp het3
    constructor <;> linarith [h.1, h.2]
  have hq1 : 0 ≤ t1 * t1 + t1 * c1 + c1 * c1 ∧
      t1 * t1 + t1 * c1 + c1 * c1 ≤ 3.001 := by
    have habs1 : |t1| ≤ 1.0000001 := abs_le.mpr hat1
    have hs1 : t1 * t1 ≤ 1.0000001 * 1.0000001 := by
      rw [← abs_mul_abs_self t1]
      exact mul_self_le_mul_self (abs_nonneg t1) habs1
    have hs2 : t1 * c1 ≤ 1.0000001 * 1.000000005 :=
      le_trans (le_abs_self _) (by
        rw [abs_mul, abs_of_nonneg h0c1]
        exact mul_le_mul habs1 hmc1 h0c1 (by norm_num))
    have hs3 : c1 * c1 ≤ 1.000000005 * 1.000000005 :=
      mul_self_le_mul_self h0c1 hmc1
    have hpos : t1 * t1 + t1 * c1 + c1 * c1 =
        (t1 + c1 / 2) ^ 2 + 3 / 4 * c1 ^ 2 := by ring
    constructor
    · rw [hpos]
      positivity
    · linarith
  have hq2 : 0 ≤ t2 * t2 + t2 * c2 + c2 * c2 ∧
      t2 * t2 + t2 * c2 + c2 * c2 ≤ 3.001 := by
    have habs2 : |t2| ≤ 1.0000001 := abs_le.mpr hat2
    have hs1 : t2 * t2 ≤ 1.0000001 * 1.0000001 := by
      rw [← abs_mul_abs_self t2]
      exact mul_self_le_mul_self (abs_nonneg t2) habs2
    have hs2 : t2 * c2 ≤ 1.0000001 * 1.000000005 :=
      le_trans (le_abs_self _) (by
        rw [abs_mul, abs_of_nonneg h0c2]
        exact mul_le_mul habs2 hmc2 h0c2 (by norm_num))
    have hs3 : c2 * c2 ≤ 1.000000005 * 1.000000005 :=
      mul_self_le_mul_self h0c2 hmc2
    have hpos : t2 * t2 + t2 * c2 + c2 * c2 =
        (t2 + c2 / 2) ^ 2 + 3 / 4 * c2 ^ 2 := by ring
    constructor
    · rw [hpos]
      positivity
    · linarith
  have hq3 : 0 ≤ t3 * t3 + t3 * c3 + c3 * c3 ∧
      t3 * t3 + t3 * c3 + c3 * c3 ≤ 3.001 := by
    have habs3 : |t3| ≤ 1.0000001 := abs_le.mpr hat3
    have hs1 : t3 * t3 ≤ 1.0000001 * 1.0000001 := by
      rw [← abs_mul_abs_self t3]
      exact mul_self_le_mul_self (abs_nonneg t3) habs3
    have hs2 : t3 * c3 ≤ 1.0000001 * 1.000000005 :=
      le_trans (le_abs_self _) (by
        rw [abs_mul, abs_of_nonneg h0c3]
        exact mul_le_mul habs3 hmc3 h0c3 (by norm_num))
    have hs3 : c3 * c3 ≤ 1.000000005 * 1.000000005 :=
      mul_self_le_mul_self h0c3 hmc3
    have hpos : t3 * t3 + t3 * c3 + c3 * c3 =
        (t3 + c3 / 2) ^ 2 + 3 / 4 * c3 ^ 2 := by ring
    constructor
    · rw [hpos]
      positivity
    · linarith
  have hcube1 : |t1 * t1 * t1 - u1| ≤ 2.29e-7 := by
    have hfact : t1 * t1 * t1 - u1 =
        (t1 - c1) * (t1 * t1 + t1 * c1 + c1 * c1) := by
      rw [← hcu1]; ring
    rw [hfact, abs_mul, abs_of_nonneg hq1.1]
    exact le_trans (mul_le_mul het1 hq1.2 hq1.1 (by norm_num)) (by norm_num)
  have hcube2 : |t2 * t2 * t2 - u2| ≤ 2.29e-7 := by
    have hfact : t2 * t2 * t2 - u2 =
        (t2 - c2) * (t2 * t2 + t2 * c2 + c2 * c2) := by
      rw [← hcu2]; ring
    rw [hfact, abs_mul, abs_of_nonneg hq2.1]
    exact le_trans (mul_le_mul het2 hq2.2 hq2.1 (by norm_num)) (by norm_num)
  have hcube3 : |t3 * t3 * t3 - u3| ≤ 2.29e-7 := by
    have hfact : t3 * t3 * t3 - u3 =
        (t3 - c3) * (t3 * t3 + t3 * c3 + c3 * c3) := by
      rw [← hcu3]; ring
    rw [hfact, abs_mul, abs_of_nonneg hq3.1]
    exact le_trans (mul_le_mul het3 hq3.2 hq3.1 (by norm_num)) (by norm_num)
  have hb1 := abs_le.mp hcube1
  have hb2 := abs_le.mp hcube2
  have hb3 := abs_le.mp hcube3
  refine ⟨linearToSrgb_roundtrip r hr _ ?_, linearToSrgb_roundtrip g hg _ ?_,
    linearToSrgb_roundtrip b hb _ ?_⟩
  · rw [abs_le]
    constructor <;>
      linarith [hb1.1, hb1.2, hb2.1, hb2.2, hb3.1, hb3.2, hu1def, hu2def,
        hu3def, hx1def, hx2def, hx3def]
  · rw [abs_le]
    constructor <;>
      linarith [hb1.1, hb1.2, hb2.1, hb2.2, hb3.1, hb3.2, hu1def, hu2def,
        hu3def, hx1def, hx2def, hx3def]
  · rw [abs_le]
    constructor <;>
      linarith [hb1.1, hb1.2, hb2.1, hb2.2, hb3.1, hb3.2, hu1def, hu2def,
        hu3def, hx1def, hx2def, hx3def]


theorem oklabToRgb_rgbToOklab_within_one_witness :
    (((oklabToRgb (rgbToOklab 0 128 255)).r : ℤ) - ((0 : ℕ) : ℤ)).natAbs ≤ 1 ∧
    (((oklabToRgb (rgbToOklab 0 128 255)).g : ℤ) -
      ((128 : ℕ) : ℤ)).natAbs ≤ 1 ∧
    (((oklabToRgb (rgbToOklab 0 128 255)).b : ℤ) -
      ((255 : ℕ) : ℤ)).natAbs ≤ 1 :=
  oklabToRgb_rgbToOklab_within_one 0 128 255 (by decide) (by decide)
    (by decide)

end PixelRefiner
